import Mathlib

/-!
# AirGradient cellular payload encoder

A shallow embedding of `payload_types.h` and `payload_encoder.cpp`, followed by
the theorems that relate the encoder to its wire-format specification.

Conventions of the embedding:

* machine integers are `Nat` (unsigned) or `Int` (signed); every 32-bit
  addition and subtraction of the source is taken modulo `2 ^ 32`
  (`add32`, `sub32`) and every integer conversion is explicit (`u32`, `i32`);
* the output memory is a map from byte index to byte value; a pointer
  `&buffer[k]` is the pair of that memory and the index `k`;
* a null `buffer` argument is `none`;
* an early `return -1` inside the emission loops is `Except.error`, carrying
  the memory as it is at that point (partial output is not rolled back).
-/

namespace AirgradientPayload

/-! ## payload_types.h -/

/-- Maximum number of readings in a batch. -/
def MAX_BATCH_SIZE : Nat := 20

@[match_pattern] def FLAG_TEMP : Nat := 0
@[match_pattern] def FLAG_HUM : Nat := 1
@[match_pattern] def FLAG_CO2 : Nat := 2
@[match_pattern] def FLAG_TVOC : Nat := 3
@[match_pattern] def FLAG_TVOC_RAW : Nat := 4
@[match_pattern] def FLAG_NOX : Nat := 5
@[match_pattern] def FLAG_NOX_RAW : Nat := 6
@[match_pattern] def FLAG_PM_01 : Nat := 7
@[match_pattern] def FLAG_PM_25 : Nat := 8
@[match_pattern] def FLAG_PM_10 : Nat := 9
@[match_pattern] def FLAG_PM_01_SP : Nat := 10
@[match_pattern] def FLAG_PM_25_SP : Nat := 11
@[match_pattern] def FLAG_PM_10_SP : Nat := 12
@[match_pattern] def FLAG_PM_03_PC : Nat := 13
@[match_pattern] def FLAG_PM_05_PC : Nat := 14
@[match_pattern] def FLAG_PM_01_PC : Nat := 15
@[match_pattern] def FLAG_PM_25_PC : Nat := 16
@[match_pattern] def FLAG_PM_5_PC : Nat := 17
@[match_pattern] def FLAG_PM_10_PC : Nat := 18
@[match_pattern] def FLAG_VBAT : Nat := 19
@[match_pattern] def FLAG_VPANEL : Nat := 20
@[match_pattern] def FLAG_O3_WE : Nat := 21
@[match_pattern] def FLAG_O3_AE : Nat := 22
@[match_pattern] def FLAG_NO2_WE : Nat := 23
@[match_pattern] def FLAG_NO2_AE : Nat := 24
@[match_pattern] def FLAG_AFE_TEMP : Nat := 25
@[match_pattern] def FLAG_SIGNAL : Nat := 26

/-- The macro `FLAG_BIT(flag)`, that is `1U << (flag)`, a 32-bit value. -/
def FLAG_BIT (flag : Nat) : Nat := (1 <<< flag) % 4294967296

/-- The macro `IS_FLAG_SET(mask, flag)`, that is `((mask) & FLAG_BIT(flag)) != 0`. -/
def IS_FLAG_SET (mask flag : Nat) : Bool := (mask &&& FLAG_BIT flag) != 0

/-- The struct `SensorReading`. Arrays `T x[2]` are functions on `Fin 2`;
`temp` is `int16_t`, `signal` is `int8_t`, `presence_mask` and the four
electrode fields are `uint32_t`, every other field is `uint16_t`. -/
structure SensorReading where
  presence_mask : Nat
  temp : Fin 2 → Int
  hum : Fin 2 → Nat
  pm_01 : Fin 2 → Nat
  pm_25 : Fin 2 → Nat
  pm_10 : Fin 2 → Nat
  pm_01_sp : Fin 2 → Nat
  pm_25_sp : Fin 2 → Nat
  pm_10_sp : Fin 2 → Nat
  pm_03_pc : Fin 2 → Nat
  pm_05_pc : Fin 2 → Nat
  pm_01_pc : Fin 2 → Nat
  pm_25_pc : Fin 2 → Nat
  pm_5_pc : Fin 2 → Nat
  pm_10_pc : Fin 2 → Nat
  co2 : Nat
  tvoc : Nat
  tvoc_raw : Nat
  nox : Nat
  nox_raw : Nat
  vbat : Nat
  vpanel : Nat
  o3_we : Nat
  o3_ae : Nat
  no2_we : Nat
  no2_ae : Nat
  afe_temp : Nat
  signal : Int

/-- The struct `PayloadHeader`; `version` and `interval_minutes` are `uint8_t`. -/
structure PayloadHeader where
  version : Nat
  dual_mode : Bool
  dedicated_temphum_sensor : Bool
  interval_minutes : Nat

/-- The struct `EncoderContext`: `readings` is the array of `MAX_BATCH_SIZE`
slots, `reading_count` is `uint8_t`. -/
structure EncoderContext where
  header : PayloadHeader
  readings : Fin MAX_BATCH_SIZE → SensorReading
  reading_count : Nat

/-- A reading whose every byte is zero (what `memset(.., 0, ..)` leaves). -/
def zeroReading : SensorReading :=
  { presence_mask := 0, temp := fun _ => 0, hum := fun _ => 0, pm_01 := fun _ => 0,
    pm_25 := fun _ => 0, pm_10 := fun _ => 0, pm_01_sp := fun _ => 0,
    pm_25_sp := fun _ => 0, pm_10_sp := fun _ => 0, pm_03_pc := fun _ => 0,
    pm_05_pc := fun _ => 0, pm_01_pc := fun _ => 0, pm_25_pc := fun _ => 0,
    pm_5_pc := fun _ => 0, pm_10_pc := fun _ => 0, co2 := 0, tvoc := 0, tvoc_raw := 0,
    nox := 0, nox_raw := 0, vbat := 0, vpanel := 0, o3_we := 0, o3_ae := 0,
    no2_we := 0, no2_ae := 0, afe_temp := 0, signal := 0 }

/-- The header whose every byte is zero. -/
def zeroHeader : PayloadHeader :=
  { version := 0, dual_mode := false, dedicated_temphum_sensor := false,
    interval_minutes := 0 }

/-- The element `ctx.readings[i]`. The source reads it only for
`i < reading_count`; outside the array (undefined behaviour in the source)
the embedding yields `zeroReading`, and every theorem that reads the array
assumes `reading_count ≤ MAX_BATCH_SIZE`. -/
def EncoderContext.readingAt (ctx : EncoderContext) (i : Nat) : SensorReading :=
  if h : i < MAX_BATCH_SIZE then ctx.readings ⟨i, h⟩ else zeroReading

/-- The helper `initSensorReading`. -/
def initSensorReading (reading : SensorReading) : SensorReading :=
  { reading with presence_mask := 0 }

/-- The helper `setFlag`: `presence_mask |= FLAG_BIT(flag)`. -/
def setFlag (reading : SensorReading) (flag : Nat) : SensorReading :=
  { reading with presence_mask := reading.presence_mask ||| FLAG_BIT flag }

/-- The helper `clearFlag`: `presence_mask &= ~FLAG_BIT(flag)`, the complement
taken in 32 bits. -/
def clearFlag (reading : SensorReading) (flag : Nat) : SensorReading :=
  { reading with
    presence_mask := reading.presence_mask &&& (4294967295 ^^^ FLAG_BIT flag) }

/-- The helper `isFlagSet`. -/
def isFlagSet (reading : SensorReading) (flag : Nat) : Bool :=
  IS_FLAG_SET reading.presence_mask flag

/-! ## Machine arithmetic -/

/-- Addition of two `uint32_t` values. -/
def add32 (a b : Nat) : Nat := (a + b) % 4294967296

/-- Subtraction of two `uint32_t` values. -/
def sub32 (a b : Nat) : Nat := (a + 4294967296 - b % 4294967296) % 4294967296

/-- Conversion of an `int32_t` to `uint32_t`. -/
def u32 (x : Int) : Nat := (x % 4294967296).toNat

/-- Conversion of a `uint32_t` to `int32_t`. -/
def i32 (x : Nat) : Int :=
  if x % 4294967296 < 2147483648 then ((x % 4294967296 : Nat) : Int)
  else ((x % 4294967296 : Nat) : Int) - 4294967296

/-! ## Output memory -/

/-- Byte memory reachable from the caller's `buffer` pointer, by index. -/
abbrev Buffer := Nat → Nat

/-- The assignment `buffer[i] = v` of a byte. -/
def writeByte (buffer : Buffer) (i v : Nat) : Buffer :=
  fun j => if j = i then v else buffer j

/-! ## payload_encoder.cpp -/

/-- Source `PayloadEncoder::reset`: `memset(&ctx, 0, sizeof(EncoderContext))`. -/
def reset (_ctx : EncoderContext) : EncoderContext :=
  { header := zeroHeader, readings := fun _ => zeroReading, reading_count := 0 }

/-- Source `PayloadEncoder::PayloadEncoder`: the constructor calls `reset`. -/
def construct : EncoderContext :=
  { header := zeroHeader, readings := fun _ => zeroReading, reading_count := 0 }

/-- Source `PayloadEncoder::init`: `reset(); ctx.header = header;`. -/
def init (ctx : EncoderContext) (header : PayloadHeader) : EncoderContext :=
  { reset ctx with header := header }

/-- Source `PayloadEncoder::addReading`: the returned flag and the new state.
The post-increment of the `uint8_t` count is taken modulo 256. -/
def addReading (ctx : EncoderContext) (reading : SensorReading) : Bool × EncoderContext :=
  if ctx.reading_count ≥ MAX_BATCH_SIZE then (false, ctx)
  else
    (true,
      { ctx with
        readings := fun i => if i.val = ctx.reading_count then reading else ctx.readings i
        reading_count := (ctx.reading_count + 1) % 256 })

/-- Source `PayloadEncoder::getReadingCount`. -/
def getReadingCount (ctx : EncoderContext) : Nat := ctx.reading_count

/-- Source `PayloadEncoder::encodeMetadata`; each `|=` stores into a `uint8_t`. -/
def encodeMetadata (ctx : EncoderContext) : Nat :=
  let metadata := 0
  let metadata := (metadata ||| (ctx.header.version &&& 0x07)) % 256
  let metadata := if ctx.header.dual_mode then (metadata ||| (1 <<< 3)) % 256 else metadata
  let metadata :=
    if ctx.header.dedicated_temphum_sensor then (metadata ||| (1 <<< 4)) % 256 else metadata
  metadata

/-- Source `PayloadEncoder::isExpandable`. -/
def isExpandable (ctx : EncoderContext) (flag : Nat) : Bool :=
  match flag with
  | FLAG_TEMP | FLAG_HUM =>
    if ctx.header.dedicated_temphum_sensor then false else true
  | FLAG_PM_01 | FLAG_PM_25 | FLAG_PM_10 | FLAG_PM_01_SP | FLAG_PM_25_SP | FLAG_PM_10_SP
  | FLAG_PM_03_PC | FLAG_PM_05_PC | FLAG_PM_01_PC | FLAG_PM_25_PC | FLAG_PM_5_PC
  | FLAG_PM_10_PC => true
  | _ => false

/-- Source `PayloadEncoder::encodePresenceMask`, writing at `&buffer[p]`. -/
def encodePresenceMask (buffer : Buffer) (p mask : Nat) : Buffer :=
  let buffer := writeByte buffer p ((mask >>> 0) &&& 0xFF)
  let buffer := writeByte buffer (p + 1) ((mask >>> 8) &&& 0xFF)
  let buffer := writeByte buffer (p + 2) ((mask >>> 16) &&& 0xFF)
  writeByte buffer (p + 3) ((mask >>> 24) &&& 0xFF)

/-- Source `PayloadEncoder::writeUint16`, writing at `&buffer[p]`. -/
def writeUint16 (buffer : Buffer) (p value : Nat) : Buffer :=
  let buffer := writeByte buffer p ((value >>> 0) &&& 0xFF)
  writeByte buffer (p + 1) ((value >>> 8) &&& 0xFF)

/-- Source `PayloadEncoder::writeInt16`: the `int16_t` is reinterpreted as
`uint16_t` (two's complement) and handed to `writeUint16`. -/
def writeInt16 (buffer : Buffer) (p : Nat) (value : Int) : Buffer :=
  let unsigned_value := (value % 65536).toNat
  writeUint16 buffer p unsigned_value

/-- Source `PayloadEncoder::writeUint32`, writing at `&buffer[p]`. -/
def writeUint32 (buffer : Buffer) (p value : Nat) : Buffer :=
  let buffer := writeByte buffer p ((value >>> 0) &&& 0xFF)
  let buffer := writeByte buffer (p + 1) ((value >>> 8) &&& 0xFF)
  let buffer := writeByte buffer (p + 2) ((value >>> 16) &&& 0xFF)
  writeByte buffer (p + 3) ((value >>> 24) &&& 0xFF)

/-- The statement `buffer[offset] = (uint8_t)reading.signal` of
`encodeSensorData`: an `int8_t` converted to a byte. -/
def writeSignal (buffer : Buffer) (p : Nat) (value : Int) : Buffer :=
  writeByte buffer p (value % 256).toNat

/-- The local state of `encodeSensorData`: its `offset` and the memory. -/
structure Cursor where
  offset : Nat
  buffer : Buffer

/-- One guarded write of `encodeSensorData`:
`if (offset + width > buffer_size) return -1; write(&buffer[offset], value); offset += width;`
where `buffer` of the source is `&memory[p]`. -/
def putValue {α : Type} (write : Buffer → Nat → α → Buffer) (width p buffer_size : Nat)
    (value : α) (c : Cursor) : Except Buffer Cursor :=
  if add32 c.offset width > buffer_size then Except.error c.buffer
  else Except.ok { offset := add32 c.offset width, buffer := write c.buffer (p + c.offset) value }

/-- The loop `for (uint8_t i = 0; i < value_count; i++)` of `encodeSensorData`
over the slots `values = [x[0], .., x[value_count - 1]]`, one guarded write each. -/
def putValues {α : Type} (write : Buffer → Nat → α → Buffer) (width p buffer_size : Nat) :
    List α → Cursor → Except Buffer Cursor
  | [], c => Except.ok c
  | value :: rest, c =>
    match putValue write width p buffer_size value c with
    | Except.error b => Except.error b
    | Except.ok c1 => putValues write width p buffer_size rest c1

/-- The first `value_count` slots of a two-slot array, in index order. -/
def slots {α : Type} (x : Fin 2 → α) (value_count : Nat) : List α :=
  [x 0, x 1].take value_count

/-- The body of the flag loop of `encodeSensorData` for a flag whose presence
bit is set: `expandable`, `value_count`, then the `switch`. A flag outside
0..26 matches no `case` and writes nothing. -/
def encodeField (ctx : EncoderContext) (p buffer_size : Nat) (reading : SensorReading)
    (flag : Nat) (c : Cursor) : Except Buffer Cursor :=
  let expandable := isExpandable ctx flag
  let value_count := if expandable && ctx.header.dual_mode then 2 else 1
  match flag with
  | FLAG_TEMP => putValues writeInt16 2 p buffer_size (slots reading.temp value_count) c
  | FLAG_HUM => putValues writeUint16 2 p buffer_size (slots reading.hum value_count) c
  | FLAG_CO2 => putValue writeUint16 2 p buffer_size reading.co2 c
  | FLAG_TVOC => putValue writeUint16 2 p buffer_size reading.tvoc c
  | FLAG_TVOC_RAW => putValue writeUint16 2 p buffer_size reading.tvoc_raw c
  | FLAG_NOX => putValue writeUint16 2 p buffer_size reading.nox c
  | FLAG_NOX_RAW => putValue writeUint16 2 p buffer_size reading.nox_raw c
  | FLAG_PM_01 => putValues writeUint16 2 p buffer_size (slots reading.pm_01 value_count) c
  | FLAG_PM_25 => putValues writeUint16 2 p buffer_size (slots reading.pm_25 value_count) c
  | FLAG_PM_10 => putValues writeUint16 2 p buffer_size (slots reading.pm_10 value_count) c
  | FLAG_PM_01_SP =>
    putValues writeUint16 2 p buffer_size (slots reading.pm_01_sp value_count) c
  | FLAG_PM_25_SP =>
    putValues writeUint16 2 p buffer_size (slots reading.pm_25_sp value_count) c
  | FLAG_PM_10_SP =>
    putValues writeUint16 2 p buffer_size (slots reading.pm_10_sp value_count) c
  | FLAG_PM_03_PC =>
    putValues writeUint16 2 p buffer_size (slots reading.pm_03_pc value_count) c
  | FLAG_PM_05_PC =>
    putValues writeUint16 2 p buffer_size (slots reading.pm_05_pc value_count) c
  | FLAG_PM_01_PC =>
    putValues writeUint16 2 p buffer_size (slots reading.pm_01_pc value_count) c
  | FLAG_PM_25_PC =>
    putValues writeUint16 2 p buffer_size (slots reading.pm_25_pc value_count) c
  | FLAG_PM_5_PC =>
    putValues writeUint16 2 p buffer_size (slots reading.pm_5_pc value_count) c
  | FLAG_PM_10_PC =>
    putValues writeUint16 2 p buffer_size (slots reading.pm_10_pc value_count) c
  | FLAG_VBAT => putValue writeUint16 2 p buffer_size reading.vbat c
  | FLAG_VPANEL => putValue writeUint16 2 p buffer_size reading.vpanel c
  | FLAG_O3_WE => putValue writeUint32 4 p buffer_size reading.o3_we c
  | FLAG_O3_AE => putValue writeUint32 4 p buffer_size reading.o3_ae c
  | FLAG_NO2_WE => putValue writeUint32 4 p buffer_size reading.no2_we c
  | FLAG_NO2_AE => putValue writeUint32 4 p buffer_size reading.no2_ae c
  | FLAG_AFE_TEMP => putValue writeUint16 2 p buffer_size reading.afe_temp c
  | FLAG_SIGNAL => putValue writeSignal 1 p buffer_size reading.signal c
  | _ => Except.ok c

/-- The loop `for (uint8_t flag = 0; flag <= FLAG_SIGNAL; flag++)` of
`encodeSensorData` over the flags still to visit; the result is the returned
`int32_t` and the memory. -/
def encodeSensorDataLoop (ctx : EncoderContext) (p buffer_size : Nat)
    (reading : SensorReading) : List Nat → Cursor → Int × Buffer
  | [], c => (i32 c.offset, c.buffer)
  | flag :: rest, c =>
    if !(IS_FLAG_SET reading.presence_mask flag) then
      encodeSensorDataLoop ctx p buffer_size reading rest c
    else
      match encodeField ctx p buffer_size reading flag c with
      | Except.error b => (-1, b)
      | Except.ok c1 => encodeSensorDataLoop ctx p buffer_size reading rest c1

/-- Source `PayloadEncoder::encodeSensorData`, called with `&memory[p]`. -/
def encodeSensorData (ctx : EncoderContext) (buffer : Buffer) (p buffer_size : Nat)
    (reading : SensorReading) : Int × Buffer :=
  encodeSensorDataLoop ctx p buffer_size reading (List.range (FLAG_SIGNAL + 1))
    { offset := 0, buffer := buffer }

/-- The flag loop of `calculateReadingSize` over the flags still to visit. -/
def calculateReadingSizeLoop (ctx : EncoderContext) (reading : SensorReading) :
    List Nat → Nat → Nat
  | [], size => size
  | flag :: rest, size =>
    if !(IS_FLAG_SET reading.presence_mask flag) then
      calculateReadingSizeLoop ctx reading rest size
    else
      let expandable := isExpandable ctx flag
      let value_count := if expandable && ctx.header.dual_mode then 2 else 1
      if flag = FLAG_SIGNAL then
        calculateReadingSizeLoop ctx reading rest (add32 size 1)
      else if flag ≥ FLAG_O3_WE ∧ flag ≤ FLAG_NO2_AE then
        calculateReadingSizeLoop ctx reading rest (add32 size 4)
      else if flag = FLAG_AFE_TEMP then
        calculateReadingSizeLoop ctx reading rest (add32 size 2)
      else
        calculateReadingSizeLoop ctx reading rest (add32 size (2 * value_count))

/-- Source `PayloadEncoder::calculateReadingSize`. -/
def calculateReadingSize (ctx : EncoderContext) (reading : SensorReading) : Nat :=
  calculateReadingSizeLoop ctx reading (List.range (FLAG_SIGNAL + 1)) 4

/-- The loop of `calculateTotalSize` over the reading indices still to visit. -/
def calculateTotalSizeLoop (ctx : EncoderContext) : List Nat → Nat → Nat
  | [], size => size
  | i :: rest, size =>
    calculateTotalSizeLoop ctx rest (add32 size (calculateReadingSize ctx (ctx.readingAt i)))

/-- Source `PayloadEncoder::calculateTotalSize`. -/
def calculateTotalSize (ctx : EncoderContext) : Nat :=
  calculateTotalSizeLoop ctx (List.range ctx.reading_count) 2

/-- The loop `for (uint8_t i = 0; i < ctx.reading_count; i++)` of `encode` over
the reading indices still to visit; the result is the returned `int32_t` and
the memory. -/
def encodeLoop (ctx : EncoderContext) (buffer_size : Nat) :
    List Nat → Nat → Buffer → Int × Buffer
  | [], offset, buffer => (i32 offset, buffer)
  | i :: rest, offset, buffer =>
    let buffer1 := encodePresenceMask buffer offset (ctx.readingAt i).presence_mask
    let offset1 := add32 offset 4
    let r := encodeSensorData ctx buffer1 offset1 (sub32 buffer_size offset1) (ctx.readingAt i)
    if r.1 < 0 then (-1, r.2)
    else encodeLoop ctx buffer_size rest (add32 offset1 (u32 r.1)) r.2

/-- What a call of `encode` leaves: the returned `int32_t`, the encoder
state, and the memory behind `buffer` (`none` for a null pointer). -/
structure EncodeResult where
  ret : Int
  ctx : EncoderContext
  buffer : Option Buffer

/-- Source `PayloadEncoder::encode`. -/
def encode (ctx : EncoderContext) (buffer : Option Buffer) (buffer_size : Nat) :
    EncodeResult :=
  match buffer with
  | none => { ret := -1, ctx := ctx, buffer := none }
  | some mem =>
    if ctx.reading_count = 0 then { ret := 0, ctx := ctx, buffer := some mem }
    else
      let total_size := calculateTotalSize ctx
      if total_size > buffer_size then { ret := -1, ctx := ctx, buffer := some mem }
      else
        let mem := writeByte mem 0 (encodeMetadata ctx)
        let mem := writeByte mem 1 ctx.header.interval_minutes
        let r := encodeLoop ctx buffer_size (List.range ctx.reading_count) 2 mem
        { ret := r.1, ctx := ctx, buffer := some r.2 }

/-! ## The wire format in the words of the specification -/

namespace Spec

/-- The `width` bytes of `value`, least significant first; a negative value
stands for its two's-complement pattern. -/
def littleEndian (width : Nat) (value : Int) : List Nat :=
  (List.range width).map (fun k => ((value / 256 ^ k) % 256).toNat)

/-- Width of a field tag: 1 byte for tag 26, 4 bytes for tags 21..24, 2 bytes
for tags 0..20 and 25. -/
def widthOf (tag : Nat) : Nat :=
  if tag = 26 then 1 else if 21 ≤ tag ∧ tag ≤ 24 then 4 else 2

/-- The expandable class of the field table: temperature, humidity and the
twelve particulate-matter tags. -/
def expandableTag (tag : Nat) : Bool :=
  tag == 0 || tag == 1 || (decide (7 ≤ tag) && decide (tag ≤ 18))

/-- Multiplicity of a tag: 1 unless the field is expandable, dual-channel mode
is active and, for temperature and humidity, the dedicated-sensor override is
not active; then 2. -/
def multiplicity (header : PayloadHeader) (tag : Nat) : Nat :=
  if expandableTag tag && header.dual_mode
      && !((tag == 0 || tag == 1) && header.dedicated_temphum_sensor) then 2
  else 1

/-- Value slot `k` of a tag in a reading, by the field table; a scalar tag has
the same value in both slots. -/
def slotValue (reading : SensorReading) (tag : Nat) (k : Fin 2) : Int :=
  match tag with
  | 0 => reading.temp k
  | 1 => (reading.hum k : Int)
  | 2 => (reading.co2 : Int)
  | 3 => (reading.tvoc : Int)
  | 4 => (reading.tvoc_raw : Int)
  | 5 => (reading.nox : Int)
  | 6 => (reading.nox_raw : Int)
  | 7 => (reading.pm_01 k : Int)
  | 8 => (reading.pm_25 k : Int)
  | 9 => (reading.pm_10 k : Int)
  | 10 => (reading.pm_01_sp k : Int)
  | 11 => (reading.pm_25_sp k : Int)
  | 12 => (reading.pm_10_sp k : Int)
  | 13 => (reading.pm_03_pc k : Int)
  | 14 => (reading.pm_05_pc k : Int)
  | 15 => (reading.pm_01_pc k : Int)
  | 16 => (reading.pm_25_pc k : Int)
  | 17 => (reading.pm_5_pc k : Int)
  | 18 => (reading.pm_10_pc k : Int)
  | 19 => (reading.vbat : Int)
  | 20 => (reading.vpanel : Int)
  | 21 => (reading.o3_we : Int)
  | 22 => (reading.o3_ae : Int)
  | 23 => (reading.no2_we : Int)
  | 24 => (reading.no2_ae : Int)
  | 25 => (reading.afe_temp : Int)
  | 26 => reading.signal
  | _ => 0

/-- The bytes of one present field: slot 0, then slot 1 when the multiplicity
is 2, each little-endian in the width of the tag. -/
def fieldBytes (header : PayloadHeader) (reading : SensorReading) (tag : Nat) : List Nat :=
  ([(0 : Fin 2), 1].take (multiplicity header tag)).flatMap
    (fun k => littleEndian (widthOf tag) (slotValue reading tag k))

/-- The bytes of the fields of the given tags whose presence bit is set, in
the order of the list. -/
def fieldsBytes (header : PayloadHeader) (reading : SensorReading) (tags : List Nat) :
    List Nat :=
  (tags.filter (fun tag => reading.presence_mask.testBit tag)).flatMap
    (fieldBytes header reading)

/-- The bytes of one reading: the presence mask in 4 little-endian bytes, then
the present fields for tag 0, 1, .., 26. -/
def readingBytes (header : PayloadHeader) (reading : SensorReading) : List Nat :=
  littleEndian 4 (reading.presence_mask : Int) ++ fieldsBytes header reading (List.range 27)

/-- The bytes of the readings at the given indices, in the order of the list. -/
def readingsBytes (ctx : EncoderContext) (indices : List Nat) : List Nat :=
  indices.flatMap (fun i => readingBytes ctx.header (ctx.readingAt i))

/-- The payload of a non-empty batch: the metadata byte, the interval byte,
then the stored readings in append order, with no padding. -/
def payload (ctx : EncoderContext) : List Nat :=
  [encodeMetadata ctx, ctx.header.interval_minutes]
    ++ readingsBytes ctx (List.range ctx.reading_count)

end Spec

/-! ## Auxiliary definitions of the proofs -/

/-- Memory after the bytes of a list are stored from index `pos` on. -/
def blit (buffer : Buffer) (pos : Nat) : List Nat → Buffer
  | [] => buffer
  | b :: rest => blit (writeByte buffer pos b) (pos + 1) rest

/-- The first `n` bytes behind an output pointer; nothing for a null pointer. -/
def firstBytes (buffer : Option Buffer) (n : Nat) : List Nat :=
  match buffer with
  | none => []
  | some mem => (List.range n).map mem

/-- The value of four bytes read as a little-endian 32-bit number. -/
def readLE32 (mem : Buffer) (p : Nat) : Nat :=
  mem p + 256 * mem (p + 1) + 65536 * mem (p + 2) + 16777216 * mem (p + 3)

/-- The offset in the payload at which reading `k` starts: the 2 header bytes
and the sizes of the readings before it. -/
def readingOffset (ctx : EncoderContext) (k : Nat) : Nat :=
  2 + ((List.range k).map (fun i => calculateReadingSize ctx (ctx.readingAt i))).sum

/-! ## Concrete states used to instantiate the theorems -/

/-- Header of the single-channel scenario: version 1, interval 5 minutes. -/
def demoHeader : PayloadHeader :=
  { version := 1, dual_mode := false, dedicated_temphum_sensor := false,
    interval_minutes := 5 }

/-- A reading with temperature 25.00 and CO2 412 present. -/
def demoReading : SensorReading :=
  { zeroReading with presence_mask := 5, temp := fun _ => 2500, co2 := 412 }

/-- The encoder after `init(demoHeader)` and `addReading(demoReading)`. -/
def demoCtx : EncoderContext := (addReading (init construct demoHeader) demoReading).2

/-- A memory filled with the byte `0xEE`. -/
def demoMem : Buffer := fun _ => 0xEE

/-- A reading whose `presence_mask` field has only bit 27 set. -/
def highMaskReading : SensorReading := { zeroReading with presence_mask := 134217728 }

/-- The encoder after `init(demoHeader)` and `addReading(highMaskReading)`. -/
def highMaskCtx : EncoderContext :=
  (addReading (init construct demoHeader) highMaskReading).2

/-- The four presence-mask bytes of reading `k` as `encode` left them, read as
a little-endian number (0 when there is no memory). -/
def emittedMask (r : EncodeResult) (k : Nat) : Nat :=
  match r.buffer with
  | none => 0
  | some mem => readLE32 mem (readingOffset r.ctx k)

/-! ## Sizes, field offsets and call sequences -/

/-- Multiplicity of a tag: 2 when `dual_mode` is on and `isExpandable` holds
for the tag, and 1 otherwise. -/
def multiplicityOf (ctx : EncoderContext) (tag : Nat) : Nat :=
  if ctx.header.dual_mode && isExpandable ctx tag then 2 else 1

/-- The sum, over the tags of the list whose presence bit is set in the
reading, of the width of the tag times its multiplicity. -/
def presentSizes (ctx : EncoderContext) (reading : SensorReading) (tags : List Nat) : Nat :=
  ((tags.filter (fun t => isFlagSet reading t)).map
    (fun t => Spec.widthOf t * multiplicityOf ctx t)).sum

/-- Offset of tag `t` from the start of the encoding of a reading: the 4 mask
bytes and the sizes of the present tags below `t`. -/
def fieldOffset (ctx : EncoderContext) (reading : SensorReading) (t : Nat) : Nat :=
  4 + presentSizes ctx reading (List.range t)

/-- The `n` bytes behind an output pointer from index `start` on; nothing for
a null pointer. -/
def bytesFrom (buffer : Option Buffer) (start n : Nat) : List Nat :=
  match buffer with
  | none => []
  | some mem => (List.range n).map (fun j => mem (start + j))

/-- A call of one of the state-changing members of `PayloadEncoder`. -/
inductive Call where
  | init (header : PayloadHeader)
  | addReading (reading : SensorReading)
  | reset
  | encode (buffer : Option Buffer) (buffer_size : Nat)

/-- The encoder state after one call. -/
def step (ctx : EncoderContext) : Call → EncoderContext
  | Call.init header => init ctx header
  | Call.addReading reading => (addReading ctx reading).2
  | Call.reset => reset ctx
  | Call.encode buffer buffer_size => (encode ctx buffer buffer_size).ctx

/-- The encoder state after a sequence of calls on a freshly constructed
encoder. -/
def run (calls : List Call) : EncoderContext := calls.foldl step construct

/-- Header of the dual-channel scenario: version 1, dual, interval 5 minutes. -/
def dualHeader : PayloadHeader :=
  { version := 1, dual_mode := true, dedicated_temphum_sensor := false,
    interval_minutes := 5 }

/-- Header with both the dual-channel and the dedicated-sensor flag set. -/
def dedicatedHeader : PayloadHeader :=
  { version := 1, dual_mode := true, dedicated_temphum_sensor := true,
    interval_minutes := 5 }

/-- The stored values of the mixed scenario, no presence bit set yet. -/
def mixedValues : SensorReading :=
  { initSensorReading zeroReading with
    temp := fun i => if i = 0 then 2500 else 2600
    hum := fun i => if i = 0 then 6000 else 6100
    pm_25 := fun i => if i = 0 then 125 else 135
    co2 := 450, tvoc := 100 }

/-- The mixed reading, flags set in the order temp, co2, hum, tvoc. -/
def mixedReading : SensorReading :=
  setFlag (setFlag (setFlag (setFlag mixedValues FLAG_TEMP) FLAG_CO2) FLAG_HUM) FLAG_TVOC

/-- The same values, flags set in the order tvoc, hum, co2, temp. -/
def mixedReadingReversed : SensorReading :=
  setFlag (setFlag (setFlag (setFlag mixedValues FLAG_TVOC) FLAG_HUM) FLAG_CO2) FLAG_TEMP

/-- The dual-channel encoder holding the mixed reading. -/
def mixedCtx : EncoderContext := (addReading (init construct dualHeader) mixedReading).2

/-- A reading with temperature, humidity and PM2.5 present. -/
def dedicatedReading : SensorReading :=
  setFlag (setFlag (setFlag mixedValues FLAG_TEMP) FLAG_HUM) FLAG_PM_25

/-- The dual-channel, dedicated-sensor encoder holding `dedicatedReading`. -/
def dedicatedCtx : EncoderContext :=
  (addReading (init construct dedicatedHeader) dedicatedReading).2

/-- An encoder filled to `MAX_BATCH_SIZE` readings. -/
def fullCtx : EncoderContext :=
  { header := demoHeader, readings := fun _ => demoReading, reading_count := 20 }

/-! ## Further concrete states -/

/-- A reading with temperature 25.00 / 26.00 and CO2 400 present. -/
def dualDemoReading : SensorReading :=
  { zeroReading with
    presence_mask := 5
    temp := fun i => if i = 0 then 2500 else 2600
    co2 := 400 }

/-- The dual-channel encoder holding `dualDemoReading`. -/
def dualDemoCtx : EncoderContext := (addReading (init construct dualHeader) dualDemoReading).2

/-- The reading of `demoReading` with other values in the absent humidity
field and in the second temperature slot. -/
def demoReadingOtherAbsent : SensorReading :=
  { demoReading with hum := fun _ => 7777, temp := fun i => if i = 0 then 2500 else -1 }

/-- The encoder after `init(demoHeader)` and `addReading(demoReadingOtherAbsent)`. -/
def demoCtxOtherAbsent : EncoderContext :=
  (addReading (init construct demoHeader) demoReadingOtherAbsent).2

/-- A reading with only temperature present, at -10.50 degrees. -/
def coldReading : SensorReading :=
  { setFlag (initSensorReading zeroReading) FLAG_TEMP with temp := fun _ => -1050 }

/-- The single-channel encoder holding `coldReading`. -/
def coldCtx : EncoderContext := (addReading (init construct demoHeader) coldReading).2

/-- A reading with CO2 and the signal strength present, at -75 dBm. -/
def signalReading : SensorReading :=
  { setFlag (setFlag (initSensorReading zeroReading) FLAG_CO2) FLAG_SIGNAL with
    co2 := 400, signal := -75 }

/-- The single-channel encoder holding `signalReading`. -/
def signalCtx : EncoderContext := (addReading (init construct demoHeader) signalReading).2

/-- A reading with only the O3 working electrode present, at `0xAABBCCDD`. -/
def electrodeReading : SensorReading :=
  { setFlag (initSensorReading zeroReading) FLAG_O3_WE with o3_we := 0xAABBCCDD }

/-- The dual-channel encoder holding `electrodeReading`. -/
def electrodeCtx : EncoderContext :=
  (addReading (init construct dualHeader) electrodeReading).2

/-- A reading with only CO2 present, at the given value. -/
def co2Reading (c : Nat) : SensorReading :=
  { setFlag (initSensorReading zeroReading) FLAG_CO2 with co2 := c }

/-- The single-channel encoder after three CO2-only readings. -/
def co2Batch : EncoderContext :=
  (addReading (addReading (addReading (init construct demoHeader) (co2Reading 400)).2
    (co2Reading 401)).2 (co2Reading 402)).2

/-- A reading with the scalar fields CO2, TVOC and battery voltage present. -/
def scalarReading : SensorReading :=
  { setFlag (setFlag (setFlag (initSensorReading zeroReading) FLAG_CO2) FLAG_TVOC) FLAG_VBAT
    with co2 := 400, tvoc := 100, vbat := 3700 }

/-- The single-channel encoder holding `scalarReading`. -/
def scalarCtx : EncoderContext := (addReading (init construct demoHeader) scalarReading).2

/-- The dual-channel, dedicated-sensor encoder holding `scalarReading`. -/
def scalarDedicatedCtx : EncoderContext :=
  (addReading (init construct dedicatedHeader) scalarReading).2

/-- The same batch with the two mode flags of the header replaced. -/
def withFlags (ctx : EncoderContext) (dual dedicated : Bool) : EncoderContext :=
  { ctx with
    header := { ctx.header with dual_mode := dual, dedicated_temphum_sensor := dedicated } }

/-! ## Definitions for the size scenarios, flag sequences and call traces -/

/-- A reading whose presence mask is `0x03FFFFFF`: tags 0..25 all set. -/
def allReading : SensorReading := { zeroReading with presence_mask := 0x03FFFFFF }

/-- The single-channel encoder holding `allReading`. -/
def allSingleCtx : EncoderContext := (addReading (init construct demoHeader) allReading).2

/-- The dual-channel encoder holding `allReading`. -/
def allDualCtx : EncoderContext := (addReading (init construct dualHeader) allReading).2

/-- The expandable tags of the field table. -/
def expandableTags : List Nat := [0, 1, 7, 8, 9, 10, 11, 12, 13, 14, 15, 16, 17, 18]

/-- The scalar 16-bit tags among tags 0..25. -/
def scalar16Tags : List Nat := [2, 3, 4, 5, 6, 19, 20, 25]

/-- The scalar 32-bit tags. -/
def scalar32Tags : List Nat := [21, 22, 23, 24]

/-- The single-channel, dedicated-sensor encoder of the dedicated single-mode
scenario: temperature, humidity and CO2 present. -/
def dedicatedSingleCtx : EncoderContext :=
  (addReading (init construct
      { version := 1, dual_mode := false, dedicated_temphum_sensor := true,
        interval_minutes := 5 })
    { setFlag (setFlag (setFlag (initSensorReading zeroReading) FLAG_TEMP) FLAG_HUM) FLAG_CO2
      with temp := fun _ => 2500, hum := fun _ => 6000, co2 := 400 }).2

/-- A call of `setFlag` or of `clearFlag` with the given flag. -/
inductive FlagCall where
  | setCall (flag : Nat)
  | clearCall (flag : Nat)

/-- The flag a call is made with. -/
def FlagCall.flag : FlagCall → Nat
  | FlagCall.setCall flag => flag
  | FlagCall.clearCall flag => flag

/-- The reading after one `setFlag` or `clearFlag` call. -/
def applyFlagCall (reading : SensorReading) : FlagCall → SensorReading
  | FlagCall.setCall flag => setFlag reading flag
  | FlagCall.clearCall flag => clearFlag reading flag

/-- The reading after a sequence of `setFlag` and `clearFlag` calls. -/
def applyFlagCalls (calls : List FlagCall) (reading : SensorReading) : SensorReading :=
  calls.foldl applyFlagCall reading

/-- The calls of `encodeSensorData` made by the reading loop of `encode`, in
order: for each call the index `offset` of the pointer `&buffer[offset]`
handed over, the capacity `buffer_size - offset` handed over, and the value
returned. The loop is the one of `encodeLoop`; it stops after a negative
return. -/
def encodeLoopCalls (ctx : EncoderContext) (buffer_size : Nat) :
    List Nat → Nat → Buffer → List (Nat × Nat × Int)
  | [], _, _ => []
  | i :: rest, offset, buffer =>
    let buffer1 := encodePresenceMask buffer offset (ctx.readingAt i).presence_mask
    let offset1 := add32 offset 4
    let r := encodeSensorData ctx buffer1 offset1 (sub32 buffer_size offset1) (ctx.readingAt i)
    if r.1 < 0 then [(offset1, sub32 buffer_size offset1, r.1)]
    else
      (offset1, sub32 buffer_size offset1, r.1)
        :: encodeLoopCalls ctx buffer_size rest (add32 offset1 (u32 r.1)) r.2

/-- The calls of `encodeSensorData` made by `encode` on a non-null buffer once
the size check has passed and the two header bytes are written. -/
def encodeCalls (ctx : EncoderContext) (mem : Buffer) (buffer_size : Nat) :
    List (Nat × Nat × Int) :=
  encodeLoopCalls ctx buffer_size (List.range ctx.reading_count) 2
    (writeByte (writeByte mem 0 (encodeMetadata ctx)) 1 ctx.header.interval_minutes)

/-- Whether `v` fits the C type of the field of tag `t`: `int16_t` for tag 0,
`int8_t` for tag 26, `uint32_t` for tags 21..24 and `uint16_t` otherwise. -/
def slotInRange (t : Nat) (v : Int) : Bool :=
  if t = 0 then decide (-32768 ≤ v) && decide (v < 32768)
  else if t = 26 then decide (-128 ≤ v) && decide (v < 128)
  else if 21 ≤ t ∧ t ≤ 24 then decide (0 ≤ v) && decide (v < 4294967296)
  else decide (0 ≤ v) && decide (v < 65536)

/-- Whether the presence mask and every value slot of a reading fit the C
types of `SensorReading`. -/
def readingInRange (reading : SensorReading) : Bool :=
  decide (reading.presence_mask < 4294967296)
    && (List.range 27).all (fun t =>
      slotInRange t (Spec.slotValue reading t 0) && slotInRange t (Spec.slotValue reading t 1))

/-- Two readings have the same presence mask and the same value in every slot
that is emitted under the given header. -/
def slotsAgree (header : PayloadHeader) (r1 r2 : SensorReading) : Prop :=
  r1.presence_mask = r2.presence_mask
    ∧ ∀ t, t < 27 → r1.presence_mask.testBit t = true →
        Spec.slotValue r1 t 0 = Spec.slotValue r2 t 0
          ∧ (Spec.multiplicity header t = 2 →
              Spec.slotValue r1 t 1 = Spec.slotValue r2 t 1)

/-- The dual-channel encoder holding `mixedReadingReversed`, the same reading
as in `mixedCtx` built in another order. -/
def mixedCtxReversed : EncoderContext :=
  (addReading (init construct dualHeader) mixedReadingReversed).2

/-! ## Memory lemmas -/

theorem blit_append (buffer : Buffer) (pos : Nat) (xs ys : List Nat) :
    blit buffer pos (xs ++ ys) = blit (blit buffer pos xs) (pos + xs.length) ys := by
  induction xs generalizing buffer pos with
  | nil => simp [blit]
  | cons x xs ih =>
    have e : pos + (xs.length + 1) = pos + 1 + xs.length := by omega
    show blit (writeByte buffer pos x) (pos + 1) (xs ++ ys) = _
    rw [ih]
    simp only [blit, List.length_cons, e]

theorem blit_below (buffer : Buffer) (pos : Nat) (xs : List Nat) (j : Nat) (h : j < pos) :
    blit buffer pos xs j = buffer j := by
  induction xs generalizing buffer pos with
  | nil => rfl
  | cons x xs ih =>
    simp only [blit]
    rw [ih _ _ (by omega)]
    simp only [writeByte]
    rw [if_neg (by omega)]

theorem blit_above (buffer : Buffer) (pos : Nat) (xs : List Nat) (j : Nat)
    (h : pos + xs.length ≤ j) : blit buffer pos xs j = buffer j := by
  induction xs generalizing buffer pos with
  | nil => rfl
  | cons x xs ih =>
    simp only [blit]
    simp only [List.length_cons] at h
    rw [ih _ _ (by omega)]
    simp only [writeByte]
    rw [if_neg (by omega)]

theorem blit_at (buffer : Buffer) (pos : Nat) (xs : List Nat) (k : Nat) (h : k < xs.length) :
    blit buffer pos xs (pos + k) = xs.getD k 0 := by
  induction xs generalizing buffer pos k with
  | nil => simp at h
  | cons x xs ih =>
    simp only [blit]
    cases k with
    | zero =>
      rw [blit_below _ _ _ _ (by omega)]
      simp [writeByte]
    | succ k =>
      simp only [List.length_cons] at h
      have e : pos + (k + 1) = (pos + 1) + k := by omega
      rw [e, ih _ _ _ (by omega)]
      simp

theorem map_blit_range (buffer : Buffer) (xs : List Nat) :
    (List.range xs.length).map (blit buffer 0 xs) = xs := by
  apply List.ext_getElem
  · simp
  · intro i h1 h2
    simp only [List.getElem_map, List.getElem_range]
    have h := blit_at buffer 0 xs i h2
    simp only [Nat.zero_add] at h
    rw [h]
    simp [List.getD_eq_getElem?_getD, List.getElem?_eq_getElem h2]

/-! ## Byte lemmas -/

theorem and_255 (x : Nat) : x &&& 0xFF = x % 256 := Nat.and_pow_two_sub_one_eq_mod x 8

theorem writeUint16_eq (buffer : Buffer) (p value : Nat) :
    writeUint16 buffer p value = blit buffer p (Spec.littleEndian 2 (value : Int)) := by
  have e0 : value % 256 = ((value : Int) % 256).toNat := by omega
  have e1 : value / 256 % 256 = ((value : Int) / 256 % 256).toNat := by omega
  simp [writeUint16, Spec.littleEndian, List.range_succ, blit, and_255,
    Nat.shiftRight_eq_div_pow, e0, e1]

theorem writeInt16_eq (buffer : Buffer) (p : Nat) (value : Int) :
    writeInt16 buffer p value = blit buffer p (Spec.littleEndian 2 value) := by
  have e0 : (value % 65536).toNat % 256 = (value % 256).toNat := by omega
  have e1 : (value % 65536).toNat / 256 % 256 = (value / 256 % 256).toNat := by omega
  simp [writeInt16, writeUint16, Spec.littleEndian, List.range_succ, blit, and_255,
    Nat.shiftRight_eq_div_pow, e0, e1]

theorem writeUint32_eq (buffer : Buffer) (p value : Nat) :
    writeUint32 buffer p value = blit buffer p (Spec.littleEndian 4 (value : Int)) := by
  have e0 : value % 256 = ((value : Int) % 256).toNat := by omega
  have e1 : value / 256 % 256 = ((value : Int) / 256 % 256).toNat := by omega
  have e2 : value / 65536 % 256 = ((value : Int) / 65536 % 256).toNat := by omega
  have e3 : value / 16777216 % 256 = ((value : Int) / 16777216 % 256).toNat := by omega
  simp [writeUint32, Spec.littleEndian, List.range_succ, blit, and_255,
    Nat.shiftRight_eq_div_pow, e0, e1, e2, e3]

theorem encodePresenceMask_eq (buffer : Buffer) (p mask : Nat) :
    encodePresenceMask buffer p mask = blit buffer p (Spec.littleEndian 4 (mask : Int)) := by
  have e0 : mask % 256 = ((mask : Int) % 256).toNat := by omega
  have e1 : mask / 256 % 256 = ((mask : Int) / 256 % 256).toNat := by omega
  have e2 : mask / 65536 % 256 = ((mask : Int) / 65536 % 256).toNat := by omega
  have e3 : mask / 16777216 % 256 = ((mask : Int) / 16777216 % 256).toNat := by omega
  simp [encodePresenceMask, Spec.littleEndian, List.range_succ, blit, and_255,
    Nat.shiftRight_eq_div_pow, e0, e1, e2, e3]

theorem writeSignal_eq (buffer : Buffer) (p : Nat) (value : Int) :
    writeSignal buffer p value = blit buffer p (Spec.littleEndian 1 value) := by
  simp [writeSignal, Spec.littleEndian, blit]

theorem littleEndian_length (width : Nat) (value : Int) :
    (Spec.littleEndian width value).length = width := by
  simp [Spec.littleEndian]

/-! ## The emission walk -/

theorem add32_small (a b : Nat) (h : a + b < 4294967296) : add32 a b = a + b := by
  simp [add32, Nat.mod_eq_of_lt h]

theorem putValue_ok {α : Type} (write : Buffer → Nat → α → Buffer) (enc : α → List Nat)
    (width p cap : Nat) (value : α) (c : Cursor)
    (hw : ∀ b q v, write b q v = blit b q (enc v))
    (hfit : c.offset + width ≤ cap) (hcap : cap < 4294967296) :
    putValue write width p cap value c =
      Except.ok { offset := c.offset + width, buffer := blit c.buffer (p + c.offset) (enc value) } := by
  unfold putValue
  rw [add32_small _ _ (by omega), if_neg (by omega), hw]

theorem putValues_ok {α : Type} (write : Buffer → Nat → α → Buffer) (enc : α → List Nat)
    (width p cap : Nat) (values : List α) (c : Cursor)
    (hw : ∀ b q v, write b q v = blit b q (enc v))
    (hlen : ∀ v, (enc v).length = width)
    (hfit : c.offset + values.length * width ≤ cap) (hcap : cap < 4294967296) :
    putValues write width p cap values c =
      Except.ok { offset := c.offset + values.length * width,
                  buffer := blit c.buffer (p + c.offset) (values.flatMap enc) } := by
  induction values generalizing c with
  | nil => simp [putValues, blit]
  | cons v vs ih =>
    simp only [List.length_cons, Nat.add_mul, Nat.one_mul] at hfit
    simp only [putValues]
    rw [putValue_ok write enc width p cap v c hw (by omega) hcap]
    simp only
    rw [ih _ (by simp only; omega)]
    simp only [List.flatMap_cons, blit_append, hlen, List.length_cons, Nat.add_mul,
      Nat.one_mul]
    have e1 : c.offset + width + vs.length * width = c.offset + (vs.length * width + width) := by
      omega
    have e2 : p + (c.offset + width) = p + c.offset + width := by omega
    rw [e1, e2]

theorem fieldBytes_length (header : PayloadHeader) (reading : SensorReading) (tag : Nat) :
    (Spec.fieldBytes header reading tag).length
      = Spec.multiplicity header tag * Spec.widthOf tag := by
  unfold Spec.fieldBytes Spec.multiplicity
  split <;> simp [List.flatMap, littleEndian_length]
  omega

theorem put_u16 (p cap : Nat) (values : List Nat) (c : Cursor)
    (hfit : c.offset + values.length * 2 ≤ cap) (hcap : cap < 4294967296) :
    putValues writeUint16 2 p cap values c =
      Except.ok { offset := c.offset + values.length * 2,
                  buffer := blit c.buffer (p + c.offset)
                    (values.flatMap (fun v => Spec.littleEndian 2 (v : Int))) } :=
  putValues_ok writeUint16 _ 2 p cap values c (fun b q v => writeUint16_eq b q v)
    (fun _ => littleEndian_length _ _) hfit hcap

theorem put_i16 (p cap : Nat) (values : List Int) (c : Cursor)
    (hfit : c.offset + values.length * 2 ≤ cap) (hcap : cap < 4294967296) :
    putValues writeInt16 2 p cap values c =
      Except.ok { offset := c.offset + values.length * 2,
                  buffer := blit c.buffer (p + c.offset)
                    (values.flatMap (fun v => Spec.littleEndian 2 v)) } :=
  putValues_ok writeInt16 _ 2 p cap values c (fun b q v => writeInt16_eq b q v)
    (fun _ => littleEndian_length _ _) hfit hcap

theorem put1_u16 (p cap value : Nat) (c : Cursor)
    (hfit : c.offset + 2 ≤ cap) (hcap : cap < 4294967296) :
    putValue writeUint16 2 p cap value c =
      Except.ok { offset := c.offset + 2,
                  buffer := blit c.buffer (p + c.offset) (Spec.littleEndian 2 (value : Int)) } :=
  putValue_ok writeUint16 (fun v => Spec.littleEndian 2 (v : Int)) 2 p cap value c
    (fun b q v => writeUint16_eq b q v) hfit hcap

theorem put1_u32 (p cap value : Nat) (c : Cursor)
    (hfit : c.offset + 4 ≤ cap) (hcap : cap < 4294967296) :
    putValue writeUint32 4 p cap value c =
      Except.ok { offset := c.offset + 4,
                  buffer := blit c.buffer (p + c.offset) (Spec.littleEndian 4 (value : Int)) } :=
  putValue_ok writeUint32 (fun v => Spec.littleEndian 4 (v : Int)) 4 p cap value c
    (fun b q v => writeUint32_eq b q v) hfit hcap

theorem put1_sig (p cap : Nat) (value : Int) (c : Cursor)
    (hfit : c.offset + 1 ≤ cap) (hcap : cap < 4294967296) :
    putValue writeSignal 1 p cap value c =
      Except.ok { offset := c.offset + 1,
                  buffer := blit c.buffer (p + c.offset) (Spec.littleEndian 1 value) } :=
  putValue_ok writeSignal (fun v => Spec.littleEndian 1 v) 1 p cap value c
    (fun b q v => writeSignal_eq b q v) hfit hcap

theorem encodeField_ok (ctx : EncoderContext) (p cap : Nat) (reading : SensorReading)
    (flag : Nat) (c : Cursor) (hflag : flag < 27)
    (hfit : c.offset + Spec.multiplicity ctx.header flag * Spec.widthOf flag ≤ cap)
    (hcap : cap < 4294967296) :
    encodeField ctx p cap reading flag c =
      Except.ok { offset := c.offset + Spec.multiplicity ctx.header flag * Spec.widthOf flag,
                  buffer := blit c.buffer (p + c.offset)
                    (Spec.fieldBytes ctx.header reading flag) } := by
  obtain ⟨⟨v, dual, ded, iv⟩, rs, n⟩ := ctx
  interval_cases flag <;> cases dual <;> cases ded <;>
    simp [Spec.multiplicity, Spec.expandableTag, Spec.widthOf] at hfit <;>
    simp [encodeField, isExpandable, slots, Spec.multiplicity, Spec.expandableTag,
      Spec.widthOf, Spec.fieldBytes, Spec.slotValue, put_u16, put_i16, put1_u16, put1_u32,
      put1_sig, hfit, hcap]

theorem IS_FLAG_SET_eq (mask flag : Nat) (h : flag < 32) :
    IS_FLAG_SET mask flag = mask.testBit flag := by
  have hp : 2 ^ flag < 4294967296 := by
    have h32 : 2 ^ flag < 2 ^ 32 := Nat.pow_lt_pow_right (by norm_num) h
    simpa using h32
  unfold IS_FLAG_SET FLAG_BIT
  rw [Nat.one_shiftLeft, Nat.mod_eq_of_lt hp, Nat.and_two_pow]
  cases mask.testBit flag <;> simp

theorem fieldsBytes_nil (header : PayloadHeader) (reading : SensorReading) :
    Spec.fieldsBytes header reading [] = [] := rfl

theorem fieldsBytes_cons (header : PayloadHeader) (reading : SensorReading) (tag : Nat)
    (tags : List Nat) :
    Spec.fieldsBytes header reading (tag :: tags)
      = if reading.presence_mask.testBit tag then
          Spec.fieldBytes header reading tag ++ Spec.fieldsBytes header reading tags
        else Spec.fieldsBytes header reading tags := by
  unfold Spec.fieldsBytes
  by_cases h : reading.presence_mask.testBit tag <;> simp [List.filter_cons, h]

theorem i32_small (x : Nat) (h : x < 2147483648) : i32 x = (x : Int) := by
  unfold i32
  rw [Nat.mod_eq_of_lt (by omega), if_pos h]

theorem encodeSensorDataLoop_ok (ctx : EncoderContext) (p cap : Nat) (reading : SensorReading)
    (flags : List Nat) (c : Cursor) (hflags : ∀ f ∈ flags, f < 27)
    (hfit : c.offset + (Spec.fieldsBytes ctx.header reading flags).length ≤ cap)
    (hcap : cap < 4294967296) :
    encodeSensorDataLoop ctx p cap reading flags c =
      (i32 (c.offset + (Spec.fieldsBytes ctx.header reading flags).length),
        blit c.buffer (p + c.offset) (Spec.fieldsBytes ctx.header reading flags)) := by
  induction flags generalizing c with
  | nil => simp [encodeSensorDataLoop, fieldsBytes_nil, blit]
  | cons f rest ih =>
    have hf : f < 27 := hflags f (by simp)
    have hrest : ∀ g ∈ rest, g < 27 := fun g hg => hflags g (by simp [hg])
    rw [fieldsBytes_cons] at hfit ⊢
    simp only [encodeSensorDataLoop, IS_FLAG_SET_eq _ _ (show f < 32 by omega)]
    by_cases hb : reading.presence_mask.testBit f
    · simp only [hb, if_true, List.length_append, fieldBytes_length] at hfit ⊢
      rw [encodeField_ok ctx p cap reading f c hf (by omega) hcap]
      simp only [Bool.not_true, Bool.false_eq_true, if_false]
      rw [ih _ hrest (by simp only; omega)]
      simp only [blit_append, fieldBytes_length]
      have e1 : c.offset + Spec.multiplicity ctx.header f * Spec.widthOf f
            + (Spec.fieldsBytes ctx.header reading rest).length
          = c.offset + (Spec.multiplicity ctx.header f * Spec.widthOf f
            + (Spec.fieldsBytes ctx.header reading rest).length) := by omega
      have e2 : p + (c.offset + Spec.multiplicity ctx.header f * Spec.widthOf f)
          = p + c.offset + Spec.multiplicity ctx.header f * Spec.widthOf f := by omega
      rw [e1, e2]
    · simp only [hb, Bool.false_eq_true, if_false] at hfit ⊢
      simp only [Bool.not_false, if_true]
      exact ih c hrest hfit

/-! ## The size walk -/

theorem size_step (ctx : EncoderContext) (flag : Nat) (hflag : flag < 27) :
    (if flag = FLAG_SIGNAL then 1
      else if flag ≥ FLAG_O3_WE ∧ flag ≤ FLAG_NO2_AE then 4
      else if flag = FLAG_AFE_TEMP then 2
      else 2 * (if isExpandable ctx flag && ctx.header.dual_mode then 2 else 1))
      = Spec.multiplicity ctx.header flag * Spec.widthOf flag := by
  obtain ⟨⟨v, dual, ded, iv⟩, rs, n⟩ := ctx
  interval_cases flag <;> cases dual <;> cases ded <;>
    simp [isExpandable, Spec.multiplicity, Spec.expandableTag, Spec.widthOf, FLAG_SIGNAL,
      FLAG_O3_WE, FLAG_NO2_AE, FLAG_AFE_TEMP]

theorem field_size_le (header : PayloadHeader) (flag : Nat) (hflag : flag < 27) :
    Spec.multiplicity header flag * Spec.widthOf flag ≤ 4 := by
  obtain ⟨v, dual, ded, iv⟩ := header
  interval_cases flag <;> cases dual <;> cases ded <;>
    simp [Spec.multiplicity, Spec.expandableTag, Spec.widthOf]

theorem fieldsBytes_length_le (header : PayloadHeader) (reading : SensorReading)
    (flags : List Nat) (hflags : ∀ f ∈ flags, f < 27) :
    (Spec.fieldsBytes header reading flags).length ≤ 4 * flags.length := by
  induction flags with
  | nil => simp [fieldsBytes_nil]
  | cons f rest ih =>
    have hf : f < 27 := hflags f (by simp)
    have hrest : ∀ g ∈ rest, g < 27 := fun g hg => hflags g (by simp [hg])
    have h1 := field_size_le header f hf
    have h2 := ih hrest
    rw [fieldsBytes_cons]
    split
    · simp only [List.length_append, fieldBytes_length, List.length_cons]
      omega
    · simp only [List.length_cons]
      omega

theorem calculateReadingSizeLoop_eq (ctx : EncoderContext) (reading : SensorReading)
    (flags : List Nat) (size : Nat) (hflags : ∀ f ∈ flags, f < 27)
    (hsize : size + 4 * flags.length < 4294967296) :
    calculateReadingSizeLoop ctx reading flags size
      = size + (Spec.fieldsBytes ctx.header reading flags).length := by
  induction flags generalizing size with
  | nil => simp [calculateReadingSizeLoop, fieldsBytes_nil]
  | cons f rest ih =>
    have hf : f < 27 := hflags f (by simp)
    have hrest : ∀ g ∈ rest, g < 27 := fun g hg => hflags g (by simp [hg])
    have h1 := field_size_le ctx.header f hf
    have hstep := size_step ctx f hf
    simp only [List.length_cons] at hsize
    rw [fieldsBytes_cons]
    simp only [calculateReadingSizeLoop, IS_FLAG_SET_eq _ _ (show f < 32 by omega)]
    by_cases hb : reading.presence_mask.testBit f
    · simp only [hb, Bool.not_true, Bool.false_eq_true, if_false, if_true,
        List.length_append, fieldBytes_length]
      rw [← hstep] at h1 ⊢
      split
      · rw [if_pos ‹_›] at h1
        rw [add32_small _ _ (by omega), ih _ hrest (by omega)]
        omega
      · split
        · rw [if_neg ‹_›, if_pos ‹_›] at h1
          rw [add32_small _ _ (by omega), ih _ hrest (by omega)]
          omega
        · split
          · rw [if_neg ‹_›, if_neg ‹_›, if_pos ‹_›] at h1
            rw [add32_small _ _ (by omega), ih _ hrest (by omega)]
            omega
          · rw [if_neg ‹_›, if_neg ‹_›, if_neg ‹_›] at h1
            rw [add32_small _ _ (by omega), ih _ hrest (by omega)]
            omega
    · simp only [hb, Bool.not_false, if_true, Bool.false_eq_true, if_false]
      exact ih size hrest (by omega)

theorem range27_lt : ∀ f ∈ List.range 27, f < 27 := fun _ hf => List.mem_range.mp hf

theorem readingBytes_length (header : PayloadHeader) (reading : SensorReading) :
    (Spec.readingBytes header reading).length
      = 4 + (Spec.fieldsBytes header reading (List.range 27)).length := by
  simp [Spec.readingBytes, littleEndian_length]

theorem calculateReadingSize_eq (ctx : EncoderContext) (reading : SensorReading) :
    calculateReadingSize ctx reading = (Spec.readingBytes ctx.header reading).length := by
  unfold calculateReadingSize
  rw [show FLAG_SIGNAL + 1 = 27 from rfl,
    calculateReadingSizeLoop_eq ctx reading (List.range 27) 4 range27_lt (by simp),
    readingBytes_length]

theorem readingBytes_length_le (header : PayloadHeader) (reading : SensorReading) :
    (Spec.readingBytes header reading).length ≤ 112 := by
  have h := fieldsBytes_length_le header reading (List.range 27) range27_lt
  rw [readingBytes_length]
  simp only [List.length_range] at h
  omega

/-! ## The batch loops -/

theorem readingsBytes_nil (ctx : EncoderContext) : Spec.readingsBytes ctx [] = [] := rfl

theorem readingsBytes_cons (ctx : EncoderContext) (i : Nat) (rest : List Nat) :
    Spec.readingsBytes ctx (i :: rest)
      = Spec.readingBytes ctx.header (ctx.readingAt i) ++ Spec.readingsBytes ctx rest := by
  simp [Spec.readingsBytes]

theorem readingsBytes_length_le (ctx : EncoderContext) (indices : List Nat) :
    (Spec.readingsBytes ctx indices).length ≤ 112 * indices.length := by
  induction indices with
  | nil => simp [readingsBytes_nil]
  | cons i rest ih =>
    have h := readingBytes_length_le ctx.header (ctx.readingAt i)
    rw [readingsBytes_cons]
    simp only [List.length_append, List.length_cons]
    omega

theorem calculateTotalSizeLoop_eq (ctx : EncoderContext) (indices : List Nat) (size : Nat)
    (hsize : size + 112 * indices.length < 4294967296) :
    calculateTotalSizeLoop ctx indices size
      = size + (Spec.readingsBytes ctx indices).length := by
  induction indices generalizing size with
  | nil => simp [calculateTotalSizeLoop, readingsBytes_nil]
  | cons i rest ih =>
    have h := readingBytes_length_le ctx.header (ctx.readingAt i)
    simp only [List.length_cons] at hsize
    simp only [calculateTotalSizeLoop, calculateReadingSize_eq]
    rw [add32_small _ _ (by omega), ih _ (by omega), readingsBytes_cons]
    simp only [List.length_append]
    omega

theorem payload_length (ctx : EncoderContext) :
    (Spec.payload ctx).length
      = 2 + (Spec.readingsBytes ctx (List.range ctx.reading_count)).length := by
  simp [Spec.payload]
  omega

theorem calculateTotalSize_eq (ctx : EncoderContext) (hcount : ctx.reading_count ≤ 255) :
    calculateTotalSize ctx = (Spec.payload ctx).length := by
  unfold calculateTotalSize
  rw [calculateTotalSizeLoop_eq ctx _ 2 (by simp only [List.length_range]; omega),
    payload_length]

theorem sub32_small (a b : Nat) (h : b ≤ a) (ha : a < 4294967296) : sub32 a b = a - b := by
  unfold sub32
  rw [Nat.mod_eq_of_lt (show b < 4294967296 by omega)]
  omega

theorem u32_small (x : Nat) (h : x < 4294967296) : u32 (x : Int) = x := by
  unfold u32
  omega

theorem encodeSensorData_ok (ctx : EncoderContext) (buffer : Buffer) (p cap : Nat)
    (reading : SensorReading)
    (hfit : (Spec.fieldsBytes ctx.header reading (List.range 27)).length ≤ cap)
    (hcap : cap < 4294967296) :
    encodeSensorData ctx buffer p cap reading =
      (((Spec.fieldsBytes ctx.header reading (List.range 27)).length : Int),
        blit buffer p (Spec.fieldsBytes ctx.header reading (List.range 27))) := by
  have hle := fieldsBytes_length_le ctx.header reading (List.range 27) range27_lt
  simp only [List.length_range] at hle
  unfold encodeSensorData
  rw [show FLAG_SIGNAL + 1 = 27 from rfl,
    encodeSensorDataLoop_ok ctx p cap reading (List.range 27) _ range27_lt
      (by simp only; omega) hcap]
  simp only [Nat.zero_add, Nat.add_zero]
  rw [i32_small _ (by omega)]

theorem encodeLoop_ok (ctx : EncoderContext) (cap : Nat) (indices : List Nat)
    (offset : Nat) (buffer : Buffer)
    (hfit : offset + (Spec.readingsBytes ctx indices).length ≤ cap)
    (hcap : cap < 4294967296) :
    encodeLoop ctx cap indices offset buffer =
      (i32 (offset + (Spec.readingsBytes ctx indices).length),
        blit buffer offset (Spec.readingsBytes ctx indices)) := by
  induction indices generalizing offset buffer with
  | nil => simp [encodeLoop, readingsBytes_nil, blit]
  | cons i rest ih =>
    have hle := fieldsBytes_length_le ctx.header (ctx.readingAt i) (List.range 27) range27_lt
    simp only [List.length_range] at hle
    rw [readingsBytes_cons] at hfit ⊢
    simp only [List.length_append, readingBytes_length] at hfit ⊢
    simp only [encodeLoop]
    rw [add32_small _ _ (by omega), sub32_small _ _ (by omega) hcap,
      encodeSensorData_ok ctx _ _ _ _ (by omega) (by omega)]
    simp only
    rw [if_neg (by omega), u32_small _ (by omega), add32_small _ _ (by omega),
      ih _ _ (by omega), encodePresenceMask_eq]
    simp only [Spec.readingBytes, blit_append, littleEndian_length, List.length_append]
    have e1 : offset + 4 + (Spec.fieldsBytes ctx.header (ctx.readingAt i) (List.range 27)).length
          + (Spec.readingsBytes ctx rest).length
        = offset + (4 + (Spec.fieldsBytes ctx.header (ctx.readingAt i) (List.range 27)).length
          + (Spec.readingsBytes ctx rest).length) := by omega
    have e2 : offset + 4 + (Spec.fieldsBytes ctx.header (ctx.readingAt i) (List.range 27)).length
        = offset + (4 + (Spec.fieldsBytes ctx.header (ctx.readingAt i) (List.range 27)).length) := by
      omega
    rw [e1, e2]

theorem encode_ok (ctx : EncoderContext) (mem : Buffer) (cap : Nat)
    (hpos : 1 ≤ ctx.reading_count) (hcount : ctx.reading_count ≤ MAX_BATCH_SIZE)
    (hcap : cap < 4294967296) (hfit : calculateTotalSize ctx ≤ cap) :
    encode ctx (some mem) cap =
      { ret := ((Spec.payload ctx).length : Int), ctx := ctx,
        buffer := some (blit mem 0 (Spec.payload ctx)) } := by
  have hc : ctx.reading_count ≤ 20 := hcount
  have hlen := calculateTotalSize_eq ctx (by omega)
  have hle := readingsBytes_length_le ctx (List.range ctx.reading_count)
  simp only [List.length_range] at hle
  have hpl := payload_length ctx
  unfold encode
  simp only
  rw [if_neg (by omega), if_neg (by omega),
    encodeLoop_ok ctx cap _ 2 _ (by omega) hcap, i32_small _ (by omega)]
  rw [hpl]
  simp only [Spec.payload, List.cons_append, List.nil_append, blit, Nat.zero_add]
  rfl

/-! ## Claims about `encode` -/

/-- Claim C1: for every encoder state holding between 1 and 20 readings and
every non-null buffer whose capacity is at least `calculateTotalSize()`,
`encode` returns exactly `calculateTotalSize()`; and on every reading the size
walk `calculateReadingSize` (less the 4 mask bytes) and the emission walk
`encodeSensorData`, given room for it, yield the same count. -/
theorem encode_returns_calculateTotalSize (ctx : EncoderContext) (mem : Buffer) (cap : Nat)
    (hpos : 1 ≤ ctx.reading_count) (hcount : ctx.reading_count ≤ MAX_BATCH_SIZE)
    (hcap : cap < 4294967296) (hfit : calculateTotalSize ctx ≤ cap) :
    (encode ctx (some mem) cap).ret = (calculateTotalSize ctx : Int)
      ∧ ∀ (reading : SensorReading) (buffer : Buffer) (p room : Nat),
          room < 4294967296 → calculateReadingSize ctx reading ≤ 4 + room →
          ((encodeSensorData ctx buffer p room reading).1 : Int) + 4
            = (calculateReadingSize ctx reading : Int) := by
  have hc : ctx.reading_count ≤ 20 := hcount
  refine ⟨?_, ?_⟩
  · rw [encode_ok ctx mem cap hpos hcount hcap hfit, calculateTotalSize_eq ctx (by omega)]
  · intro reading buffer p room hroom hfits
    rw [calculateReadingSize_eq, readingBytes_length] at hfits ⊢
    rw [encodeSensorData_ok ctx buffer p room reading (by omega) hroom]
    push_cast
    omega

theorem encode_returns_calculateTotalSize_witness :
    (1 ≤ demoCtx.reading_count ∧ calculateTotalSize demoCtx ≤ 10)
      ∧ (encode demoCtx (some demoMem) 10).ret = (calculateTotalSize demoCtx : Int)
      ∧ (encode demoCtx (some demoMem) 10).ret = 10 :=
  ⟨⟨by decide, by decide⟩,
    (encode_returns_calculateTotalSize demoCtx demoMem 10 (by decide) (by decide) (by decide)
      (by decide)).1, by decide⟩

/-- Claim C2: for every encoder state with 1 to 20 readings and every non-null
buffer of capacity at least `calculateTotalSize()`, after `encode` the first
`calculateTotalSize()` bytes of the buffer are exactly the payload of the
specification: the metadata byte, the interval byte, then for each stored
reading in append order the 4 little-endian mask bytes followed, for tag 0 to
26 ascending with its bit set, by slot 0 (and slot 1 at multiplicity 2) in the
width of the tag, with no padding. -/
theorem encode_writes_payload (ctx : EncoderContext) (mem : Buffer) (cap : Nat)
    (hpos : 1 ≤ ctx.reading_count) (hcount : ctx.reading_count ≤ MAX_BATCH_SIZE)
    (hcap : cap < 4294967296) (hfit : calculateTotalSize ctx ≤ cap) :
    firstBytes (encode ctx (some mem) cap).buffer (calculateTotalSize ctx)
      = Spec.payload ctx := by
  have hc : ctx.reading_count ≤ 20 := hcount
  rw [encode_ok ctx mem cap hpos hcount hcap hfit, calculateTotalSize_eq ctx (by omega)]
  exact map_blit_range mem (Spec.payload ctx)

theorem encode_writes_payload_witness :
    (1 ≤ demoCtx.reading_count ∧ calculateTotalSize demoCtx ≤ 12)
      ∧ firstBytes (encode demoCtx (some demoMem) 12).buffer (calculateTotalSize demoCtx)
          = Spec.payload demoCtx
      ∧ Spec.payload demoCtx = [0x01, 0x05, 0x05, 0x00, 0x00, 0x00, 0xC4, 0x09, 0x9C, 0x01] :=
  ⟨⟨by decide, by decide⟩,
    encode_writes_payload demoCtx demoMem 12 (by decide) (by decide) (by decide) (by decide),
    by decide⟩

/-- Claim C3, as stated (false): the empty batch encoded into a buffer of
capacity exactly `calculateTotalSize()` does not return `calculateTotalSize()`;
the size is 2 and `encode` returns 0. -/
theorem empty_batch_size_mismatch :
    construct.reading_count = 0
      ∧ calculateTotalSize construct = 2
      ∧ (encode construct (some demoMem) (calculateTotalSize construct)).ret = 0
      ∧ (encode construct (some demoMem) (calculateTotalSize construct)).ret
          ≠ (calculateTotalSize construct : Int) := by
  decide

/-- Claim C3, amended: for every batch with 1 to 20 readings, encoding it into
a non-null buffer whose capacity is exactly `calculateTotalSize()` returns
`calculateTotalSize()`; for the empty batch `calculateTotalSize()` is 2 and
`encode` returns 0. -/
theorem encode_exact_capacity (ctx : EncoderContext) (mem : Buffer)
    (hcount : ctx.reading_count ≤ MAX_BATCH_SIZE) :
    (1 ≤ ctx.reading_count →
        (encode ctx (some mem) (calculateTotalSize ctx)).ret = (calculateTotalSize ctx : Int))
      ∧ (ctx.reading_count = 0 →
        calculateTotalSize ctx = 2
          ∧ (encode ctx (some mem) (calculateTotalSize ctx)).ret = 0) := by
  have hc : ctx.reading_count ≤ 20 := hcount
  have hlen := calculateTotalSize_eq ctx (by omega)
  have hle := readingsBytes_length_le ctx (List.range ctx.reading_count)
  simp only [List.length_range] at hle
  have hpl := payload_length ctx
  refine ⟨?_, ?_⟩
  · intro hpos
    rw [encode_ok ctx mem _ hpos hcount (by omega) (Nat.le_refl _), hlen]
  · intro h0
    refine ⟨?_, ?_⟩
    · simp [calculateTotalSize, h0, calculateTotalSizeLoop]
    · simp [encode, h0]

theorem encode_exact_capacity_witness :
    demoCtx.reading_count ≤ MAX_BATCH_SIZE
      ∧ (encode demoCtx (some demoMem) (calculateTotalSize demoCtx)).ret
          = (calculateTotalSize demoCtx : Int)
      ∧ calculateTotalSize demoCtx = 10 :=
  ⟨by decide, (encode_exact_capacity demoCtx demoMem (by decide)).1 (by decide), by decide⟩

theorem payload_length_ge (ctx : EncoderContext) : 2 ≤ (Spec.payload ctx).length := by
  rw [payload_length]
  omega

/-- Claim C4: for every encoder state with at least one reading (at most 20)
and every non-null buffer, `encode` returns -1 if and only if the capacity is
strictly less than `calculateTotalSize()`; it fails at one byte short of the
required size and succeeds at exactly the required size. -/
theorem encode_fails_iff_too_small (ctx : EncoderContext) (mem : Buffer) (cap : Nat)
    (hpos : 1 ≤ ctx.reading_count) (hcount : ctx.reading_count ≤ MAX_BATCH_SIZE)
    (hcap : cap < 4294967296) :
    ((encode ctx (some mem) cap).ret = -1 ↔ cap < calculateTotalSize ctx)
      ∧ (encode ctx (some mem) (calculateTotalSize ctx - 1)).ret = -1
      ∧ (encode ctx (some mem) (calculateTotalSize ctx)).ret = (calculateTotalSize ctx : Int) := by
  have hc : ctx.reading_count ≤ 20 := hcount
  have hlen := calculateTotalSize_eq ctx (by omega)
  have hge := payload_length_ge ctx
  have hle := readingsBytes_length_le ctx (List.range ctx.reading_count)
  simp only [List.length_range] at hle
  have hpl := payload_length ctx
  have hsmall : ∀ c, c < calculateTotalSize ctx → (encode ctx (some mem) c).ret = -1 := by
    intro c hlt
    unfold encode
    simp only
    rw [if_neg (by omega), if_pos (by omega)]
  refine ⟨⟨?_, hsmall cap⟩, hsmall _ (by omega), ?_⟩
  · intro hret
    by_contra hnot
    rw [encode_ok ctx mem cap hpos hcount hcap (by omega)] at hret
    simp only at hret
    omega
  · rw [encode_ok ctx mem _ hpos hcount (by omega) (Nat.le_refl _), hlen]

theorem encode_fails_iff_too_small_witness :
    (1 ≤ demoCtx.reading_count ∧ calculateTotalSize demoCtx = 10)
      ∧ (encode demoCtx (some demoMem) 9).ret = -1
      ∧ (encode demoCtx (some demoMem) 10).ret = 10 :=
  ⟨⟨by decide, by decide⟩,
    ((encode_fails_iff_too_small demoCtx demoMem 9 (by decide) (by decide) (by decide)).1).2
      (by decide),
    by decide⟩

/-- Claim C5: for every encoder state with at least one reading and every
non-null buffer whose capacity is smaller than `calculateTotalSize()`, `encode`
returns -1 and leaves every byte of the buffer as it was. -/
theorem encode_too_small_writes_nothing (ctx : EncoderContext) (mem : Buffer) (cap : Nat)
    (hpos : 1 ≤ ctx.reading_count) (_hcount : ctx.reading_count ≤ MAX_BATCH_SIZE)
    (hsmall : cap < calculateTotalSize ctx) :
    (encode ctx (some mem) cap).ret = -1 ∧ (encode ctx (some mem) cap).buffer = some mem := by
  unfold encode
  simp only
  rw [if_neg (by omega), if_pos (by omega)]
  exact ⟨rfl, rfl⟩

theorem encode_too_small_writes_nothing_witness :
    (1 ≤ demoCtx.reading_count ∧ 9 < calculateTotalSize demoCtx)
      ∧ (encode demoCtx (some demoMem) 9).ret = -1
      ∧ (encode demoCtx (some demoMem) 9).buffer = some demoMem :=
  ⟨⟨by decide, by decide⟩,
    encode_too_small_writes_nothing demoCtx demoMem 9 (by decide) (by decide) (by decide)⟩

/-- Claim C6: for every header and every non-null buffer of any capacity,
encoding a batch that holds zero readings returns 0 and leaves every byte of
the buffer unchanged; not even the 2 header bytes are written. -/
theorem encode_empty_batch (ctx : EncoderContext) (mem : Buffer) (cap : Nat)
    (hempty : ctx.reading_count = 0) :
    (encode ctx (some mem) cap).ret = 0 ∧ (encode ctx (some mem) cap).buffer = some mem := by
  unfold encode
  simp only
  rw [if_pos hempty]
  exact ⟨rfl, rfl⟩

theorem encode_empty_batch_witness :
    (init construct demoHeader).reading_count = 0
      ∧ (encode (init construct demoHeader) (some demoMem) 256).ret = 0
      ∧ (encode (init construct demoHeader) (some demoMem) 256).buffer = some demoMem :=
  ⟨rfl, encode_empty_batch (init construct demoHeader) demoMem 256 rfl⟩

/-- Claim C7: for every encoder state, empty or not, and every stated
capacity, `encode` called with a null output buffer returns -1. -/
theorem encode_null_buffer (ctx : EncoderContext) (cap : Nat) :
    (encode ctx none cap).ret = -1 := rfl

/-- Claim C8, as stated (false): with a non-null output target of zero
capacity and an empty batch, `encode` returns 0, which is not negative. -/
theorem encode_zero_capacity_empty_not_negative :
    (init construct demoHeader).reading_count = 0
      ∧ (encode (init construct demoHeader) (some demoMem) 0).ret = 0
      ∧ ¬ (encode (init construct demoHeader) (some demoMem) 0).ret < 0 := by
  decide

/-- Claim C8, amended: `encode` has no zero-capacity check of its own. With an
output target of zero capacity it returns -1 for every state that holds at
least one reading (the required size exceeds 0) and for every state when the
buffer is null; for an empty batch and a non-null buffer it returns 0. -/
theorem encode_zero_capacity (ctx : EncoderContext) (mem : Buffer)
    (hcount : ctx.reading_count ≤ MAX_BATCH_SIZE) :
    (1 ≤ ctx.reading_count → (encode ctx (some mem) 0).ret = -1)
      ∧ (encode ctx none 0).ret = -1
      ∧ (ctx.reading_count = 0 → (encode ctx (some mem) 0).ret = 0) := by
  have hc : ctx.reading_count ≤ 20 := hcount
  have hlen := calculateTotalSize_eq ctx (by omega)
  have hge := payload_length_ge ctx
  refine ⟨?_, rfl, ?_⟩
  · intro hpos
    unfold encode
    simp only
    rw [if_neg (by omega), if_pos (by omega)]
  · intro h0
    unfold encode
    simp only
    rw [if_pos h0]

theorem encode_zero_capacity_witness :
    (demoCtx.reading_count ≤ MAX_BATCH_SIZE ∧ 1 ≤ demoCtx.reading_count)
      ∧ (encode demoCtx (some demoMem) 0).ret = -1 :=
  ⟨⟨by decide, by decide⟩, (encode_zero_capacity demoCtx demoMem (by decide)).1 (by decide)⟩

/-! ## Claims about the header and the presence mask -/

theorem and_7 (x : Nat) : x &&& 0x07 = x % 8 := Nat.and_pow_two_sub_one_eq_mod x 3

theorem encodeMetadata_eq (ctx : EncoderContext) :
    encodeMetadata ctx
      = ctx.header.version % 8 + 8 * (if ctx.header.dual_mode then 1 else 0)
          + 16 * (if ctx.header.dedicated_temphum_sensor then 1 else 0) := by
  obtain ⟨⟨v, dual, ded, iv⟩, rs, n⟩ := ctx
  have hv : v % 8 < 8 := Nat.mod_lt _ (by norm_num)
  simp only [encodeMetadata, and_7, Nat.zero_or]
  generalize v % 8 = x at hv
  interval_cases x <;> cases dual <;> cases ded <;> rfl

theorem blit_zero_head (mem : Buffer) (a b : Nat) (rest : List Nat) :
    blit mem 0 (a :: b :: rest) 0 = a ∧ blit mem 0 (a :: b :: rest) 1 = b := by
  simp only [blit]
  rw [blit_below _ _ _ _ (by omega), blit_below _ _ _ _ (by omega)]
  simp [writeByte]

/-- Claim C9: for every stored header, `encodeMetadata()` equals
`(version mod 8) + 8*[dual_mode] + 16*[dedicated_temphum_sensor]`, so bits 5-7
are zero (the result is below 32); and this byte is byte 0, with
`interval_minutes` as byte 1, of every non-empty encoding. -/
theorem encodeMetadata_layout (ctx : EncoderContext) :
    encodeMetadata ctx
        = ctx.header.version % 8 + 8 * (if ctx.header.dual_mode then 1 else 0)
          + 16 * (if ctx.header.dedicated_temphum_sensor then 1 else 0)
      ∧ encodeMetadata ctx < 32
      ∧ ∀ (mem : Buffer) (cap : Nat), 1 ≤ ctx.reading_count →
          ctx.reading_count ≤ MAX_BATCH_SIZE → cap < 4294967296 →
          calculateTotalSize ctx ≤ cap →
          ∃ out, (encode ctx (some mem) cap).buffer = some out
            ∧ out 0 = encodeMetadata ctx ∧ out 1 = ctx.header.interval_minutes := by
  have hm := encodeMetadata_eq ctx
  refine ⟨hm, ?_, ?_⟩
  · rw [hm]
    have hv : ctx.header.version % 8 < 8 := Nat.mod_lt _ (by norm_num)
    split <;> split <;> omega
  · intro mem cap hpos hcount hcap hfit
    rw [encode_ok ctx mem cap hpos hcount hcap hfit]
    exact ⟨_, rfl, blit_zero_head mem _ _ _⟩

theorem encodeMetadata_layout_witness :
    encodeMetadata demoCtx = 1
      ∧ ∃ out, (encode demoCtx (some demoMem) 10).buffer = some out
          ∧ out 0 = encodeMetadata demoCtx ∧ out 1 = demoCtx.header.interval_minutes :=
  ⟨by decide,
    (encodeMetadata_layout demoCtx).2.2 demoMem 10 (by decide) (by decide) (by decide)
      (by decide)⟩

theorem range_split (k n : Nat) (h : k < n) :
    ∃ tail, List.range n = List.range k ++ k :: tail := by
  obtain ⟨m, rfl⟩ : ∃ m, n = k + (m + 1) := ⟨n - k - 1, by omega⟩
  rw [List.range_add, List.range_succ_eq_map]
  exact ⟨List.map (fun x => k + x) (List.map Nat.succ (List.range m)), by simp⟩

theorem readingsBytes_append (ctx : EncoderContext) (xs ys : List Nat) :
    Spec.readingsBytes ctx (xs ++ ys)
      = Spec.readingsBytes ctx xs ++ Spec.readingsBytes ctx ys := by
  simp [Spec.readingsBytes]

theorem sum_sizes_eq (ctx : EncoderContext) (indices : List Nat) :
    (indices.map (fun i => calculateReadingSize ctx (ctx.readingAt i))).sum
      = (Spec.readingsBytes ctx indices).length := by
  induction indices with
  | nil => simp [readingsBytes_nil]
  | cons i rest ih =>
    rw [List.map_cons, List.sum_cons, ih, readingsBytes_cons, List.length_append,
      calculateReadingSize_eq]

theorem readingOffset_eq (ctx : EncoderContext) (k : Nat) :
    readingOffset ctx k = 2 + (Spec.readingsBytes ctx (List.range k)).length := by
  unfold readingOffset
  rw [sum_sizes_eq]

theorem blit_mid (mem : Buffer) (front mid back : List Nat) (j : Nat) (h : j < mid.length) :
    blit mem 0 (front ++ (mid ++ back)) (front.length + j) = mid.getD j 0 := by
  rw [blit_append, blit_append, blit_below _ _ _ _ (by omega), Nat.zero_add, blit_at _ _ _ _ h]

theorem payload_split (ctx : EncoderContext) (k : Nat) (hk : k < ctx.reading_count) :
    ∃ back, Spec.payload ctx
      = ([encodeMetadata ctx, ctx.header.interval_minutes]
            ++ Spec.readingsBytes ctx (List.range k))
          ++ (Spec.littleEndian 4 ((ctx.readingAt k).presence_mask : Int) ++ back) := by
  obtain ⟨tail, ht⟩ := range_split k ctx.reading_count hk
  refine ⟨Spec.fieldsBytes ctx.header (ctx.readingAt k) (List.range 27)
    ++ Spec.readingsBytes ctx tail, ?_⟩
  unfold Spec.payload
  rw [ht, readingsBytes_append, readingsBytes_cons]
  simp [Spec.readingBytes]

theorem readLE32_littleEndian (mem : Buffer) (front back : List Nat) (value : Nat) :
    readLE32 (blit mem 0 (front ++ (Spec.littleEndian 4 (value : Int) ++ back))) front.length
      = value % 4294967296 := by
  have h0 := blit_mid mem front (Spec.littleEndian 4 (value : Int)) back 0
    (by simp [littleEndian_length])
  have h1 := blit_mid mem front (Spec.littleEndian 4 (value : Int)) back 1
    (by simp [littleEndian_length])
  have h2 := blit_mid mem front (Spec.littleEndian 4 (value : Int)) back 2
    (by simp [littleEndian_length])
  have h3 := blit_mid mem front (Spec.littleEndian 4 (value : Int)) back 3
    (by simp [littleEndian_length])
  simp only [Nat.add_zero] at h0
  unfold readLE32
  rw [h0, h1, h2, h3]
  simp [Spec.littleEndian, List.range_succ]
  omega

/-- Claim C10, as stated (false): a reading whose `presence_mask` field has
bit 27 set is encoded successfully and its four emitted mask bytes, read
little-endian, have bit 27 set. -/
theorem emitted_mask_high_bit_set :
    (encode highMaskCtx (some demoMem) 6).ret = 6
      ∧ emittedMask (encode highMaskCtx (some demoMem) 6) 0 = 134217728
      ∧ (emittedMask (encode highMaskCtx (some demoMem) 6) 0).testBit 27 = true := by
  decide

/-- Claim C10, amended: for every reading of every successfully encoded batch,
the 4 presence-mask bytes emitted for that reading are the `presence_mask`
field of the reading itself, all 32 bits, little-endian and unmasked; bits
27-31 of the emitted mask are 0 whenever the stored field is below `2 ^ 27`. -/
theorem emitted_mask_is_stored_field (ctx : EncoderContext) (mem : Buffer) (cap k : Nat)
    (hpos : 1 ≤ ctx.reading_count) (hcount : ctx.reading_count ≤ MAX_BATCH_SIZE)
    (hcap : cap < 4294967296) (hfit : calculateTotalSize ctx ≤ cap)
    (hk : k < ctx.reading_count) :
    emittedMask (encode ctx (some mem) cap) k = (ctx.readingAt k).presence_mask % 4294967296
      ∧ ((ctx.readingAt k).presence_mask < 2 ^ 27 →
          ∀ b, 27 ≤ b → (emittedMask (encode ctx (some mem) cap) k).testBit b = false) := by
  have hval : emittedMask (encode ctx (some mem) cap) k
      = (ctx.readingAt k).presence_mask % 4294967296 := by
    obtain ⟨back, hb⟩ := payload_split ctx k hk
    rw [encode_ok ctx mem cap hpos hcount hcap hfit]
    simp only [emittedMask]
    rw [readingOffset_eq, hb]
    have hlen : ([encodeMetadata ctx, ctx.header.interval_minutes]
        ++ Spec.readingsBytes ctx (List.range k)).length
        = 2 + (Spec.readingsBytes ctx (List.range k)).length := by
      simp
      omega
    rw [← hlen]
    exact readLE32_littleEndian mem _ back _
  refine ⟨hval, ?_⟩
  intro hsmall b hb
  rw [hval, Nat.mod_eq_of_lt (by omega)]
  apply Nat.testBit_eq_false_of_lt
  calc (ctx.readingAt k).presence_mask < 2 ^ 27 := hsmall
    _ ≤ 2 ^ b := Nat.pow_le_pow_right (by norm_num) hb

theorem emitted_mask_is_stored_field_witness :
    (0 < demoCtx.reading_count ∧ calculateTotalSize demoCtx ≤ 10)
      ∧ emittedMask (encode demoCtx (some demoMem) 10) 0 = 5 :=
  ⟨⟨by decide, by decide⟩,
    (emitted_mask_is_stored_field demoCtx demoMem 10 0 (by decide) (by decide) (by decide)
      (by decide) (by decide)).1⟩

/-! ## Claims about expandability and sizes -/

theorem isExpandable_iff (ctx : EncoderContext) (tag : Nat) (htag : tag < 27) :
    isExpandable ctx tag = true
      ↔ (7 ≤ tag ∧ tag ≤ 18)
          ∨ ((tag = 0 ∨ tag = 1) ∧ ctx.header.dedicated_temphum_sensor = false) := by
  obtain ⟨⟨v, dual, ded, iv⟩, rs, n⟩ := ctx
  interval_cases tag <;> cases ded <;> simp [isExpandable]

theorem isExpandable_congr (ctx other : EncoderContext) (tag : Nat) (htag : tag < 27)
    (hded : other.header.dedicated_temphum_sensor = ctx.header.dedicated_temphum_sensor) :
    isExpandable other tag = isExpandable ctx tag := by
  have h1 := isExpandable_iff ctx tag htag
  have h2 := isExpandable_iff other tag htag
  rw [hded] at h2
  have h3 : isExpandable other tag = true ↔ isExpandable ctx tag = true := h2.trans h1.symm
  cases ha : isExpandable ctx tag <;> cases hb : isExpandable other tag <;> simp_all

theorem multiplicityOf_eq (ctx : EncoderContext) (tag : Nat) (htag : tag < 27) :
    multiplicityOf ctx tag = Spec.multiplicity ctx.header tag := by
  obtain ⟨⟨v, dual, ded, iv⟩, rs, n⟩ := ctx
  interval_cases tag <;> cases dual <;> cases ded <;>
    simp [multiplicityOf, isExpandable, Spec.multiplicity, Spec.expandableTag]

theorem isFlagSet_eq (reading : SensorReading) (tag : Nat) (htag : tag < 27) :
    isFlagSet reading tag = reading.presence_mask.testBit tag :=
  IS_FLAG_SET_eq _ _ (by omega)

theorem presentSizes_nil (ctx : EncoderContext) (reading : SensorReading) :
    presentSizes ctx reading [] = 0 := rfl

theorem presentSizes_cons (ctx : EncoderContext) (reading : SensorReading) (tag : Nat)
    (tags : List Nat) :
    presentSizes ctx reading (tag :: tags)
      = (if isFlagSet reading tag then Spec.widthOf tag * multiplicityOf ctx tag else 0)
          + presentSizes ctx reading tags := by
  unfold presentSizes
  by_cases h : isFlagSet reading tag <;> simp [List.filter_cons, h]

theorem presentSizes_append (ctx : EncoderContext) (reading : SensorReading)
    (xs ys : List Nat) :
    presentSizes ctx reading (xs ++ ys)
      = presentSizes ctx reading xs + presentSizes ctx reading ys := by
  simp [presentSizes]

theorem presentSizes_eq (ctx : EncoderContext) (reading : SensorReading) (tags : List Nat)
    (htags : ∀ t ∈ tags, t < 27) :
    presentSizes ctx reading tags = (Spec.fieldsBytes ctx.header reading tags).length := by
  induction tags with
  | nil => simp [presentSizes_nil, fieldsBytes_nil]
  | cons t rest ih =>
    have ht : t < 27 := htags t (by simp)
    have hrest : ∀ u ∈ rest, u < 27 := fun u hu => htags u (by simp [hu])
    rw [presentSizes_cons, fieldsBytes_cons, ih hrest, isFlagSet_eq _ _ ht,
      multiplicityOf_eq _ _ ht]
    by_cases hb : reading.presence_mask.testBit t
    · simp only [hb, if_true, List.length_append, fieldBytes_length]
      rw [Nat.mul_comm]
    · simp only [hb, Bool.false_eq_true, if_false, Nat.zero_add]

/-- Claim C13: for every tag in 0..26 and every header, `isExpandable(tag)` is
true exactly when the tag is one of the particulate tags 7..18, or it is
temperature (0) or humidity (1) and the dedicated flag is off; the result
depends on nothing in the state but the dedicated flag; with the flag off
exactly 14 tags are expandable. -/
theorem isExpandable_characterisation (ctx : EncoderContext) (tag : Nat) (htag : tag ≤ 26) :
    (isExpandable ctx tag = true
        ↔ (7 ≤ tag ∧ tag ≤ 18)
            ∨ ((tag = 0 ∨ tag = 1) ∧ ctx.header.dedicated_temphum_sensor = false))
      ∧ (∀ other : EncoderContext,
          other.header.dedicated_temphum_sensor = ctx.header.dedicated_temphum_sensor →
          isExpandable other tag = isExpandable ctx tag)
      ∧ (ctx.header.dedicated_temphum_sensor = false →
          ((List.range 27).filter (fun t => isExpandable ctx t)).length = 14) := by
  refine ⟨isExpandable_iff ctx tag (by omega), ?_, ?_⟩
  · intro other hded
    exact isExpandable_congr ctx other tag (by omega) hded
  · intro hoff
    obtain ⟨⟨v, dual, ded, iv⟩, rs, n⟩ := ctx
    simp only at hoff
    subst hoff
    rfl

theorem isExpandable_characterisation_witness :
    FLAG_PM_25 ≤ 26
      ∧ isExpandable mixedCtx FLAG_PM_25 = true
      ∧ ((List.range 27).filter (fun t => isExpandable mixedCtx t)).length = 14 :=
  ⟨by decide,
    (isExpandable_characterisation mixedCtx FLAG_PM_25 (by decide)).1.2
      (Or.inl ⟨by decide, by decide⟩),
    (isExpandable_characterisation mixedCtx FLAG_PM_25 (by decide)).2.2 rfl⟩

/-- Claim C14: for every reading and every header, `calculateReadingSize` is 4
plus the sum, over the tags 0..26 whose presence bit is set, of the width of
the tag (1 for tag 26, 4 for tags 21..24, 2 otherwise) times its multiplicity
(2 when `dual_mode` is on and `isExpandable` holds, 1 otherwise). -/
theorem calculateReadingSize_formula (ctx : EncoderContext) (reading : SensorReading) :
    calculateReadingSize ctx reading
      = 4 + (((List.range 27).filter (fun t => isFlagSet reading t)).map
          (fun t =>
            (if t = 26 then 1 else if 21 ≤ t ∧ t ≤ 24 then 4 else 2)
              * (if ctx.header.dual_mode && isExpandable ctx t then 2 else 1))).sum := by
  rw [calculateReadingSize_eq, readingBytes_length,
    ← presentSizes_eq ctx reading (List.range 27) range27_lt]
  rfl

/-- Claim C15: for every encoder state (at most 20 readings),
`calculateTotalSize()` is 2 plus the sum of `calculateReadingSize` over the
first `reading_count` stored readings; slots at index `reading_count` and
above never contribute; the value is 2 for a batch with zero readings. -/
theorem calculateTotalSize_formula (ctx : EncoderContext)
    (hcount : ctx.reading_count ≤ MAX_BATCH_SIZE) :
    calculateTotalSize ctx
        = 2 + ((List.range ctx.reading_count).map
            (fun i => calculateReadingSize ctx (ctx.readingAt i))).sum
      ∧ (∀ other : EncoderContext, other.header = ctx.header →
          other.reading_count = ctx.reading_count →
          (∀ i, i < ctx.reading_count → other.readingAt i = ctx.readingAt i) →
          calculateTotalSize other = calculateTotalSize ctx)
      ∧ (ctx.reading_count = 0 → calculateTotalSize ctx = 2) := by
  have hc : ctx.reading_count ≤ 20 := hcount
  have hsum : ∀ c : EncoderContext, c.reading_count ≤ 20 →
      calculateTotalSize c
        = 2 + ((List.range c.reading_count).map
            (fun i => calculateReadingSize c (c.readingAt i))).sum := by
    intro c hle
    rw [calculateTotalSize_eq c (by omega), payload_length, sum_sizes_eq]
  refine ⟨hsum ctx hc, ?_, ?_⟩
  · intro other hh hn hr
    rw [hsum ctx hc, hsum other (by omega), hn]
    congr 2
    apply List.map_congr_left
    intro i hi
    rw [hr i (List.mem_range.mp hi), calculateReadingSize_eq, calculateReadingSize_eq, hh]
  · intro h0
    rw [hsum ctx hc, h0]
    rfl

theorem calculateTotalSize_formula_witness :
    demoCtx.reading_count ≤ MAX_BATCH_SIZE
      ∧ calculateTotalSize demoCtx
          = 2 + ((List.range demoCtx.reading_count).map
              (fun i => calculateReadingSize demoCtx (demoCtx.readingAt i))).sum
      ∧ calculateTotalSize demoCtx = 10 :=
  ⟨by decide, (calculateTotalSize_formula demoCtx (by decide)).1, by decide⟩

/-! ## Claims about the batch accumulator -/

/-- Claim C16: for every encoder state whose reading count is 20 and every
reading, `addReading` returns false and leaves the whole state unchanged: the
count, the header and all 20 stored readings are exactly as before. -/
theorem addReading_full (ctx : EncoderContext) (reading : SensorReading)
    (hfull : ctx.reading_count = 20) :
    (addReading ctx reading).1 = false ∧ (addReading ctx reading).2 = ctx
      ∧ (addReading ctx reading).2.reading_count = 20 := by
  have h : ctx.reading_count ≥ MAX_BATCH_SIZE := by
    rw [hfull]
    exact Nat.le_refl 20
  unfold addReading
  rw [if_pos h]
  exact ⟨rfl, rfl, hfull⟩

theorem addReading_full_witness :
    fullCtx.reading_count = 20
      ∧ (addReading fullCtx mixedReading).1 = false
      ∧ (addReading fullCtx mixedReading).2 = fullCtx :=
  ⟨rfl, (addReading_full fullCtx mixedReading rfl).1,
    (addReading_full fullCtx mixedReading rfl).2.1⟩

/-- Claim C17: for every encoder state whose reading count `n` is below 20 and
every reading `r`, `addReading(r)` returns true, the count becomes `n + 1`,
the stored reading at index `n` equals `r`, and the header and the readings at
indices `0..n-1` are unchanged. -/
theorem addReading_appends (ctx : EncoderContext) (reading : SensorReading)
    (hroom : ctx.reading_count < 20) :
    (addReading ctx reading).1 = true
      ∧ (addReading ctx reading).2.reading_count = ctx.reading_count + 1
      ∧ (addReading ctx reading).2.readingAt ctx.reading_count = reading
      ∧ (addReading ctx reading).2.header = ctx.header
      ∧ ∀ i, i < ctx.reading_count →
          (addReading ctx reading).2.readingAt i = ctx.readingAt i := by
  have h : ¬ ctx.reading_count ≥ MAX_BATCH_SIZE := by
    show ¬ 20 ≤ ctx.reading_count
    omega
  unfold addReading
  rw [if_neg h]
  refine ⟨rfl, ?_, ?_, rfl, ?_⟩
  · show (ctx.reading_count + 1) % 256 = ctx.reading_count + 1
    omega
  · have hlt : ctx.reading_count < MAX_BATCH_SIZE := hroom
    simp [EncoderContext.readingAt, hlt]
  · intro i hi
    have hlt : i < MAX_BATCH_SIZE := by
      show i < 20
      omega
    have hne : i ≠ ctx.reading_count := by omega
    simp [EncoderContext.readingAt, hlt, hne]

theorem addReading_appends_witness :
    demoCtx.reading_count < 20
      ∧ (addReading demoCtx mixedReading).1 = true
      ∧ (addReading demoCtx mixedReading).2.reading_count = 2
      ∧ (addReading demoCtx mixedReading).2.readingAt 1 = mixedReading :=
  ⟨by decide, (addReading_appends demoCtx mixedReading (by decide)).1,
    (addReading_appends demoCtx mixedReading (by decide)).2.1,
    (addReading_appends demoCtx mixedReading (by decide)).2.2.1⟩

theorem encode_ctx (ctx : EncoderContext) (buffer : Option Buffer) (cap : Nat) :
    (encode ctx buffer cap).ctx = ctx := by
  unfold encode
  cases buffer with
  | none => rfl
  | some mem =>
    simp only
    split
    · rfl
    · split <;> rfl

theorem step_count_le (ctx : EncoderContext) (call : Call)
    (h : ctx.reading_count ≤ 20) : (step ctx call).reading_count ≤ 20 := by
  cases call with
  | init header => exact Nat.zero_le _
  | addReading reading =>
    simp only [step, addReading]
    split
    · exact h
    · rename_i hlt
      have hlt20 : ¬ 20 ≤ ctx.reading_count := hlt
      show (ctx.reading_count + 1) % 256 ≤ 20
      omega
  | reset => exact Nat.zero_le _
  | encode buffer cap =>
    simp only [step, encode_ctx]
    exact h

theorem foldl_step_count_le (calls : List Call) (ctx : EncoderContext)
    (h : ctx.reading_count ≤ 20) : (calls.foldl step ctx).reading_count ≤ 20 := by
  induction calls generalizing ctx with
  | nil => exact h
  | cons call rest ih => exact ih _ (step_count_le ctx call h)

/-- Claim C18: in every state reached from a freshly constructed encoder by
any sequence of `init`, `addReading`, `reset` and `encode` calls,
`getReadingCount()` is between 0 and 20 inclusive. -/
theorem reading_count_bounded (calls : List Call) :
    0 ≤ getReadingCount (run calls) ∧ getReadingCount (run calls) ≤ MAX_BATCH_SIZE :=
  ⟨Nat.zero_le _, foldl_step_count_le calls construct (Nat.zero_le _)⟩

/-- Claim C19: for every prior encoder state and every header `h`, after
`init(h)` the reading count is 0 and the stored header is `h`, so
`encodeMetadata()` and the interval byte are those of `h`; the state after
`init(h)` is the same whatever the prior state was, so no reading accumulated
before influences any later size or `encode` result. -/
theorem init_clears (ctx : EncoderContext) (h : PayloadHeader) :
    getReadingCount (init ctx h) = 0
      ∧ (init ctx h).header = h
      ∧ encodeMetadata (init ctx h)
          = h.version % 8 + 8 * (if h.dual_mode then 1 else 0)
            + 16 * (if h.dedicated_temphum_sensor then 1 else 0)
      ∧ (init ctx h).header.interval_minutes = h.interval_minutes
      ∧ (∀ prior : EncoderContext, init prior h = init ctx h)
      ∧ (∀ (prior : EncoderContext) (calls : List Call) (buffer : Option Buffer) (cap : Nat),
          calculateTotalSize (calls.foldl step (init prior h))
              = calculateTotalSize (calls.foldl step (init ctx h))
            ∧ (encode (calls.foldl step (init prior h)) buffer cap).ret
              = (encode (calls.foldl step (init ctx h)) buffer cap).ret) := by
  refine ⟨rfl, rfl, encodeMetadata_eq (init ctx h), rfl, fun _ => rfl, ?_⟩
  intro prior calls buffer cap
  have e : init prior h = init ctx h := rfl
  rw [e]
  exact ⟨rfl, rfl⟩

/-- Claim C20: for every prior encoder state, after `reset()` the reading
count is 0 and the header is the all-zero default, so `encodeMetadata()`
returns 0, `calculateTotalSize()` returns 2 and `encode` into a non-null buffer
returns 0. -/
theorem reset_clears (ctx : EncoderContext) (mem : Buffer) (cap : Nat) :
    getReadingCount (reset ctx) = 0
      ∧ (reset ctx).header.version = 0
      ∧ (reset ctx).header.dual_mode = false
      ∧ (reset ctx).header.dedicated_temphum_sensor = false
      ∧ (reset ctx).header.interval_minutes = 0
      ∧ encodeMetadata (reset ctx) = 0
      ∧ calculateTotalSize (reset ctx) = 2
      ∧ (encode (reset ctx) (some mem) cap).ret = 0 :=
  ⟨rfl, rfl, rfl, rfl, rfl, by rw [encodeMetadata_eq]; rfl, rfl, rfl⟩

/-! ## Claims about the position of a field -/

theorem fieldsBytes_append (header : PayloadHeader) (reading : SensorReading)
    (xs ys : List Nat) :
    Spec.fieldsBytes header reading (xs ++ ys)
      = Spec.fieldsBytes header reading xs ++ Spec.fieldsBytes header reading ys := by
  simp [Spec.fieldsBytes]

theorem bytesFrom_blit_mid (mem : Buffer) (front mid back : List Nat) :
    bytesFrom (some (blit mem 0 (front ++ (mid ++ back)))) front.length mid.length = mid := by
  simp only [bytesFrom]
  apply List.ext_getElem
  · simp
  · intro i h1 h2
    simp only [List.getElem_map, List.getElem_range]
    rw [blit_mid mem front mid back i h2]
    simp [List.getD_eq_getElem?_getD, List.getElem?_eq_getElem h2]

theorem payload_field_split (ctx : EncoderContext) (k t : Nat) (hk : k < ctx.reading_count)
    (ht : t < 27) (hbit : (ctx.readingAt k).presence_mask.testBit t = true) :
    ∃ back, Spec.payload ctx
      = ([encodeMetadata ctx, ctx.header.interval_minutes]
            ++ Spec.readingsBytes ctx (List.range k)
            ++ Spec.littleEndian 4 ((ctx.readingAt k).presence_mask : Int)
            ++ Spec.fieldsBytes ctx.header (ctx.readingAt k) (List.range t))
          ++ (Spec.fieldBytes ctx.header (ctx.readingAt k) t ++ back) := by
  obtain ⟨tail, htail⟩ := range_split k ctx.reading_count hk
  obtain ⟨rest, hrest⟩ := range_split t 27 ht
  refine ⟨Spec.fieldsBytes ctx.header (ctx.readingAt k) rest
    ++ Spec.readingsBytes ctx tail, ?_⟩
  unfold Spec.payload
  rw [htail, readingsBytes_append, readingsBytes_cons]
  unfold Spec.readingBytes
  rw [hrest, fieldsBytes_append, fieldsBytes_cons, if_pos hbit]
  simp only [List.append_assoc]

theorem front_length (ctx : EncoderContext) (k t : Nat) (ht : t < 27) :
    ([encodeMetadata ctx, ctx.header.interval_minutes]
        ++ Spec.readingsBytes ctx (List.range k)
        ++ Spec.littleEndian 4 ((ctx.readingAt k).presence_mask : Int)
        ++ Spec.fieldsBytes ctx.header (ctx.readingAt k) (List.range t)).length
      = readingOffset ctx k + fieldOffset ctx (ctx.readingAt k) t := by
  have hlt : ∀ u ∈ List.range t, u < 27 := fun u hu => by
    have := List.mem_range.mp hu
    omega
  rw [readingOffset_eq, fieldOffset, presentSizes_eq ctx _ _ hlt]
  simp only [List.length_append, List.length_cons, List.length_nil, littleEndian_length]
  omega

theorem encode_field_segment (ctx : EncoderContext) (mem : Buffer) (cap k t : Nat)
    (hpos : 1 ≤ ctx.reading_count) (hcount : ctx.reading_count ≤ MAX_BATCH_SIZE)
    (hcap : cap < 4294967296) (hfit : calculateTotalSize ctx ≤ cap)
    (hk : k < ctx.reading_count) (ht : t < 27)
    (hbit : isFlagSet (ctx.readingAt k) t = true) :
    bytesFrom (encode ctx (some mem) cap).buffer
        (readingOffset ctx k + fieldOffset ctx (ctx.readingAt k) t)
        (Spec.widthOf t * multiplicityOf ctx t)
      = Spec.fieldBytes ctx.header (ctx.readingAt k) t := by
  rw [isFlagSet_eq _ _ ht] at hbit
  obtain ⟨back, hb⟩ := payload_field_split ctx k t hk ht hbit
  have hlen : Spec.widthOf t * multiplicityOf ctx t
      = (Spec.fieldBytes ctx.header (ctx.readingAt k) t).length := by
    rw [fieldBytes_length, multiplicityOf_eq ctx t ht, Nat.mul_comm]
  rw [encode_ok ctx mem cap hpos hcount hcap hfit, hb, ← front_length ctx k t ht, hlen]
  exact bytesFrom_blit_mid mem _ _ back

theorem fieldOffset_succ (ctx : EncoderContext) (reading : SensorReading) (t : Nat) :
    fieldOffset ctx reading (t + 1)
      = fieldOffset ctx reading t
          + (if isFlagSet reading t then Spec.widthOf t * multiplicityOf ctx t else 0) := by
  unfold fieldOffset
  rw [List.range_succ, presentSizes_append, presentSizes_cons, presentSizes_nil]
  omega

theorem fieldOffset_mono (ctx : EncoderContext) (reading : SensorReading) (u t : Nat)
    (hut : u < t) (hbit : isFlagSet reading u = true) :
    fieldOffset ctx reading u + Spec.widthOf u * multiplicityOf ctx u
      ≤ fieldOffset ctx reading t := by
  obtain ⟨tail, htail⟩ := range_split u t hut
  unfold fieldOffset
  rw [htail, presentSizes_append, presentSizes_cons, if_pos hbit]
  omega

theorem setFlag_comm (reading : SensorReading) (a b : Nat) :
    setFlag (setFlag reading a) b = setFlag (setFlag reading b) a := by
  have e : reading.presence_mask ||| FLAG_BIT a ||| FLAG_BIT b
      = reading.presence_mask ||| FLAG_BIT b ||| FLAG_BIT a := by
    rw [Nat.lor_assoc, Nat.lor_comm (FLAG_BIT a), ← Nat.lor_assoc]
  simp only [setFlag, e]

/-- Claim C11: for every reading of a successfully encoded batch and every tag
`t` whose presence bit is set, the bytes of `t` start at offset 4 plus the sum,
over the present tags `u < t`, of `width(u) * multiplicity(u)` from the start
of the encoding of that reading; so a present lower tag ends before a present
higher tag starts, and the order of `setFlag` calls does not matter, the
reading and hence the output being the same. -/
theorem field_starts_at_offset (ctx : EncoderContext) (mem : Buffer) (cap k t : Nat)
    (hpos : 1 ≤ ctx.reading_count) (hcount : ctx.reading_count ≤ MAX_BATCH_SIZE)
    (hcap : cap < 4294967296) (hfit : calculateTotalSize ctx ≤ cap)
    (hk : k < ctx.reading_count) (ht : t ≤ 26)
    (hbit : isFlagSet (ctx.readingAt k) t = true) :
    bytesFrom (encode ctx (some mem) cap).buffer
        (readingOffset ctx k
          + (4 + (((List.range t).filter (fun u => isFlagSet (ctx.readingAt k) u)).map
              (fun u => Spec.widthOf u * multiplicityOf ctx u)).sum))
        (Spec.widthOf t * multiplicityOf ctx t)
      = Spec.fieldBytes ctx.header (ctx.readingAt k) t
    ∧ (∀ u, u < t → isFlagSet (ctx.readingAt k) u = true →
        fieldOffset ctx (ctx.readingAt k) u + Spec.widthOf u * multiplicityOf ctx u
          ≤ fieldOffset ctx (ctx.readingAt k) t)
    ∧ (∀ (reading : SensorReading) (a b : Nat),
        setFlag (setFlag reading a) b = setFlag (setFlag reading b) a) :=
  ⟨encode_field_segment ctx mem cap k t hpos hcount hcap hfit hk (by omega) hbit,
    fun u hut hu => fieldOffset_mono ctx (ctx.readingAt k) u t hut hu,
    setFlag_comm⟩

theorem field_starts_at_offset_witness :
    (isFlagSet (mixedCtx.readingAt 0) FLAG_CO2 = true
        ∧ fieldOffset mixedCtx (mixedCtx.readingAt 0) FLAG_CO2 = 12)
      ∧ bytesFrom (encode mixedCtx (some demoMem) 18).buffer (2 + 12) 2
          = Spec.fieldBytes mixedCtx.header (mixedCtx.readingAt 0) FLAG_CO2
      ∧ firstBytes (encode mixedCtx (some demoMem) 18).buffer 18
          = [0x09, 0x05, 0x0F, 0x00, 0x00, 0x00, 0xC4, 0x09, 0x28, 0x0A, 0x70, 0x17, 0xD4,
              0x17, 0xC2, 0x01, 0x64, 0x00]
      ∧ mixedReading.presence_mask = mixedReadingReversed.presence_mask :=
  ⟨⟨by decide, by decide⟩,
    (field_starts_at_offset mixedCtx demoMem 18 0 FLAG_CO2 (by decide) (by decide)
      (by decide) (by decide) (by decide) (by decide) (by decide)).1,
    by decide, by decide⟩

theorem dedicated_multiplicity (ctx : EncoderContext)
    (hdual : ctx.header.dual_mode = true)
    (hded : ctx.header.dedicated_temphum_sensor = true) (t : Nat) (ht : t < 27) :
    multiplicityOf ctx t = if 7 ≤ t ∧ t ≤ 18 then 2 else 1 := by
  obtain ⟨⟨v, dual, ded, iv⟩, rs, n⟩ := ctx
  simp only at hdual hded
  subst hdual hded
  interval_cases t <;> simp [multiplicityOf, isExpandable]

theorem dedicated_fieldBytes_low (header : PayloadHeader) (reading : SensorReading)
    (hdual : header.dual_mode = true) (hded : header.dedicated_temphum_sensor = true) :
    Spec.fieldBytes header reading 0 = Spec.littleEndian 2 (reading.temp 0)
      ∧ Spec.fieldBytes header reading 1 = Spec.littleEndian 2 (reading.hum 0 : Int) := by
  obtain ⟨v, dual, ded, iv⟩ := header
  simp only at hdual hded
  subst hdual hded
  constructor <;>
    simp [Spec.fieldBytes, Spec.multiplicity, Spec.expandableTag, Spec.widthOf, Spec.slotValue]

theorem dedicated_fieldBytes_pm (header : PayloadHeader) (reading : SensorReading)
    (hdual : header.dual_mode = true) (t : Nat) (h7 : 7 ≤ t) (h18 : t ≤ 18) :
    Spec.fieldBytes header reading t
      = Spec.littleEndian 2 (Spec.slotValue reading t 0)
          ++ Spec.littleEndian 2 (Spec.slotValue reading t 1) := by
  obtain ⟨v, dual, ded, iv⟩ := header
  simp only at hdual
  subst hdual
  interval_cases t <;> cases ded <;>
    simp [Spec.fieldBytes, Spec.multiplicity, Spec.expandableTag, Spec.widthOf]

/-- Claim C12: for every successfully encoded batch whose header has both
`dual_mode` and `dedicated_temphum_sensor` set, in each reading a present
temperature occupies exactly 2 bytes holding `temp[0]`, a present humidity
exactly 2 bytes holding `hum[0]`, and every present particulate tag 7..18
exactly 4 bytes holding slot 0 then slot 1; the next tag starts right after. -/
theorem dedicated_sensor_emission (ctx : EncoderContext) (mem : Buffer) (cap k : Nat)
    (hdual : ctx.header.dual_mode = true)
    (hded : ctx.header.dedicated_temphum_sensor = true)
    (hpos : 1 ≤ ctx.reading_count) (hcount : ctx.reading_count ≤ MAX_BATCH_SIZE)
    (hcap : cap < 4294967296) (hfit : calculateTotalSize ctx ≤ cap)
    (hk : k < ctx.reading_count) :
    (isFlagSet (ctx.readingAt k) FLAG_TEMP = true →
        fieldOffset ctx (ctx.readingAt k) (FLAG_TEMP + 1)
            = fieldOffset ctx (ctx.readingAt k) FLAG_TEMP + 2
          ∧ bytesFrom (encode ctx (some mem) cap).buffer
                (readingOffset ctx k + fieldOffset ctx (ctx.readingAt k) FLAG_TEMP) 2
              = Spec.littleEndian 2 ((ctx.readingAt k).temp 0))
      ∧ (isFlagSet (ctx.readingAt k) FLAG_HUM = true →
        fieldOffset ctx (ctx.readingAt k) (FLAG_HUM + 1)
            = fieldOffset ctx (ctx.readingAt k) FLAG_HUM + 2
          ∧ bytesFrom (encode ctx (some mem) cap).buffer
                (readingOffset ctx k + fieldOffset ctx (ctx.readingAt k) FLAG_HUM) 2
              = Spec.littleEndian 2 ((ctx.readingAt k).hum 0 : Int))
      ∧ (∀ t, FLAG_PM_01 ≤ t → t ≤ FLAG_PM_10_PC → isFlagSet (ctx.readingAt k) t = true →
        fieldOffset ctx (ctx.readingAt k) (t + 1) = fieldOffset ctx (ctx.readingAt k) t + 4
          ∧ bytesFrom (encode ctx (some mem) cap).buffer
                (readingOffset ctx k + fieldOffset ctx (ctx.readingAt k) t) 4
              = Spec.littleEndian 2 (Spec.slotValue (ctx.readingAt k) t 0)
                  ++ Spec.littleEndian 2 (Spec.slotValue (ctx.readingAt k) t 1)) := by
  have hlow := dedicated_fieldBytes_low ctx.header (ctx.readingAt k) hdual hded
  refine ⟨?_, ?_, ?_⟩
  · intro hbit
    have hseg := encode_field_segment ctx mem cap k 0 hpos hcount hcap hfit hk (by omega) hbit
    have hm := dedicated_multiplicity ctx hdual hded 0 (by omega)
    have hs := fieldOffset_succ ctx (ctx.readingAt k) 0
    rw [show isFlagSet (ctx.readingAt k) 0 = true from hbit] at hs
    simp only [hm, Spec.widthOf] at hs hseg
    exact ⟨hs, hseg.trans hlow.1⟩
  · intro hbit
    have hseg := encode_field_segment ctx mem cap k 1 hpos hcount hcap hfit hk (by omega) hbit
    have hm := dedicated_multiplicity ctx hdual hded 1 (by omega)
    have hs := fieldOffset_succ ctx (ctx.readingAt k) 1
    rw [show isFlagSet (ctx.readingAt k) 1 = true from hbit] at hs
    simp only [hm, Spec.widthOf] at hs hseg
    exact ⟨hs, hseg.trans hlow.2⟩
  · intro t h7 h18 hbit
    have h7n : 7 ≤ t := h7
    have h18n : t ≤ 18 := h18
    have hseg := encode_field_segment ctx mem cap k t hpos hcount hcap hfit hk (by omega) hbit
    have hm := dedicated_multiplicity ctx hdual hded t (by omega)
    have hs := fieldOffset_succ ctx (ctx.readingAt k) t
    have hw : Spec.widthOf t = 2 := by
      unfold Spec.widthOf
      rw [if_neg (by omega), if_neg (by omega)]
    rw [hbit] at hs
    rw [if_pos ⟨h7n, h18n⟩] at hm
    rw [hm, hw] at hs hseg
    exact ⟨hs, hseg.trans (dedicated_fieldBytes_pm ctx.header _ hdual t h7n h18n)⟩

theorem dedicated_sensor_emission_witness :
    (dedicatedCtx.header.dual_mode = true
        ∧ dedicatedCtx.header.dedicated_temphum_sensor = true
        ∧ isFlagSet (dedicatedCtx.readingAt 0) FLAG_TEMP = true)
      ∧ bytesFrom (encode dedicatedCtx (some demoMem) 14).buffer
            (readingOffset dedicatedCtx 0
              + fieldOffset dedicatedCtx (dedicatedCtx.readingAt 0) FLAG_TEMP) 2
          = Spec.littleEndian 2 ((dedicatedCtx.readingAt 0).temp 0)
      ∧ firstBytes (encode dedicatedCtx (some demoMem) 14).buffer 14
          = [0x19, 0x05, 0x03, 0x01, 0x00, 0x00, 0xC4, 0x09, 0x70, 0x17, 0x7D, 0x00, 0x87,
              0x00] :=
  ⟨⟨rfl, rfl, by decide⟩,
    ((dedicated_sensor_emission dedicatedCtx demoMem 14 0 rfl rfl (by decide) (by decide)
      (by decide) (by decide) (by decide)).1 (by decide)).2,
    by decide⟩

/-! ## Claims about determinism and non-interference -/

theorem encode_spec (ctx : EncoderContext) (mem : Buffer) (cap : Nat)
    (hcount : ctx.reading_count ≤ MAX_BATCH_SIZE) (hcap : cap < 4294967296) :
    encode ctx (some mem) cap =
      if ctx.reading_count = 0 then { ret := 0, ctx := ctx, buffer := some mem }
      else if cap < (Spec.payload ctx).length then
        { ret := -1, ctx := ctx, buffer := some mem }
      else
        { ret := ((Spec.payload ctx).length : Int), ctx := ctx,
          buffer := some (blit mem 0 (Spec.payload ctx)) } := by
  have hc : ctx.reading_count ≤ 20 := hcount
  have hlen := calculateTotalSize_eq ctx (by omega)
  by_cases h0 : ctx.reading_count = 0
  · rw [if_pos h0]
    unfold encode
    simp only
    rw [if_pos h0]
  · rw [if_neg h0]
    by_cases hsmall : cap < (Spec.payload ctx).length
    · rw [if_pos hsmall]
      unfold encode
      simp only
      rw [if_neg h0, if_pos (by omega)]
    · rw [if_neg hsmall]
      exact encode_ok ctx mem cap (by omega) hcount hcap (by omega)

theorem encode_congr (ctx1 ctx2 : EncoderContext) (mem1 mem2 : Buffer) (cap : Nat)
    (hcount1 : ctx1.reading_count ≤ MAX_BATCH_SIZE)
    (hcount2 : ctx2.reading_count ≤ MAX_BATCH_SIZE) (hcap : cap < 4294967296)
    (hn : ctx1.reading_count = ctx2.reading_count)
    (hp : Spec.payload ctx1 = Spec.payload ctx2) :
    (encode ctx1 (some mem1) cap).ret = (encode ctx2 (some mem2) cap).ret
      ∧ ∀ n : Nat, (encode ctx1 (some mem1) cap).ret = (n : Int) →
          firstBytes (encode ctx1 (some mem1) cap).buffer n
            = firstBytes (encode ctx2 (some mem2) cap).buffer n := by
  rw [encode_spec ctx1 mem1 cap hcount1 hcap, encode_spec ctx2 mem2 cap hcount2 hcap, hn, hp]
  by_cases h0 : ctx2.reading_count = 0
  · simp only [if_pos h0]
    refine ⟨trivial, ?_⟩
    intro n hn0
    have : n = 0 := by omega
    subst this
    simp [firstBytes]
  · simp only [if_neg h0]
    by_cases hsmall : cap < (Spec.payload ctx2).length
    · simp only [if_pos hsmall]
      refine ⟨trivial, ?_⟩
      intro n hneg
      omega
    · simp only [if_neg hsmall]
      refine ⟨trivial, ?_⟩
      intro n hnlen
      have : n = (Spec.payload ctx2).length := by omega
      subst this
      simp only [firstBytes]
      rw [map_blit_range, map_blit_range]

/-- Claim C21: for every encoder state, every buffer (null or not) and every
capacity, `encode` leaves the encoder state exactly unchanged, whatever it
returns; and the read-only members `calculateTotalSize`,
`calculateReadingSize`, `encodeMetadata`, `isExpandable` and `getReadingCount`,
which return a value and no state, give the same values after `encode` as
before. -/
theorem encode_preserves_state (ctx : EncoderContext) (buffer : Option Buffer) (cap : Nat) :
    (encode ctx buffer cap).ctx = ctx
      ∧ (encode ctx buffer cap).ctx.header = ctx.header
      ∧ (encode ctx buffer cap).ctx.reading_count = ctx.reading_count
      ∧ (∀ i, (encode ctx buffer cap).ctx.readings i = ctx.readings i)
      ∧ calculateTotalSize (encode ctx buffer cap).ctx = calculateTotalSize ctx
      ∧ (∀ reading, calculateReadingSize (encode ctx buffer cap).ctx reading
          = calculateReadingSize ctx reading)
      ∧ encodeMetadata (encode ctx buffer cap).ctx = encodeMetadata ctx
      ∧ (∀ flag, isExpandable (encode ctx buffer cap).ctx flag = isExpandable ctx flag)
      ∧ getReadingCount (encode ctx buffer cap).ctx = getReadingCount ctx := by
  rw [encode_ctx]
  exact ⟨rfl, rfl, rfl, fun _ => rfl, rfl, fun _ => rfl, rfl, fun _ => rfl, rfl⟩

/-- Claim C22: for every encoder state (at most 20 readings), encoding it
twice with no mutation in between into two non-null buffers of equal capacity
returns the same result both times, and when that result is a byte count `n`
the first `n` bytes of the two buffers are identical, whatever the buffers
held before. -/
theorem encode_idempotent (ctx : EncoderContext) (mem1 mem2 : Buffer) (cap : Nat)
    (hcount : ctx.reading_count ≤ MAX_BATCH_SIZE) (hcap : cap < 4294967296) :
    (encode (encode ctx (some mem1) cap).ctx (some mem2) cap).ret
        = (encode ctx (some mem1) cap).ret
      ∧ ∀ n : Nat, (encode ctx (some mem1) cap).ret = (n : Int) →
          firstBytes (encode ctx (some mem1) cap).buffer n
            = firstBytes (encode (encode ctx (some mem1) cap).ctx (some mem2) cap).buffer n := by
  rw [encode_ctx]
  have h := encode_congr ctx ctx mem1 mem2 cap hcount hcount hcap rfl rfl
  exact ⟨h.1.symm, h.2⟩

theorem encode_idempotent_witness :
    demoCtx.reading_count ≤ MAX_BATCH_SIZE
      ∧ (encode (encode demoCtx (some demoMem) 10).ctx (some (fun _ => 0)) 10).ret
          = (encode demoCtx (some demoMem) 10).ret
      ∧ firstBytes (encode demoCtx (some demoMem) 10).buffer 10
          = firstBytes
              (encode (encode demoCtx (some demoMem) 10).ctx (some (fun _ => 0)) 10).buffer 10 :=
  ⟨by decide,
    (encode_idempotent demoCtx demoMem (fun _ => 0) 10 (by decide) (by decide)).1,
    (encode_idempotent demoCtx demoMem (fun _ => 0) 10 (by decide) (by decide)).2 10
      (by decide)⟩

theorem fieldBytes_congr (header : PayloadHeader) (r1 r2 : SensorReading) (t : Nat)
    (h0 : Spec.slotValue r1 t 0 = Spec.slotValue r2 t 0)
    (h1 : Spec.multiplicity header t = 2 → Spec.slotValue r1 t 1 = Spec.slotValue r2 t 1) :
    Spec.fieldBytes header r1 t = Spec.fieldBytes header r2 t := by
  unfold Spec.fieldBytes
  by_cases hm : Spec.multiplicity header t = 2
  · simp [hm, h0, h1 hm]
  · have hm1 : Spec.multiplicity header t = 1 := by
      unfold Spec.multiplicity at hm ⊢
      split <;> simp_all
    simp [hm1, h0]

theorem fieldsBytes_congr (h1 h2 : PayloadHeader) (r1 r2 : SensorReading) (tags : List Nat)
    (hmask : r1.presence_mask = r2.presence_mask)
    (hfield : ∀ t ∈ tags, r1.presence_mask.testBit t = true →
      Spec.fieldBytes h1 r1 t = Spec.fieldBytes h2 r2 t) :
    Spec.fieldsBytes h1 r1 tags = Spec.fieldsBytes h2 r2 tags := by
  induction tags with
  | nil => rw [fieldsBytes_nil, fieldsBytes_nil]
  | cons t rest ih =>
    have hrest : Spec.fieldsBytes h1 r1 rest = Spec.fieldsBytes h2 r2 rest :=
      ih (fun u hu hb => hfield u (List.mem_cons_of_mem t hu) hb)
    have hhead : r1.presence_mask.testBit t = true →
        Spec.fieldBytes h1 r1 t = Spec.fieldBytes h2 r2 t :=
      hfield t (List.mem_cons_self t rest)
    rw [fieldsBytes_cons, fieldsBytes_cons, ← hmask, hrest]
    by_cases hb : r1.presence_mask.testBit t = true
    · rw [if_pos hb, if_pos hb, hhead hb]
    · rw [if_neg hb, if_neg hb]

theorem readingsBytes_congr (ctx1 ctx2 : EncoderContext) (indices : List Nat)
    (h : ∀ i ∈ indices, Spec.readingBytes ctx1.header (ctx1.readingAt i)
      = Spec.readingBytes ctx2.header (ctx2.readingAt i)) :
    Spec.readingsBytes ctx1 indices = Spec.readingsBytes ctx2 indices := by
  induction indices with
  | nil => rw [readingsBytes_nil, readingsBytes_nil]
  | cons i rest ih =>
    have hrest : Spec.readingsBytes ctx1 rest = Spec.readingsBytes ctx2 rest :=
      ih (fun j hj => h j (List.mem_cons_of_mem i hj))
    rw [readingsBytes_cons, readingsBytes_cons, h i (List.mem_cons_self i rest), hrest]

theorem encodeMetadata_congr (ctx1 ctx2 : EncoderContext) (h : ctx1.header = ctx2.header) :
    encodeMetadata ctx1 = encodeMetadata ctx2 := by
  rw [encodeMetadata_eq, encodeMetadata_eq, h]

theorem payload_congr_of_agree (ctx1 ctx2 : EncoderContext)
    (hheader : ctx1.header = ctx2.header)
    (hn : ctx1.reading_count = ctx2.reading_count)
    (hmask : ∀ i, i < ctx1.reading_count →
      (ctx1.readingAt i).presence_mask = (ctx2.readingAt i).presence_mask)
    (hslots : ∀ i, i < ctx1.reading_count → ∀ t, t < 27 →
      isFlagSet (ctx1.readingAt i) t = true →
      Spec.slotValue (ctx1.readingAt i) t 0 = Spec.slotValue (ctx2.readingAt i) t 0
        ∧ (multiplicityOf ctx1 t = 2 →
            Spec.slotValue (ctx1.readingAt i) t 1 = Spec.slotValue (ctx2.readingAt i) t 1)) :
    Spec.payload ctx1 = Spec.payload ctx2 := by
  unfold Spec.payload
  rw [encodeMetadata_congr ctx1 ctx2 hheader, hheader, hn]
  congr 1
  apply readingsBytes_congr
  intro i hi
  have hi1 : i < ctx1.reading_count := by
    rw [hn]
    exact List.mem_range.mp hi
  unfold Spec.readingBytes
  rw [hmask i hi1, ← hheader]
  congr 1
  apply fieldsBytes_congr _ _ _ _ _ (hmask i hi1)
  intro t ht hb
  have ht27 : t < 27 := List.mem_range.mp ht
  have hs := hslots i hi1 t ht27 (by rw [isFlagSet_eq _ _ ht27]; exact hb)
  apply fieldBytes_congr _ _ _ _ hs.1
  intro hm
  exact hs.2 (by rw [multiplicityOf_eq ctx1 t ht27]; exact hm)

/-- Claim C23: for any two encoder states with the same header and the same
reading count (at most 20) whose corresponding readings have equal presence
masks and agree on every emitted value slot (slot 0 of each present field, and
slot 1 where the multiplicity is 2), the computed size, the value returned by
`encode` and, on success, the bytes written are the same; the stored values of
absent fields and of a second slot emitted with multiplicity 1 have no
influence. -/
theorem absent_values_do_not_interfere (ctx1 ctx2 : EncoderContext) (mem1 mem2 : Buffer)
    (cap : Nat)
    (hcount : ctx1.reading_count ≤ MAX_BATCH_SIZE) (hcap : cap < 4294967296)
    (hheader : ctx1.header = ctx2.header)
    (hn : ctx1.reading_count = ctx2.reading_count)
    (hmask : ∀ i, i < ctx1.reading_count →
      (ctx1.readingAt i).presence_mask = (ctx2.readingAt i).presence_mask)
    (hslots : ∀ i, i < ctx1.reading_count → ∀ t, t < 27 →
      isFlagSet (ctx1.readingAt i) t = true →
      Spec.slotValue (ctx1.readingAt i) t 0 = Spec.slotValue (ctx2.readingAt i) t 0
        ∧ (multiplicityOf ctx1 t = 2 →
            Spec.slotValue (ctx1.readingAt i) t 1 = Spec.slotValue (ctx2.readingAt i) t 1)) :
    calculateTotalSize ctx1 = calculateTotalSize ctx2
      ∧ (encode ctx1 (some mem1) cap).ret = (encode ctx2 (some mem2) cap).ret
      ∧ ∀ n : Nat, (encode ctx1 (some mem1) cap).ret = (n : Int) →
          firstBytes (encode ctx1 (some mem1) cap).buffer n
            = firstBytes (encode ctx2 (some mem2) cap).buffer n := by
  have hp := payload_congr_of_agree ctx1 ctx2 hheader hn hmask hslots
  have hc1 : ctx1.reading_count ≤ 20 := hcount
  have hcount2 : ctx2.reading_count ≤ MAX_BATCH_SIZE := by
    rw [← hn]
    exact hcount
  have hc2 : ctx2.reading_count ≤ 20 := hcount2
  refine ⟨?_, encode_congr ctx1 ctx2 mem1 mem2 cap hcount hcount2 hcap hn hp⟩
  rw [calculateTotalSize_eq ctx1 (by omega), calculateTotalSize_eq ctx2 (by omega), hp]


theorem absent_values_do_not_interfere_witness :
    (demoReading.hum 0 ≠ demoReadingOtherAbsent.hum 0
        ∧ demoReading.temp 1 ≠ demoReadingOtherAbsent.temp 1)
      ∧ calculateTotalSize demoCtx = calculateTotalSize demoCtxOtherAbsent
      ∧ (encode demoCtx (some demoMem) 10).ret
          = (encode demoCtxOtherAbsent (some (fun _ => 0)) 10).ret
      ∧ firstBytes (encode demoCtx (some demoMem) 10).buffer 10
          = firstBytes (encode demoCtxOtherAbsent (some (fun _ => 0)) 10).buffer 10 :=
  ⟨⟨by decide, by decide⟩,
    (absent_values_do_not_interfere demoCtx demoCtxOtherAbsent demoMem (fun _ => 0) 10
      (by decide) (by decide) rfl rfl (by decide) (by decide)).1,
    (absent_values_do_not_interfere demoCtx demoCtxOtherAbsent demoMem (fun _ => 0) 10
      (by decide) (by decide) rfl rfl (by decide) (by decide)).2.1,
    (absent_values_do_not_interfere demoCtx demoCtxOtherAbsent demoMem (fun _ => 0) 10
      (by decide) (by decide) rfl rfl (by decide) (by decide)).2.2 10 (by decide)⟩

/-! ## Claims about the bytes of single values -/

theorem bytesFrom_append (buffer : Option Buffer) (start a b : Nat) :
    bytesFrom buffer start (a + b)
      = bytesFrom buffer start a ++ bytesFrom buffer (start + a) b := by
  cases buffer with
  | none => simp [bytesFrom]
  | some mem =>
    simp only [bytesFrom, List.range_add, List.map_append, List.map_map]
    congr 1
    apply List.map_congr_left
    intro j _
    simp only [Function.comp_apply, Nat.add_assoc]

theorem bytesFrom_length (mem : Buffer) (start n : Nat) :
    (bytesFrom (some mem) start n).length = n := by
  simp [bytesFrom]

theorem multiplicityOf_cases (ctx : EncoderContext) (t : Nat) :
    multiplicityOf ctx t = 1 ∨ multiplicityOf ctx t = 2 := by
  unfold multiplicityOf
  split
  · exact Or.inr rfl
  · exact Or.inl rfl

theorem fieldBytes_one (header : PayloadHeader) (reading : SensorReading) (t : Nat)
    (hm : Spec.multiplicity header t = 1) :
    Spec.fieldBytes header reading t
      = Spec.littleEndian (Spec.widthOf t) (Spec.slotValue reading t 0) := by
  simp [Spec.fieldBytes, hm]

theorem fieldBytes_two (header : PayloadHeader) (reading : SensorReading) (t : Nat)
    (hm : Spec.multiplicity header t = 2) :
    Spec.fieldBytes header reading t
      = Spec.littleEndian (Spec.widthOf t) (Spec.slotValue reading t 0)
          ++ Spec.littleEndian (Spec.widthOf t) (Spec.slotValue reading t 1) := by
  simp [Spec.fieldBytes, hm]

theorem encode_slots (ctx : EncoderContext) (mem : Buffer) (cap k t : Nat)
    (hpos : 1 ≤ ctx.reading_count) (hcount : ctx.reading_count ≤ MAX_BATCH_SIZE)
    (hcap : cap < 4294967296) (hfit : calculateTotalSize ctx ≤ cap)
    (hk : k < ctx.reading_count) (ht : t < 27)
    (hbit : isFlagSet (ctx.readingAt k) t = true) :
    bytesFrom (encode ctx (some mem) cap).buffer
        (readingOffset ctx k + fieldOffset ctx (ctx.readingAt k) t) (Spec.widthOf t)
      = Spec.littleEndian (Spec.widthOf t) (Spec.slotValue (ctx.readingAt k) t 0)
    ∧ (multiplicityOf ctx t = 2 →
        bytesFrom (encode ctx (some mem) cap).buffer
            (readingOffset ctx k + fieldOffset ctx (ctx.readingAt k) t + Spec.widthOf t)
            (Spec.widthOf t)
          = Spec.littleEndian (Spec.widthOf t) (Spec.slotValue (ctx.readingAt k) t 1)) := by
  have hseg := encode_field_segment ctx mem cap k t hpos hcount hcap hfit hk ht hbit
  have hbuf : (encode ctx (some mem) cap).buffer = some (blit mem 0 (Spec.payload ctx)) := by
    rw [encode_ok ctx mem cap hpos hcount hcap hfit]
  rw [hbuf] at hseg ⊢
  have hmeq := multiplicityOf_eq ctx t ht
  rcases multiplicityOf_cases ctx t with h1 | h2
  · rw [h1, Nat.mul_one, fieldBytes_one _ _ _ (by rw [← hmeq]; exact h1)] at hseg
    refine ⟨hseg, ?_⟩
    intro h2
    omega
  · rw [h2, Nat.mul_two, bytesFrom_append,
      fieldBytes_two _ _ _ (by rw [← hmeq]; exact h2)] at hseg
    have hl : (bytesFrom (some (blit mem 0 (Spec.payload ctx)))
        (readingOffset ctx k + fieldOffset ctx (ctx.readingAt k) t) (Spec.widthOf t)).length
        = (Spec.littleEndian (Spec.widthOf t) (Spec.slotValue (ctx.readingAt k) t 0)).length := by
      rw [bytesFrom_length, littleEndian_length]
    have hinj := List.append_inj hseg hl
    exact ⟨hinj.1, fun _ => hinj.2⟩

theorem littleEndian_two (value : Int) :
    Spec.littleEndian 2 value = [(value % 256).toNat, (value / 256 % 256).toNat] := by
  simp [Spec.littleEndian, List.range_succ]

theorem littleEndian_two_value (value : Int) :
    ∃ b0 b1 : Nat, Spec.littleEndian 2 value = [b0, b1] ∧ b0 < 256 ∧ b1 < 256
      ∧ (b0 : Int) + 256 * (b1 : Int) = value % 65536 := by
  refine ⟨(value % 256).toNat, (value / 256 % 256).toNat, littleEndian_two value, ?_, ?_, ?_⟩
  · omega
  · omega
  · omega

theorem fieldOffset_zero (ctx : EncoderContext) (reading : SensorReading) :
    fieldOffset ctx reading 0 = 4 := by
  simp [fieldOffset, presentSizes]

/-- Claim C24: for every temperature value `t`, negative values included, a
present temperature slot is emitted as two bytes `b0`, `b1` with
`b0 + 256*b1 = t mod 65536`, the little-endian two's-complement pattern of
`t`: slot 0 right after the 4 mask bytes of the reading, and slot 1 after it
when the multiplicity is 2. -/
theorem temperature_twos_complement (ctx : EncoderContext) (mem : Buffer) (cap k : Nat)
    (hpos : 1 ≤ ctx.reading_count) (hcount : ctx.reading_count ≤ MAX_BATCH_SIZE)
    (hcap : cap < 4294967296) (hfit : calculateTotalSize ctx ≤ cap)
    (hk : k < ctx.reading_count)
    (hbit : isFlagSet (ctx.readingAt k) FLAG_TEMP = true) :
    (∃ b0 b1 : Nat,
        bytesFrom (encode ctx (some mem) cap).buffer (readingOffset ctx k + 4) 2 = [b0, b1]
          ∧ b0 < 256 ∧ b1 < 256
          ∧ (b0 : Int) + 256 * (b1 : Int) = (ctx.readingAt k).temp 0 % 65536)
      ∧ (multiplicityOf ctx FLAG_TEMP = 2 →
          ∃ b0 b1 : Nat,
            bytesFrom (encode ctx (some mem) cap).buffer (readingOffset ctx k + 4 + 2) 2
                = [b0, b1]
              ∧ b0 < 256 ∧ b1 < 256
              ∧ (b0 : Int) + 256 * (b1 : Int) = (ctx.readingAt k).temp 1 % 65536) := by
  have h := encode_slots ctx mem cap k 0 hpos hcount hcap hfit hk (by omega) hbit
  rw [fieldOffset_zero] at h
  have hw : Spec.widthOf 0 = 2 := rfl
  rw [hw] at h
  refine ⟨?_, ?_⟩
  · obtain ⟨b0, b1, hb, h0, h1, hv⟩ := littleEndian_two_value ((ctx.readingAt k).temp 0)
    exact ⟨b0, b1, h.1.trans hb, h0, h1, hv⟩
  · intro hm
    obtain ⟨b0, b1, hb, h0, h1, hv⟩ := littleEndian_two_value ((ctx.readingAt k).temp 1)
    exact ⟨b0, b1, (h.2 hm).trans hb, h0, h1, hv⟩

theorem temperature_twos_complement_witness :
    (isFlagSet (coldCtx.readingAt 0) FLAG_TEMP = true
        ∧ (coldCtx.readingAt 0).temp 0 = -1050)
      ∧ (∃ b0 b1 : Nat,
          bytesFrom (encode coldCtx (some demoMem) 8).buffer (readingOffset coldCtx 0 + 4) 2
              = [b0, b1]
            ∧ b0 < 256 ∧ b1 < 256
            ∧ (b0 : Int) + 256 * (b1 : Int) = (coldCtx.readingAt 0).temp 0 % 65536)
      ∧ firstBytes (encode coldCtx (some demoMem) 8).buffer 8
          = [0x01, 0x05, 0x01, 0x00, 0x00, 0x00, 0xE6, 0xFB] :=
  ⟨⟨by decide, by decide⟩,
    (temperature_twos_complement coldCtx demoMem 8 0 (by decide) (by decide) (by decide)
      (by decide) (by decide) (by decide)).1,
    by decide⟩

theorem calculateReadingSize_eq_fieldOffset (ctx : EncoderContext) (reading : SensorReading) :
    calculateReadingSize ctx reading = fieldOffset ctx reading 27 := by
  rw [calculateReadingSize_eq, readingBytes_length,
    ← presentSizes_eq ctx reading (List.range 27) range27_lt, fieldOffset]

theorem scalar_multiplicity (ctx : EncoderContext) (t : Nat) (h19 : 19 ≤ t) (h26 : t ≤ 26) :
    multiplicityOf ctx t = 1 := by
  obtain ⟨⟨v, dual, ded, iv⟩, rs, n⟩ := ctx
  interval_cases t <;> cases dual <;> simp [multiplicityOf, isExpandable]

/-- Claim C25: for every signal value `s` and every header, a reading of a
successfully encoded batch with the signal-strength bit (tag 26) set emits
exactly one byte for it, equal to `s mod 256`, and that byte is the last byte
of the encoding of the reading. -/
theorem signal_is_last_byte (ctx : EncoderContext) (mem : Buffer) (cap k : Nat)
    (hpos : 1 ≤ ctx.reading_count) (hcount : ctx.reading_count ≤ MAX_BATCH_SIZE)
    (hcap : cap < 4294967296) (hfit : calculateTotalSize ctx ≤ cap)
    (hk : k < ctx.reading_count)
    (hbit : isFlagSet (ctx.readingAt k) FLAG_SIGNAL = true) :
    bytesFrom (encode ctx (some mem) cap).buffer
        (readingOffset ctx k + fieldOffset ctx (ctx.readingAt k) FLAG_SIGNAL) 1
      = [((ctx.readingAt k).signal % 256).toNat]
    ∧ Spec.widthOf FLAG_SIGNAL * multiplicityOf ctx FLAG_SIGNAL = 1
    ∧ fieldOffset ctx (ctx.readingAt k) FLAG_SIGNAL + 1
        = calculateReadingSize ctx (ctx.readingAt k) := by
  have h := encode_slots ctx mem cap k 26 hpos hcount hcap hfit hk (by omega) hbit
  have hw : Spec.widthOf 26 = 1 := rfl
  have hm := scalar_multiplicity ctx 26 (by omega) (by omega)
  have hs := fieldOffset_succ ctx (ctx.readingAt k) 26
  rw [show isFlagSet (ctx.readingAt k) 26 = true from hbit, if_pos rfl, hw, hm] at hs
  rw [hw] at h
  refine ⟨?_, ?_, ?_⟩
  · rw [show FLAG_SIGNAL = 26 from rfl, h.1]
    simp [Spec.littleEndian, Spec.slotValue, List.range_succ]
  · rw [show FLAG_SIGNAL = 26 from rfl, hw, hm]
  · rw [calculateReadingSize_eq_fieldOffset, show FLAG_SIGNAL = 26 from rfl, hs]

theorem signal_is_last_byte_witness :
    (isFlagSet (signalCtx.readingAt 0) FLAG_SIGNAL = true
        ∧ (signalCtx.readingAt 0).signal = -75)
      ∧ bytesFrom (encode signalCtx (some demoMem) 9).buffer
            (readingOffset signalCtx 0 + fieldOffset signalCtx (signalCtx.readingAt 0) FLAG_SIGNAL)
            1
          = [(((signalCtx.readingAt 0).signal) % 256).toNat]
      ∧ firstBytes (encode signalCtx (some demoMem) 9).buffer 9
          = [0x01, 0x05, 0x04, 0x00, 0x00, 0x04, 0x90, 0x01, 0xB5] :=
  ⟨⟨by decide, by decide⟩,
    (signal_is_last_byte signalCtx demoMem 9 0 (by decide) (by decide) (by decide)
      (by decide) (by decide) (by decide)).1,
    by decide⟩

theorem littleEndian_four_value (value : Int) (h0 : 0 ≤ value) (h32 : value < 4294967296) :
    ∃ b0 b1 b2 b3 : Nat, Spec.littleEndian 4 value = [b0, b1, b2, b3]
      ∧ b0 < 256 ∧ b1 < 256 ∧ b2 < 256 ∧ b3 < 256
      ∧ (b0 : Int) + 2 ^ 8 * (b1 : Int) + 2 ^ 16 * (b2 : Int) + 2 ^ 24 * (b3 : Int) = value := by
  refine ⟨(value % 256).toNat, (value / 256 % 256).toNat, (value / 65536 % 256).toNat,
    (value / 16777216 % 256).toNat, ?_, ?_, ?_, ?_, ?_, ?_⟩
  · simp [Spec.littleEndian, List.range_succ]
  · omega
  · omega
  · omega
  · omega
  · norm_num
    omega

/-- Claim C26: for every header (single-channel and dual-channel alike) and
each of the electrode tags 21..24, a present field of a successfully encoded
batch whose stored value `v` is a 32-bit value is emitted once, as exactly four
bytes `b0..b3` with `b0 + 2^8*b1 + 2^16*b2 + 2^24*b3 = v`; the values are the
fields `o3_we`, `o3_ae`, `no2_we`, `no2_ae`. -/
theorem electrode_little_endian (ctx : EncoderContext) (mem : Buffer) (cap k t : Nat)
    (hpos : 1 ≤ ctx.reading_count) (hcount : ctx.reading_count ≤ MAX_BATCH_SIZE)
    (hcap : cap < 4294967296) (hfit : calculateTotalSize ctx ≤ cap)
    (hk : k < ctx.reading_count) (h21 : FLAG_O3_WE ≤ t) (h24 : t ≤ FLAG_NO2_AE)
    (hbit : isFlagSet (ctx.readingAt k) t = true)
    (hv : Spec.slotValue (ctx.readingAt k) t 0 < 4294967296) :
    (∃ b0 b1 b2 b3 : Nat,
        bytesFrom (encode ctx (some mem) cap).buffer
            (readingOffset ctx k + fieldOffset ctx (ctx.readingAt k) t) 4 = [b0, b1, b2, b3]
          ∧ b0 < 256 ∧ b1 < 256 ∧ b2 < 256 ∧ b3 < 256
          ∧ (b0 : Int) + 2 ^ 8 * (b1 : Int) + 2 ^ 16 * (b2 : Int) + 2 ^ 24 * (b3 : Int)
              = Spec.slotValue (ctx.readingAt k) t 0)
      ∧ multiplicityOf ctx t = 1
      ∧ fieldOffset ctx (ctx.readingAt k) (t + 1) = fieldOffset ctx (ctx.readingAt k) t + 4
      ∧ (Spec.slotValue (ctx.readingAt k) FLAG_O3_WE 0 = ((ctx.readingAt k).o3_we : Int)
          ∧ Spec.slotValue (ctx.readingAt k) FLAG_O3_AE 0 = ((ctx.readingAt k).o3_ae : Int)
          ∧ Spec.slotValue (ctx.readingAt k) FLAG_NO2_WE 0 = ((ctx.readingAt k).no2_we : Int)
          ∧ Spec.slotValue (ctx.readingAt k) FLAG_NO2_AE 0
              = ((ctx.readingAt k).no2_ae : Int)) := by
  have h21n : 21 ≤ t := h21
  have h24n : t ≤ 24 := h24
  have h := encode_slots ctx mem cap k t hpos hcount hcap hfit hk (by omega) hbit
  have hw : Spec.widthOf t = 4 := by
    unfold Spec.widthOf
    rw [if_neg (by omega), if_pos ⟨h21n, h24n⟩]
  have hm := scalar_multiplicity ctx t (by omega) (by omega)
  have hs := fieldOffset_succ ctx (ctx.readingAt k) t
  rw [hbit, if_pos rfl, hw, hm] at hs
  rw [hw] at h
  have hnonneg : 0 ≤ Spec.slotValue (ctx.readingAt k) t 0 := by
    interval_cases t <;> simp [Spec.slotValue]
  obtain ⟨b0, b1, b2, b3, hb, l0, l1, l2, l3, hsum⟩ :=
    littleEndian_four_value (Spec.slotValue (ctx.readingAt k) t 0) hnonneg hv
  exact ⟨⟨b0, b1, b2, b3, h.1.trans hb, l0, l1, l2, l3, hsum⟩, hm, hs, rfl, rfl, rfl, rfl⟩

theorem electrode_little_endian_witness :
    (isFlagSet (electrodeCtx.readingAt 0) FLAG_O3_WE = true
        ∧ (electrodeCtx.readingAt 0).o3_we = 0xAABBCCDD
        ∧ electrodeCtx.header.dual_mode = true)
      ∧ multiplicityOf electrodeCtx FLAG_O3_WE = 1
      ∧ firstBytes (encode electrodeCtx (some demoMem) 10).buffer 10
          = [0x09, 0x05, 0x00, 0x00, 0x20, 0x00, 0xDD, 0xCC, 0xBB, 0xAA] :=
  ⟨⟨by decide, by decide, rfl⟩,
    (electrode_little_endian electrodeCtx demoMem 10 0 FLAG_O3_WE (by decide) (by decide)
      (by decide) (by decide) (by decide) (by decide) (by decide) (by decide)
      (by decide)).2.1,
    by decide⟩

/-! ## Claims about the concrete scenarios -/

theorem fieldsBytes_of_present (header : PayloadHeader) (reading : SensorReading)
    (tags present : List Nat)
    (h : tags.filter (fun t => reading.presence_mask.testBit t) = present) :
    Spec.fieldsBytes header reading tags = present.flatMap (Spec.fieldBytes header reading) := by
  unfold Spec.fieldsBytes
  rw [h]

theorem present_tags_mask_5 :
    (List.range 27).filter (fun t => (5 : Nat).testBit t) = [0, 2] := by
  decide

theorem present_tags_mask_4 :
    (List.range 27).filter (fun t => (4 : Nat).testBit t) = [2] := by
  decide

theorem littleEndian_mask_5 : Spec.littleEndian 4 ((5 : Nat) : Int) = [5, 0, 0, 0] := by
  decide

theorem littleEndian_mask_4 : Spec.littleEndian 4 ((4 : Nat) : Int) = [4, 0, 0, 0] := by
  decide

theorem payload_temp_co2 (ctx : EncoderContext) (hone : ctx.reading_count = 1)
    (hmask : (ctx.readingAt 0).presence_mask = 5) :
    Spec.payload ctx
      = [encodeMetadata ctx, ctx.header.interval_minutes, 5, 0, 0, 0]
          ++ Spec.fieldBytes ctx.header (ctx.readingAt 0) 0
          ++ Spec.fieldBytes ctx.header (ctx.readingAt 0) 2 := by
  have hf := fieldsBytes_of_present ctx.header (ctx.readingAt 0) (List.range 27) [0, 2]
    (by rw [hmask]; exact present_tags_mask_5)
  unfold Spec.payload
  rw [hone, show List.range 1 = [0] from rfl, readingsBytes_cons, readingsBytes_nil]
  unfold Spec.readingBytes
  rw [hf, hmask, littleEndian_mask_5]
  simp

/-- Claim C27: with header {version 1, dual off, dedicated off, interval 5}
and one reading that has only temperature and CO2 present, for every
temperature `t` and CO2 value `c` (and a buffer of at least 10 bytes) `encode`
returns 10 and writes 01 05 05 00 00 00, then the two little-endian bytes of
`t`, then the two little-endian bytes of `c`. -/
theorem single_channel_scenario (ctx : EncoderContext) (mem : Buffer) (cap : Nat)
    (hheader : ctx.header = demoHeader) (hone : ctx.reading_count = 1)
    (hmask : (ctx.readingAt 0).presence_mask = 5)
    (hroom : 10 ≤ cap) (hcap : cap < 4294967296) :
    (encode ctx (some mem) cap).ret = 10
      ∧ firstBytes (encode ctx (some mem) cap).buffer 10
          = [0x01, 0x05, 0x05, 0x00, 0x00, 0x00]
              ++ Spec.littleEndian 2 ((ctx.readingAt 0).temp 0)
              ++ Spec.littleEndian 2 ((ctx.readingAt 0).co2 : Int) := by
  have hp : Spec.payload ctx
      = [0x01, 0x05, 0x05, 0x00, 0x00, 0x00]
          ++ Spec.littleEndian 2 ((ctx.readingAt 0).temp 0)
          ++ Spec.littleEndian 2 ((ctx.readingAt 0).co2 : Int) := by
    rw [payload_temp_co2 ctx hone hmask, encodeMetadata_eq, hheader]
    simp [demoHeader, Spec.fieldBytes, Spec.multiplicity, Spec.expandableTag, Spec.widthOf,
      Spec.slotValue]
  have hlen : (Spec.payload ctx).length = 10 := by
    rw [hp]
    simp [littleEndian_length]
  have hcount : ctx.reading_count ≤ MAX_BATCH_SIZE := by
    rw [hone]
    decide
  have hsize : calculateTotalSize ctx = 10 := by
    rw [calculateTotalSize_eq ctx (by omega), hlen]
  rw [encode_ok ctx mem cap (by omega) hcount hcap (by omega), hlen]
  refine ⟨rfl, ?_⟩
  simp only [firstBytes]
  rw [← hlen, map_blit_range, hp]

theorem single_channel_scenario_witness :
    (demoCtx.header = demoHeader ∧ (demoCtx.readingAt 0).presence_mask = 5
        ∧ (demoCtx.readingAt 0).temp 0 = 2500 ∧ (demoCtx.readingAt 0).co2 = 412)
      ∧ (encode demoCtx (some demoMem) 256).ret = 10
      ∧ firstBytes (encode demoCtx (some demoMem) 256).buffer 10
          = [0x01, 0x05, 0x05, 0x00, 0x00, 0x00, 0xC4, 0x09, 0x9C, 0x01] :=
  ⟨⟨rfl, by decide, by decide, by decide⟩,
    (single_channel_scenario demoCtx demoMem 256 rfl rfl (by decide) (by decide)
      (by decide)).1,
    by decide⟩

/-- Claim C28: with header {version 1, dual on, dedicated off, interval 5} and
one reading that has only temperature and CO2 present, for every temperature
pair `(t0, t1)` and CO2 value `c` (and a buffer of at least 12 bytes) `encode`
returns 12 and writes 09 05 05 00 00 00, then `t0` and `t1` as little-endian
16-bit values, then `c` once. -/
theorem dual_channel_scenario (ctx : EncoderContext) (mem : Buffer) (cap : Nat)
    (hheader : ctx.header = dualHeader) (hone : ctx.reading_count = 1)
    (hmask : (ctx.readingAt 0).presence_mask = 5)
    (hroom : 12 ≤ cap) (hcap : cap < 4294967296) :
    (encode ctx (some mem) cap).ret = 12
      ∧ firstBytes (encode ctx (some mem) cap).buffer 12
          = [0x09, 0x05, 0x05, 0x00, 0x00, 0x00]
              ++ Spec.littleEndian 2 ((ctx.readingAt 0).temp 0)
              ++ Spec.littleEndian 2 ((ctx.readingAt 0).temp 1)
              ++ Spec.littleEndian 2 ((ctx.readingAt 0).co2 : Int) := by
  have hp : Spec.payload ctx
      = [0x09, 0x05, 0x05, 0x00, 0x00, 0x00]
          ++ Spec.littleEndian 2 ((ctx.readingAt 0).temp 0)
          ++ Spec.littleEndian 2 ((ctx.readingAt 0).temp 1)
          ++ Spec.littleEndian 2 ((ctx.readingAt 0).co2 : Int) := by
    rw [payload_temp_co2 ctx hone hmask, encodeMetadata_eq, hheader]
    simp [dualHeader, Spec.fieldBytes, Spec.multiplicity, Spec.expandableTag, Spec.widthOf,
      Spec.slotValue]
  have hlen : (Spec.payload ctx).length = 12 := by
    rw [hp]
    simp [littleEndian_length]
  have hcount : ctx.reading_count ≤ MAX_BATCH_SIZE := by
    rw [hone]
    decide
  have hsize : calculateTotalSize ctx = 12 := by
    rw [calculateTotalSize_eq ctx (by omega), hlen]
  rw [encode_ok ctx mem cap (by omega) hcount hcap (by omega), hlen]
  refine ⟨rfl, ?_⟩
  simp only [firstBytes]
  rw [← hlen, map_blit_range, hp]

theorem dual_channel_scenario_witness :
    (dualDemoCtx.header = dualHeader ∧ (dualDemoCtx.readingAt 0).presence_mask = 5
        ∧ (dualDemoCtx.readingAt 0).temp 0 = 2500 ∧ (dualDemoCtx.readingAt 0).temp 1 = 2600
        ∧ (dualDemoCtx.readingAt 0).co2 = 400)
      ∧ (encode dualDemoCtx (some demoMem) 256).ret = 12
      ∧ firstBytes (encode dualDemoCtx (some demoMem) 256).buffer 12
          = [0x09, 0x05, 0x05, 0x00, 0x00, 0x00, 0xC4, 0x09, 0x28, 0x0A, 0x90, 0x01] :=
  ⟨⟨rfl, by decide, by decide, by decide, by decide⟩,
    (dual_channel_scenario dualDemoCtx demoMem 256 rfl rfl (by decide) (by decide)
      (by decide)).1,
    by decide⟩

theorem readingBytes_co2_only (header : PayloadHeader) (reading : SensorReading)
    (hmask : reading.presence_mask = 4) :
    Spec.readingBytes header reading
      = [0x04, 0x00, 0x00, 0x00] ++ Spec.littleEndian 2 (reading.co2 : Int) := by
  have hf := fieldsBytes_of_present header reading (List.range 27) [2]
    (by rw [hmask]; exact present_tags_mask_4)
  unfold Spec.readingBytes
  rw [hf, hmask, littleEndian_mask_4]
  simp [Spec.fieldBytes, Spec.multiplicity, Spec.expandableTag, Spec.widthOf, Spec.slotValue]

theorem readingsBytes_length_co2_only (ctx : EncoderContext) (k : Nat)
    (hmask : ∀ i, i < k → (ctx.readingAt i).presence_mask = 4) :
    (Spec.readingsBytes ctx (List.range k)).length = 6 * k := by
  induction k with
  | zero => rw [List.range_zero, readingsBytes_nil, List.length_nil]
  | succ k ih =>
    have hk := readingBytes_co2_only ctx.header (ctx.readingAt k) (hmask k (by omega))
    rw [List.range_succ, readingsBytes_append, readingsBytes_cons, readingsBytes_nil,
      List.length_append, ih (fun i hi => hmask i (by omega)), hk]
    simp only [List.length_append, List.length_cons, List.length_nil, littleEndian_length]
    omega

theorem payload_reading_split (ctx : EncoderContext) (k : Nat) (hk : k < ctx.reading_count) :
    ∃ back, Spec.payload ctx
      = ([encodeMetadata ctx, ctx.header.interval_minutes]
            ++ Spec.readingsBytes ctx (List.range k))
          ++ (Spec.readingBytes ctx.header (ctx.readingAt k) ++ back) := by
  obtain ⟨tail, htail⟩ := range_split k ctx.reading_count hk
  refine ⟨Spec.readingsBytes ctx tail, ?_⟩
  unfold Spec.payload
  rw [htail, readingsBytes_append, readingsBytes_cons]
  simp only [List.append_assoc]

/-- Claim C29: for every `n` in 1..20, a batch of `n` readings that each carry
only CO2 (for every header, the single-channel one included, and a buffer of
at least `2 + 6n` bytes) encodes to exactly `2 + 6n` bytes: the header is in
bytes 0-1 and reading `k` occupies bytes `2+6k .. 7+6k` as 04 00 00 00
followed by the little-endian CO2 value of the `k`-th appended reading. -/
theorem co2_batch_layout (ctx : EncoderContext) (mem : Buffer) (cap : Nat)
    (hpos : 1 ≤ ctx.reading_count) (hcount : ctx.reading_count ≤ MAX_BATCH_SIZE)
    (hmask : ∀ i, i < ctx.reading_count → (ctx.readingAt i).presence_mask = 4)
    (hroom : 2 + 6 * ctx.reading_count ≤ cap) (hcap : cap < 4294967296) :
    (encode ctx (some mem) cap).ret = ((2 + 6 * ctx.reading_count : Nat) : Int)
      ∧ bytesFrom (encode ctx (some mem) cap).buffer 0 2
          = [encodeMetadata ctx, ctx.header.interval_minutes]
      ∧ ∀ k, k < ctx.reading_count →
          bytesFrom (encode ctx (some mem) cap).buffer (2 + 6 * k) 6
            = [0x04, 0x00, 0x00, 0x00]
                ++ Spec.littleEndian 2 ((ctx.readingAt k).co2 : Int) := by
  have hc : ctx.reading_count ≤ 20 := hcount
  have hlen : (Spec.payload ctx).length = 2 + 6 * ctx.reading_count := by
    rw [payload_length, readingsBytes_length_co2_only ctx _ hmask]
  have hsize : calculateTotalSize ctx = 2 + 6 * ctx.reading_count := by
    rw [calculateTotalSize_eq ctx (by omega), hlen]
  rw [encode_ok ctx mem cap hpos hcount hcap (by omega), hlen]
  refine ⟨rfl, ?_, ?_⟩
  · have h := bytesFrom_blit_mid mem [] [encodeMetadata ctx, ctx.header.interval_minutes]
      (Spec.readingsBytes ctx (List.range ctx.reading_count))
    simpa [Spec.payload] using h
  · intro k hk
    obtain ⟨back, hb⟩ := payload_reading_split ctx k hk
    have hfront : ([encodeMetadata ctx, ctx.header.interval_minutes]
        ++ Spec.readingsBytes ctx (List.range k)).length = 2 + 6 * k := by
      rw [List.length_append,
        readingsBytes_length_co2_only ctx k (fun i hi => hmask i (by omega))]
      rfl
    have hrb := readingBytes_co2_only ctx.header (ctx.readingAt k) (hmask k hk)
    have hmid : (Spec.readingBytes ctx.header (ctx.readingAt k)).length = 6 := by
      rw [hrb]
      simp [littleEndian_length]
    have h := bytesFrom_blit_mid mem
      ([encodeMetadata ctx, ctx.header.interval_minutes]
        ++ Spec.readingsBytes ctx (List.range k))
      (Spec.readingBytes ctx.header (ctx.readingAt k)) back
    rw [hfront, hmid, ← hb, hrb] at h
    exact h

theorem co2_batch_layout_witness :
    (co2Batch.reading_count = 3 ∧ co2Batch.header.dual_mode = false)
      ∧ (encode co2Batch (some demoMem) 256).ret = ((2 + 6 * co2Batch.reading_count : Nat) : Int)
      ∧ firstBytes (encode co2Batch (some demoMem) 256).buffer 20
          = [0x01, 0x05, 0x04, 0x00, 0x00, 0x00, 0x90, 0x01, 0x04, 0x00, 0x00, 0x00, 0x91,
              0x01, 0x04, 0x00, 0x00, 0x00, 0x92, 0x01] :=
  ⟨⟨rfl, rfl⟩,
    (co2_batch_layout co2Batch demoMem 256 (by decide) (by decide) (by decide) (by decide)
      (by decide)).1,
    by decide⟩

/-! ## Claims about scalar-only readings -/

theorem multiplicity_scalar (header : PayloadHeader) (t : Nat)
    (h : Spec.expandableTag t = false) : Spec.multiplicity header t = 1 := by
  simp [Spec.multiplicity, h]

theorem readingBytes_scalar_only (h1 h2 : PayloadHeader) (reading : SensorReading)
    (hscalar : ∀ t, t < 27 → Spec.expandableTag t = true → isFlagSet reading t = false) :
    Spec.readingBytes h1 reading = Spec.readingBytes h2 reading := by
  unfold Spec.readingBytes
  congr 1
  apply fieldsBytes_congr h1 h2 reading reading (List.range 27) (Eq.refl _)
  intro t ht hb
  have ht27 : t < 27 := List.mem_range.mp ht
  have hne : Spec.expandableTag t = false := by
    cases he : Spec.expandableTag t with
    | false => exact Eq.refl _
    | true =>
      have hclear := hscalar t ht27 he
      rw [isFlagSet_eq _ _ ht27, hb] at hclear
      exact absurd hclear (by decide)
  rw [fieldBytes_one h1 reading t (multiplicity_scalar h1 t hne),
    fieldBytes_one h2 reading t (multiplicity_scalar h2 t hne)]

theorem payload_cons (ctx : EncoderContext) :
    Spec.payload ctx
      = [encodeMetadata ctx]
          ++ ((ctx.header.interval_minutes
                :: Spec.readingsBytes ctx (List.range ctx.reading_count)) ++ []) := by
  simp [Spec.payload]

theorem scalar_batches_agree (ctx1 ctx2 : EncoderContext) (mem1 mem2 : Buffer)
    (cap : Nat)
    (hcount : ctx1.reading_count ≤ MAX_BATCH_SIZE) (hcap : cap < 4294967296)
    (hinterval : ctx1.header.interval_minutes = ctx2.header.interval_minutes)
    (hn : ctx1.reading_count = ctx2.reading_count)
    (hreadings : ∀ i, i < ctx1.reading_count → ctx1.readingAt i = ctx2.readingAt i)
    (hscalar : ∀ i, i < ctx1.reading_count → ∀ t, t < 27 → Spec.expandableTag t = true →
      isFlagSet (ctx1.readingAt i) t = false) :
    (∀ i, i < ctx1.reading_count →
        calculateReadingSize ctx1 (ctx1.readingAt i)
          = calculateReadingSize ctx2 (ctx1.readingAt i))
      ∧ (encode ctx1 (some mem1) cap).ret = (encode ctx2 (some mem2) cap).ret
      ∧ ∀ n : Nat, (encode ctx1 (some mem1) cap).ret = (n : Int) →
          bytesFrom (encode ctx1 (some mem1) cap).buffer 1 (n - 1)
            = bytesFrom (encode ctx2 (some mem2) cap).buffer 1 (n - 1) := by
  have hcount2 : ctx2.reading_count ≤ MAX_BATCH_SIZE := by
    rw [← hn]
    exact hcount
  have hrb : Spec.readingsBytes ctx1 (List.range ctx1.reading_count)
      = Spec.readingsBytes ctx2 (List.range ctx2.reading_count) := by
    rw [← hn]
    apply readingsBytes_congr
    intro i hi
    have hi1 : i < ctx1.reading_count := List.mem_range.mp hi
    rw [← hreadings i hi1]
    exact readingBytes_scalar_only _ _ _ (hscalar i hi1)
  have hlen : (Spec.payload ctx1).length = (Spec.payload ctx2).length := by
    rw [payload_length, payload_length, hrb]
  refine ⟨?_, ?_⟩
  · intro i hi
    rw [calculateReadingSize_eq, calculateReadingSize_eq,
      readingBytes_scalar_only ctx1.header ctx2.header _ (hscalar i hi)]
  · rw [encode_spec ctx1 mem1 cap hcount hcap, encode_spec ctx2 mem2 cap hcount2 hcap,
      hn, hlen]
    by_cases h0 : ctx2.reading_count = 0
    · simp only [if_pos h0]
      refine ⟨trivial, ?_⟩
      intro n hn0
      have : n = 0 := by omega
      subst this
      simp [bytesFrom]
    · simp only [if_neg h0]
      by_cases hsmall : cap < (Spec.payload ctx2).length
      · simp only [if_pos hsmall]
        refine ⟨trivial, ?_⟩
        intro n hneg
        omega
      · simp only [if_neg hsmall]
        refine ⟨trivial, ?_⟩
        intro n hnlen
        have hn2 : n = (Spec.payload ctx2).length := by omega
        have hl2 := payload_length ctx2
        have e : n - 1
            = (ctx2.header.interval_minutes
                :: Spec.readingsBytes ctx2 (List.range ctx2.reading_count)).length := by
          rw [List.length_cons]
          omega
        have b1 := bytesFrom_blit_mid mem1 [encodeMetadata ctx1]
          (ctx1.header.interval_minutes
            :: Spec.readingsBytes ctx1 (List.range ctx1.reading_count)) []
        have b2 := bytesFrom_blit_mid mem2 [encodeMetadata ctx2]
          (ctx2.header.interval_minutes
            :: Spec.readingsBytes ctx2 (List.range ctx2.reading_count)) []
        rw [← payload_cons] at b1 b2
        rw [hrb, hinterval] at b1
        rw [e]
        exact b1.trans b2.symm


/-- Claim C30: for every batch (at most 20 readings) whose readings have none
of the expandable tags {0, 1, 7..18} present, and every setting of the
`dual_mode` and `dedicated_temphum_sensor` flags, `calculateReadingSize` of
each reading is the same as under the original flags, and the batch with only
those two flags changed encodes to the same result, with the same bytes from
byte 1 on: at most byte 0, the metadata byte, differs. -/
theorem scalar_fields_ignore_mode (ctx : EncoderContext) (dual dedicated : Bool)
    (mem1 mem2 : Buffer) (cap : Nat)
    (hcount : ctx.reading_count ≤ MAX_BATCH_SIZE) (hcap : cap < 4294967296)
    (hscalar : ∀ i, i < ctx.reading_count → ∀ t, t < 27 → Spec.expandableTag t = true →
      isFlagSet (ctx.readingAt i) t = false) :
    (∀ i, i < ctx.reading_count →
        calculateReadingSize ctx (ctx.readingAt i)
          = calculateReadingSize (withFlags ctx dual dedicated) (ctx.readingAt i))
      ∧ (encode ctx (some mem1) cap).ret
          = (encode (withFlags ctx dual dedicated) (some mem2) cap).ret
      ∧ ∀ n : Nat, (encode ctx (some mem1) cap).ret = (n : Int) →
          bytesFrom (encode ctx (some mem1) cap).buffer 1 (n - 1)
            = bytesFrom (encode (withFlags ctx dual dedicated) (some mem2) cap).buffer 1
                (n - 1) :=
  scalar_batches_agree ctx (withFlags ctx dual dedicated) mem1 mem2 cap hcount hcap
    (Eq.refl _) (Eq.refl _) (fun _ _ => Eq.refl _) hscalar

theorem scalar_fields_ignore_mode_witness :
    (scalarCtx.header.dual_mode = false
        ∧ (withFlags scalarCtx true true).header.dual_mode = true
        ∧ (withFlags scalarCtx true true).header.dedicated_temphum_sensor = true)
      ∧ calculateReadingSize scalarCtx (scalarCtx.readingAt 0)
          = calculateReadingSize (withFlags scalarCtx true true) (scalarCtx.readingAt 0)
      ∧ (encode scalarCtx (some demoMem) 12).ret
          = (encode (withFlags scalarCtx true true) (some demoMem) 12).ret
      ∧ bytesFrom (encode scalarCtx (some demoMem) 12).buffer 1 11
          = [0x05, 0x0C, 0x00, 0x08, 0x00, 0x90, 0x01, 0x64, 0x00, 0x74, 0x0E]
      ∧ firstBytes (encode (withFlags scalarCtx true true) (some demoMem) 12).buffer 12
          = [0x19, 0x05, 0x0C, 0x00, 0x08, 0x00, 0x90, 0x01, 0x64, 0x00, 0x74, 0x0E] :=
  ⟨⟨rfl, rfl, rfl⟩,
    (scalar_fields_ignore_mode scalarCtx true true demoMem demoMem 12 (by decide)
      (by decide) (by decide)).1 0 (by decide),
    (scalar_fields_ignore_mode scalarCtx true true demoMem demoMem 12 (by decide)
      (by decide) (by decide)).2.1,
    by decide, by decide⟩

/-! ## Claims about the frame of `encode` and the mode flags -/

/-- Claim C36: for every successful `encode` that returns `n` into a buffer of
capacity `c ≥ n`, the bytes at indices `0..n-1` are the payload and every byte
at an index from `n` on (so from `n` to `c-1`) keeps the value it had before
the call. -/
theorem encode_frame (ctx : EncoderContext) (mem : Buffer) (cap : Nat)
    (hpos : 1 ≤ ctx.reading_count) (hcount : ctx.reading_count ≤ MAX_BATCH_SIZE)
    (hcap : cap < 4294967296) (hfit : calculateTotalSize ctx ≤ cap) :
    ∃ out, (encode ctx (some mem) cap).buffer = some out
      ∧ (encode ctx (some mem) cap).ret = (calculateTotalSize ctx : Int)
      ∧ (List.range (calculateTotalSize ctx)).map out = Spec.payload ctx
      ∧ ∀ j, calculateTotalSize ctx ≤ j → out j = mem j := by
  have hc : ctx.reading_count ≤ 20 := hcount
  have hlen := calculateTotalSize_eq ctx (by omega)
  refine ⟨blit mem 0 (Spec.payload ctx), ?_, ?_, ?_, ?_⟩
  · rw [encode_ok ctx mem cap hpos hcount hcap hfit]
  · rw [encode_ok ctx mem cap hpos hcount hcap hfit, hlen]
  · rw [hlen]
    exact map_blit_range mem (Spec.payload ctx)
  · intro j hj
    exact blit_above mem 0 (Spec.payload ctx) j (by omega)

theorem encode_frame_witness :
    (1 ≤ demoCtx.reading_count ∧ calculateTotalSize demoCtx ≤ 12)
      ∧ ∃ out, (encode demoCtx (some demoMem) 12).buffer = some out
          ∧ (encode demoCtx (some demoMem) 12).ret = (calculateTotalSize demoCtx : Int)
          ∧ (List.range (calculateTotalSize demoCtx)).map out = Spec.payload demoCtx
          ∧ ∀ j, calculateTotalSize demoCtx ≤ j → out j = demoMem j :=
  ⟨⟨by decide, by decide⟩,
    encode_frame demoCtx demoMem 12 (by decide) (by decide) (by decide) (by decide)⟩

theorem encode_agree_from_byte_one (ctx1 ctx2 : EncoderContext) (mem1 mem2 : Buffer)
    (cap : Nat)
    (hcount : ctx1.reading_count ≤ MAX_BATCH_SIZE) (hcap : cap < 4294967296)
    (hinterval : ctx1.header.interval_minutes = ctx2.header.interval_minutes)
    (hn : ctx1.reading_count = ctx2.reading_count)
    (hrb : Spec.readingsBytes ctx1 (List.range ctx1.reading_count)
      = Spec.readingsBytes ctx2 (List.range ctx2.reading_count)) :
    (encode ctx1 (some mem1) cap).ret = (encode ctx2 (some mem2) cap).ret
      ∧ ∀ n : Nat, (encode ctx1 (some mem1) cap).ret = (n : Int) →
          bytesFrom (encode ctx1 (some mem1) cap).buffer 1 (n - 1)
            = bytesFrom (encode ctx2 (some mem2) cap).buffer 1 (n - 1) := by
  have hcount2 : ctx2.reading_count ≤ MAX_BATCH_SIZE := by
    rw [← hn]
    exact hcount
  have hlen : (Spec.payload ctx1).length = (Spec.payload ctx2).length := by
    rw [payload_length, payload_length, hrb]
  rw [encode_spec ctx1 mem1 cap hcount hcap, encode_spec ctx2 mem2 cap hcount2 hcap,
    hn, hlen]
  by_cases h0 : ctx2.reading_count = 0
  · simp only [if_pos h0]
    refine ⟨trivial, ?_⟩
    intro n hn0
    have : n = 0 := by omega
    subst this
    simp [bytesFrom]
  · simp only [if_neg h0]
    by_cases hsmall : cap < (Spec.payload ctx2).length
    · simp only [if_pos hsmall]
      refine ⟨trivial, ?_⟩
      intro n hneg
      omega
    · simp only [if_neg hsmall]
      refine ⟨trivial, ?_⟩
      intro n hnlen
      have hn2 : n = (Spec.payload ctx2).length := by omega
      have hl2 := payload_length ctx2
      have e : n - 1
          = (ctx2.header.interval_minutes
              :: Spec.readingsBytes ctx2 (List.range ctx2.reading_count)).length := by
        rw [List.length_cons]
        omega
      have b1 := bytesFrom_blit_mid mem1 [encodeMetadata ctx1]
        (ctx1.header.interval_minutes
          :: Spec.readingsBytes ctx1 (List.range ctx1.reading_count)) []
      have b2 := bytesFrom_blit_mid mem2 [encodeMetadata ctx2]
        (ctx2.header.interval_minutes
          :: Spec.readingsBytes ctx2 (List.range ctx2.reading_count)) []
      rw [← payload_cons] at b1 b2
      rw [hrb, hinterval] at b1
      rw [e]
      exact b1.trans b2.symm

theorem multiplicity_single (header : PayloadHeader) (t : Nat)
    (h : header.dual_mode = false) : Spec.multiplicity header t = 1 := by
  simp [Spec.multiplicity, h]

theorem readingBytes_single (h1 h2 : PayloadHeader) (reading : SensorReading)
    (hs1 : h1.dual_mode = false) (hs2 : h2.dual_mode = false) :
    Spec.readingBytes h1 reading = Spec.readingBytes h2 reading := by
  unfold Spec.readingBytes
  congr 1
  apply fieldsBytes_congr h1 h2 reading reading (List.range 27) (Eq.refl _)
  intro t _ _
  rw [fieldBytes_one h1 reading t (multiplicity_single h1 t hs1),
    fieldBytes_one h2 reading t (multiplicity_single h2 t hs2)]

/-- Claim C31: for every batch (at most 20 readings) in single-channel mode,
switching the `dedicated_temphum_sensor` flag changes only bit 4 of the
metadata byte (it adds 16): the value returned by `encode` and every output
byte from byte 1 on are those of the non-dedicated single-channel encoding of
the same readings. -/
theorem dedicated_flag_single_mode (ctx : EncoderContext) (mem1 mem2 : Buffer) (cap : Nat)
    (hcount : ctx.reading_count ≤ MAX_BATCH_SIZE) (hcap : cap < 4294967296) :
    encodeMetadata (withFlags ctx false true) = encodeMetadata (withFlags ctx false false) + 16
      ∧ encodeMetadata (withFlags ctx false false) < 8
      ∧ (encode (withFlags ctx false true) (some mem1) cap).ret
          = (encode (withFlags ctx false false) (some mem2) cap).ret
      ∧ ∀ n : Nat, (encode (withFlags ctx false true) (some mem1) cap).ret = (n : Int) →
          bytesFrom (encode (withFlags ctx false true) (some mem1) cap).buffer 1 (n - 1)
            = bytesFrom (encode (withFlags ctx false false) (some mem2) cap).buffer 1
                (n - 1) := by
  have hv : ctx.header.version % 8 < 8 := Nat.mod_lt _ (by norm_num)
  refine ⟨?_, ?_, ?_⟩
  · rw [encodeMetadata_eq, encodeMetadata_eq]
    simp [withFlags]
  · rw [encodeMetadata_eq]
    simp only [withFlags]
    simpa using hv
  · apply encode_agree_from_byte_one (withFlags ctx false true) (withFlags ctx false false)
      mem1 mem2 cap hcount hcap (Eq.refl _) (Eq.refl _)
    apply readingsBytes_congr
    intro i _
    exact readingBytes_single _ _ _ (Eq.refl _) (Eq.refl _)

theorem dedicated_flag_single_mode_witness :
    dedicatedSingleCtx.reading_count ≤ MAX_BATCH_SIZE
      ∧ (encode (withFlags dedicatedSingleCtx false true) (some demoMem) 256).ret
          = (encode (withFlags dedicatedSingleCtx false false) (some demoMem) 256).ret
      ∧ firstBytes (encode (withFlags dedicatedSingleCtx false true) (some demoMem) 256).buffer
            12
          = [0x11, 0x05, 0x07, 0x00, 0x00, 0x00, 0xC4, 0x09, 0x70, 0x17, 0x90, 0x01]
      ∧ firstBytes (encode (withFlags dedicatedSingleCtx false false) (some demoMem) 256).buffer
            12
          = [0x01, 0x05, 0x07, 0x00, 0x00, 0x00, 0xC4, 0x09, 0x70, 0x17, 0x90, 0x01] :=
  ⟨by decide,
    (dedicated_flag_single_mode dedicatedSingleCtx demoMem demoMem 256 (by decide)
      (by decide)).2.2.1,
    by decide, by decide⟩

/-! ## Claims about the sizes with every tag set -/

theorem presentSizes_mask_congr (ctx : EncoderContext) (r1 r2 : SensorReading)
    (tags : List Nat) (hmask : r1.presence_mask = r2.presence_mask) :
    presentSizes ctx r1 tags = presentSizes ctx r2 tags := by
  simp only [presentSizes, isFlagSet, hmask]

theorem presentSizes_header_congr (ctx1 ctx2 : EncoderContext) (reading : SensorReading)
    (tags : List Nat) (htags : ∀ t ∈ tags, t < 27)
    (hdual : ctx1.header.dual_mode = ctx2.header.dual_mode)
    (hded : ctx1.header.dedicated_temphum_sensor = ctx2.header.dedicated_temphum_sensor) :
    presentSizes ctx1 reading tags = presentSizes ctx2 reading tags := by
  induction tags with
  | nil => rw [presentSizes_nil, presentSizes_nil]
  | cons t rest ih =>
    have ht : t < 27 := htags t (List.mem_cons_self t rest)
    have hm : multiplicityOf ctx1 t = multiplicityOf ctx2 t := by
      unfold multiplicityOf
      rw [hdual, isExpandable_congr ctx2 ctx1 t ht hded]
    rw [presentSizes_cons, presentSizes_cons,
      ih (fun u hu => htags u (List.mem_cons_of_mem t hu)), hm]

theorem multiplicityOf_single (ctx : EncoderContext) (t : Nat)
    (h : ctx.header.dual_mode = false) : multiplicityOf ctx t = 1 := by
  simp [multiplicityOf, h]

theorem presentSizes_single_congr (ctx1 ctx2 : EncoderContext) (reading : SensorReading)
    (tags : List Nat) (h1 : ctx1.header.dual_mode = false)
    (h2 : ctx2.header.dual_mode = false) :
    presentSizes ctx1 reading tags = presentSizes ctx2 reading tags := by
  induction tags with
  | nil => rw [presentSizes_nil, presentSizes_nil]
  | cons t rest ih =>
    rw [presentSizes_cons, presentSizes_cons, ih, multiplicityOf_single ctx1 t h1,
      multiplicityOf_single ctx2 t h2]

theorem all26_single_sizes :
    presentSizes allSingleCtx allReading expandableTags = 28
      ∧ presentSizes allSingleCtx allReading scalar16Tags = 16
      ∧ presentSizes allSingleCtx allReading scalar32Tags = 16
      ∧ presentSizes allSingleCtx allReading (List.range 27) = 60 := by
  decide

theorem all26_dual_sizes :
    presentSizes allDualCtx allReading expandableTags = 56
      ∧ presentSizes allDualCtx allReading scalar16Tags = 16
      ∧ presentSizes allDualCtx allReading scalar32Tags = 16
      ∧ presentSizes allDualCtx allReading (List.range 27) = 88 := by
  decide

theorem tags_lt_27 :
    (∀ t ∈ expandableTags, t < 27) ∧ (∀ t ∈ scalar16Tags, t < 27)
      ∧ (∀ t ∈ scalar32Tags, t < 27) := by
  decide

theorem encode_single_reading_size (ctx : EncoderContext) (mem : Buffer) (cap : Nat)
    (hone : ctx.reading_count = 1) (hcap : cap < 4294967296)
    (hroom : 6 + presentSizes ctx (ctx.readingAt 0) (List.range 27) ≤ cap) :
    (encode ctx (some mem) cap).ret
      = ((6 + presentSizes ctx (ctx.readingAt 0) (List.range 27) : Nat) : Int) := by
  have hcount : ctx.reading_count ≤ MAX_BATCH_SIZE := by
    rw [hone]
    decide
  have hlen : (Spec.payload ctx).length
      = 6 + presentSizes ctx (ctx.readingAt 0) (List.range 27) := by
    rw [payload_length, hone, show List.range 1 = [0] from rfl, readingsBytes_cons,
      readingsBytes_nil, List.append_nil, readingBytes_length,
      ← presentSizes_eq ctx _ _ range27_lt]
    omega
  have hsize : calculateTotalSize ctx = (Spec.payload ctx).length :=
    calculateTotalSize_eq ctx (by rw [hone]; omega)
  rw [encode_ok ctx mem cap (by omega) hcount hcap (by omega), hlen]

/-- Claim C32, as stated (false): in single-channel mode one reading whose
presence mask is `0x03FFFFFF` does not encode to 68 bytes; `encode` returns 66,
because tag 25 is a 16-bit field: there are 8 scalar 16-bit fields and 4 scalar
32-bit fields. -/
theorem all_tags_single_not_68 :
    allSingleCtx.header.dual_mode = false
      ∧ (allSingleCtx.readingAt 0).presence_mask = 0x03FFFFFF
      ∧ (encode allSingleCtx (some demoMem) 256).ret = 66
      ∧ (encode allSingleCtx (some demoMem) 256).ret ≠ 68
      ∧ Spec.widthOf FLAG_AFE_TEMP = 2 := by
  decide

/-- Claim C32, amended: in single-channel mode one reading whose presence mask
is `0x03FFFFFF` (tags 0..25 all set) encodes to 66 bytes: 2 header bytes, 4
mask bytes, 28 bytes for the 14 expandable fields (one 2-byte value each), 16
bytes for the 8 scalar 16-bit fields (tags 2..6, 19, 20, 25) and 16 bytes for
the 4 scalar 32-bit fields (tags 21..24). -/
theorem all_tags_single_size (ctx : EncoderContext) (mem : Buffer) (cap : Nat)
    (hsingle : ctx.header.dual_mode = false)
    (hone : ctx.reading_count = 1)
    (hmask : (ctx.readingAt 0).presence_mask = 0x03FFFFFF)
    (hroom : 66 ≤ cap) (hcap : cap < 4294967296) :
    (encode ctx (some mem) cap).ret = 66
      ∧ calculateTotalSize ctx = 2 + 4 + 28 + 16 + 16
      ∧ presentSizes ctx (ctx.readingAt 0) expandableTags = 28
      ∧ presentSizes ctx (ctx.readingAt 0) scalar16Tags = 16
      ∧ presentSizes ctx (ctx.readingAt 0) scalar32Tags = 16 := by
  have hto : ∀ tags, (∀ t ∈ tags, t < 27) →
      presentSizes ctx (ctx.readingAt 0) tags = presentSizes allSingleCtx allReading tags := by
    intro tags _
    rw [presentSizes_mask_congr ctx (ctx.readingAt 0) allReading tags hmask]
    exact presentSizes_single_congr ctx allSingleCtx allReading tags hsingle (Eq.refl _)
  have hall := hto (List.range 27) range27_lt
  rw [all26_single_sizes.2.2.2] at hall
  have hret := encode_single_reading_size ctx mem cap hone hcap (by rw [hall]; exact hroom)
  rw [hall] at hret
  have hsize : calculateTotalSize ctx = 66 := by
    rw [calculateTotalSize_eq ctx (by rw [hone]; omega), payload_length, hone,
      show List.range 1 = [0] from rfl, readingsBytes_cons, readingsBytes_nil,
      List.append_nil, readingBytes_length, ← presentSizes_eq ctx _ _ range27_lt, hall]
  refine ⟨hret, hsize, ?_, ?_, ?_⟩
  · rw [hto _ tags_lt_27.1]
    exact all26_single_sizes.1
  · rw [hto _ tags_lt_27.2.1]
    exact all26_single_sizes.2.1
  · rw [hto _ tags_lt_27.2.2]
    exact all26_single_sizes.2.2.1

theorem all_tags_single_size_witness :
    (allSingleCtx.header.dual_mode = false
        ∧ (allSingleCtx.readingAt 0).presence_mask = 0x03FFFFFF)
      ∧ (encode allSingleCtx (some demoMem) 256).ret = 66 :=
  ⟨⟨rfl, by decide⟩,
    (all_tags_single_size allSingleCtx demoMem 256 rfl rfl (by decide) (by decide)
      (by decide)).1⟩

/-- Claim C33, as stated (false): in dual-channel mode one reading whose
presence mask is `0x03FFFFFF` does not encode to 96 bytes; `encode` returns 94,
because tag 25 is a 16-bit field. -/
theorem all_tags_dual_not_96 :
    allDualCtx.header.dual_mode = true
      ∧ allDualCtx.header.dedicated_temphum_sensor = false
      ∧ (allDualCtx.readingAt 0).presence_mask = 0x03FFFFFF
      ∧ (encode allDualCtx (some demoMem) 256).ret = 94
      ∧ (encode allDualCtx (some demoMem) 256).ret ≠ 96 := by
  decide

/-- Claim C33, amended: in dual-channel mode with every expandable field
carrying two values (dedicated flag off), one reading whose presence mask is
`0x03FFFFFF` (tags 0..25 all set) encodes to 94 bytes: 2 header bytes, 4 mask
bytes, 56 bytes for the 14 expandable fields (two 2-byte values each), 16
bytes for the 8 scalar 16-bit fields and 16 bytes for the 4 scalar 32-bit
fields. -/
theorem all_tags_dual_size (ctx : EncoderContext) (mem : Buffer) (cap : Nat)
    (hdual : ctx.header.dual_mode = true)
    (hded : ctx.header.dedicated_temphum_sensor = false)
    (hone : ctx.reading_count = 1)
    (hmask : (ctx.readingAt 0).presence_mask = 0x03FFFFFF)
    (hroom : 94 ≤ cap) (hcap : cap < 4294967296) :
    (encode ctx (some mem) cap).ret = 94
      ∧ calculateTotalSize ctx = 2 + 4 + 56 + 16 + 16
      ∧ presentSizes ctx (ctx.readingAt 0) expandableTags = 56
      ∧ presentSizes ctx (ctx.readingAt 0) scalar16Tags = 16
      ∧ presentSizes ctx (ctx.readingAt 0) scalar32Tags = 16 := by
  have hto : ∀ tags, (∀ t ∈ tags, t < 27) →
      presentSizes ctx (ctx.readingAt 0) tags = presentSizes allDualCtx allReading tags := by
    intro tags htags
    rw [presentSizes_mask_congr ctx (ctx.readingAt 0) allReading tags hmask]
    exact presentSizes_header_congr ctx allDualCtx allReading tags htags hdual hded
  have hall := hto (List.range 27) range27_lt
  rw [all26_dual_sizes.2.2.2] at hall
  have hret := encode_single_reading_size ctx mem cap hone hcap (by rw [hall]; exact hroom)
  rw [hall] at hret
  have hsize : calculateTotalSize ctx = 94 := by
    rw [calculateTotalSize_eq ctx (by rw [hone]; omega), payload_length, hone,
      show List.range 1 = [0] from rfl, readingsBytes_cons, readingsBytes_nil,
      List.append_nil, readingBytes_length, ← presentSizes_eq ctx _ _ range27_lt, hall]
  refine ⟨hret, hsize, ?_, ?_, ?_⟩
  · rw [hto _ tags_lt_27.1]
    exact all26_dual_sizes.1
  · rw [hto _ tags_lt_27.2.1]
    exact all26_dual_sizes.2.1
  · rw [hto _ tags_lt_27.2.2]
    exact all26_dual_sizes.2.2.1

theorem all_tags_dual_size_witness :
    (allDualCtx.header.dual_mode = true
        ∧ (allDualCtx.readingAt 0).presence_mask = 0x03FFFFFF)
      ∧ (encode allDualCtx (some demoMem) 256).ret = 94 :=
  ⟨⟨rfl, by decide⟩,
    (all_tags_dual_size allDualCtx demoMem 256 rfl rfl rfl (by decide) (by decide)
      (by decide)).1⟩

/-! ## Claims about size bounds and the dual-channel surcharge -/

theorem dual_step (ctx : EncoderContext) (ded : Bool) (t : Nat) (ht : t < 27) :
    Spec.widthOf t * multiplicityOf (withFlags ctx true ded) t
      = Spec.widthOf t * multiplicityOf (withFlags ctx false ded) t
          + (if isExpandable (withFlags ctx true ded) t then 2 else 0) := by
  obtain ⟨⟨v, dual, d0, iv⟩, rs, n⟩ := ctx
  interval_cases t <;> cases ded <;>
    simp [withFlags, multiplicityOf, isExpandable, Spec.widthOf]

theorem presentSizes_dual (ctx : EncoderContext) (ded : Bool) (reading : SensorReading)
    (tags : List Nat) (htags : ∀ t ∈ tags, t < 27) :
    presentSizes (withFlags ctx true ded) reading tags
      = presentSizes (withFlags ctx false ded) reading tags
          + 2 * (tags.filter (fun t =>
              isFlagSet reading t && isExpandable (withFlags ctx true ded) t)).length := by
  induction tags with
  | nil => simp [presentSizes_nil]
  | cons t rest ih =>
    have ht : t < 27 := htags t (List.mem_cons_self t rest)
    have hstep := dual_step ctx ded t ht
    rw [presentSizes_cons, presentSizes_cons,
      ih (fun u hu => htags u (List.mem_cons_of_mem t hu)), List.filter_cons]
    by_cases hb : isFlagSet reading t = true
    · by_cases he : isExpandable (withFlags ctx true ded) t = true
      · simp only [hb, he, if_true, Bool.and_self, List.length_cons] at hstep ⊢
        omega
      · have he2 : isExpandable (withFlags ctx true ded) t = false := by
          simpa using he
        simp only [hb, he2, if_true, Bool.and_false, Bool.false_eq_true, if_false] at hstep ⊢
        omega
    · have hb2 : isFlagSet reading t = false := by
        simpa using hb
      simp only [hb2, Bool.false_and, Bool.false_eq_true, if_false]
      omega

theorem presentSizes_bits_congr (ctx : EncoderContext) (r1 r2 : SensorReading)
    (tags : List Nat) (hbits : ∀ t ∈ tags, isFlagSet r1 t = isFlagSet r2 t) :
    presentSizes ctx r1 tags = presentSizes ctx r2 tags := by
  induction tags with
  | nil => rw [presentSizes_nil, presentSizes_nil]
  | cons t rest ih =>
    rw [presentSizes_cons, presentSizes_cons,
      ih (fun u hu => hbits u (List.mem_cons_of_mem t hu)),
      hbits t (List.mem_cons_self t rest)]

/-- Claim C40: for every reading, `calculateReadingSize` in dual-channel mode
is its value in single-channel mode plus 2 bytes for each present tag in 0..26
for which `isExpandable` holds; so the dual-mode size is never smaller; and the
size depends only on bits 0..26 of the presence mask and on the two header
flags, not on stored values, mask bits 27-31 or anything else in the state. -/
theorem dual_size_surcharge (ctx : EncoderContext) (ded : Bool) (reading : SensorReading) :
    calculateReadingSize (withFlags ctx true ded) reading
        = calculateReadingSize (withFlags ctx false ded) reading
          + 2 * ((List.range 27).filter (fun t =>
              isFlagSet reading t && isExpandable (withFlags ctx true ded) t)).length
      ∧ calculateReadingSize (withFlags ctx false ded) reading
          ≤ calculateReadingSize (withFlags ctx true ded) reading
      ∧ (∀ (other : EncoderContext) (r2 : SensorReading),
          other.header.dual_mode = ctx.header.dual_mode →
          other.header.dedicated_temphum_sensor = ctx.header.dedicated_temphum_sensor →
          (∀ t, t < 27 → r2.presence_mask.testBit t = reading.presence_mask.testBit t) →
          calculateReadingSize other r2 = calculateReadingSize ctx reading) := by
  have h := presentSizes_dual ctx ded reading (List.range 27) range27_lt
  refine ⟨?_, ?_, ?_⟩
  · rw [calculateReadingSize_eq_fieldOffset, calculateReadingSize_eq_fieldOffset, fieldOffset,
      fieldOffset, h]
    omega
  · rw [calculateReadingSize_eq_fieldOffset, calculateReadingSize_eq_fieldOffset, fieldOffset,
      fieldOffset, h]
    omega
  · intro other r2 hdual hded hbits
    rw [calculateReadingSize_eq_fieldOffset, calculateReadingSize_eq_fieldOffset, fieldOffset,
      fieldOffset,
      presentSizes_header_congr other ctx r2 (List.range 27) range27_lt hdual hded,
      presentSizes_bits_congr ctx r2 reading (List.range 27)
        (fun t ht => by
          have ht27 : t < 27 := List.mem_range.mp ht
          rw [isFlagSet_eq _ _ ht27, isFlagSet_eq _ _ ht27]
          exact hbits t ht27)]

theorem allSizes_congr (ctx1 ctx2 : EncoderContext) (tags : List Nat)
    (htags : ∀ t ∈ tags, t < 27)
    (hdual : ctx1.header.dual_mode = ctx2.header.dual_mode)
    (hded : ctx1.header.dedicated_temphum_sensor = ctx2.header.dedicated_temphum_sensor) :
    (tags.map (fun t => Spec.widthOf t * multiplicityOf ctx1 t)).sum
      = (tags.map (fun t => Spec.widthOf t * multiplicityOf ctx2 t)).sum := by
  induction tags with
  | nil => simp
  | cons t rest ih =>
    have ht : t < 27 := htags t (List.mem_cons_self t rest)
    have hm : multiplicityOf ctx1 t = multiplicityOf ctx2 t := by
      unfold multiplicityOf
      rw [hdual, isExpandable_congr ctx2 ctx1 t ht hded]
    rw [List.map_cons, List.map_cons, List.sum_cons, List.sum_cons,
      ih (fun u hu => htags u (List.mem_cons_of_mem t hu)), hm]

theorem presentSizes_le_all (ctx : EncoderContext) (reading : SensorReading)
    (tags : List Nat) :
    presentSizes ctx reading tags
      ≤ (tags.map (fun t => Spec.widthOf t * multiplicityOf ctx t)).sum := by
  induction tags with
  | nil => simp [presentSizes_nil]
  | cons t rest ih =>
    rw [presentSizes_cons, List.map_cons, List.sum_cons]
    split <;> omega

theorem allSizes_flags (dual ded : Bool) :
    ((List.range 27).map
        (fun t => Spec.widthOf t * multiplicityOf (withFlags construct dual ded) t)).sum
      ≤ (if dual then 89 else 61) := by
  cases dual <;> cases ded <;> decide

theorem presentSizes_le (ctx : EncoderContext) (reading : SensorReading) :
    presentSizes ctx reading (List.range 27)
      ≤ (if ctx.header.dual_mode then 89 else 61) := by
  have h1 := presentSizes_le_all ctx reading (List.range 27)
  have h2 := allSizes_congr ctx
    (withFlags construct ctx.header.dual_mode ctx.header.dedicated_temphum_sensor)
    (List.range 27) range27_lt (Eq.refl _) (Eq.refl _)
  have h3 := allSizes_flags ctx.header.dual_mode ctx.header.dedicated_temphum_sensor
  omega

theorem calculateReadingSize_bounds (ctx : EncoderContext) (reading : SensorReading) :
    4 ≤ calculateReadingSize ctx reading
      ∧ calculateReadingSize ctx reading ≤ (if ctx.header.dual_mode then 93 else 65) := by
  have h := presentSizes_le ctx reading
  rw [calculateReadingSize_eq_fieldOffset, fieldOffset]
  split <;> simp_all <;> omega

theorem readingsBytes_length_bounds (ctx : EncoderContext) (indices : List Nat) :
    4 * indices.length ≤ (Spec.readingsBytes ctx indices).length
      ∧ (Spec.readingsBytes ctx indices).length ≤ 93 * indices.length := by
  induction indices with
  | nil => simp [readingsBytes_nil]
  | cons i rest ih =>
    have h := calculateReadingSize_bounds ctx (ctx.readingAt i)
    rw [calculateReadingSize_eq] at h
    have h93 : (Spec.readingBytes ctx.header (ctx.readingAt i)).length ≤ 93 := by
      have h2 := h.2
      split at h2 <;> omega
    rw [readingsBytes_cons]
    simp only [List.length_append, List.length_cons]
    omega

theorem dual_size_surcharge_witness :
    calculateReadingSize (withFlags mixedCtx true false) mixedReading = 16
      ∧ calculateReadingSize (withFlags mixedCtx false false) mixedReading = 12
      ∧ calculateReadingSize (withFlags mixedCtx true false)
            { mixedReading with presence_mask := mixedReading.presence_mask + 2 ^ 27, co2 := 1 }
          = calculateReadingSize mixedCtx mixedReading :=
  ⟨by decide, by decide,
    (dual_size_surcharge mixedCtx false mixedReading).2.2 (withFlags mixedCtx true false)
      { mixedReading with presence_mask := mixedReading.presence_mask + 2 ^ 27, co2 := 1 }
      rfl rfl (by decide)⟩

/-- Claim C39: for every reading and header, `calculateReadingSize` is at least
4 and at most 93, and at most 65 when `dual_mode` is off; hence for every state
with at most 20 readings `calculateTotalSize()` is at most 1862 and equals the
exact (unbounded) sum 2 + the reading sizes, so no 32-bit addition wraps; the
value returned by `encode` is -1, 0, or between 6 and 1862; and a buffer of
1862 bytes is always sufficient. -/
theorem size_bounds (ctx : EncoderContext) (reading : SensorReading) :
    (4 ≤ calculateReadingSize ctx reading ∧ calculateReadingSize ctx reading ≤ 93
        ∧ (ctx.header.dual_mode = false → calculateReadingSize ctx reading ≤ 65)
        ∧ calculateReadingSize ctx reading
            = 4 + (((List.range 27).filter (fun t => isFlagSet reading t)).map
                (fun t => Spec.widthOf t * multiplicityOf ctx t)).sum)
      ∧ (ctx.reading_count ≤ MAX_BATCH_SIZE →
          calculateTotalSize ctx ≤ 1862
            ∧ calculateTotalSize ctx
                = 2 + ((List.range ctx.reading_count).map
                    (fun i => calculateReadingSize ctx (ctx.readingAt i))).sum
            ∧ (∀ (buffer : Option Buffer) (cap : Nat), cap < 4294967296 →
                (encode ctx buffer cap).ret = -1 ∨ (encode ctx buffer cap).ret = 0
                  ∨ (6 ≤ (encode ctx buffer cap).ret ∧ (encode ctx buffer cap).ret ≤ 1862))
            ∧ (∀ mem : Buffer, 0 ≤ (encode ctx (some mem) 1862).ret)) := by
  have hb := calculateReadingSize_bounds ctx reading
  refine ⟨⟨hb.1, ?_, ?_, ?_⟩, ?_⟩
  · have h2 := hb.2
    split at h2 <;> omega
  · intro hs
    have h2 := hb.2
    rw [hs] at h2
    simpa using h2
  · rw [calculateReadingSize_eq_fieldOffset]
    rfl
  · intro hcount
    have hc : ctx.reading_count ≤ 20 := hcount
    have hlen := calculateTotalSize_eq ctx (by omega)
    have hpl := payload_length ctx
    have hrb := readingsBytes_length_bounds ctx (List.range ctx.reading_count)
    simp only [List.length_range] at hrb
    refine ⟨by omega, ?_, ?_, ?_⟩
    · rw [hlen, hpl, sum_sizes_eq]
    · intro buffer cap hcap
      cases buffer with
      | none => exact Or.inl rfl
      | some mem =>
        rw [encode_spec ctx mem cap hcount hcap]
        by_cases h0 : ctx.reading_count = 0
        · rw [if_pos h0]
          exact Or.inr (Or.inl rfl)
        · rw [if_neg h0]
          by_cases hsmall : cap < (Spec.payload ctx).length
          · rw [if_pos hsmall]
            exact Or.inl rfl
          · rw [if_neg hsmall]
            refine Or.inr (Or.inr ⟨?_, ?_⟩)
            · show (6 : Int) ≤ ((Spec.payload ctx).length : Int)
              omega
            · show ((Spec.payload ctx).length : Int) ≤ 1862
              omega
    · intro mem
      rw [encode_spec ctx mem 1862 hcount (by norm_num)]
      by_cases h0 : ctx.reading_count = 0
      · rw [if_pos h0]
      · rw [if_neg h0, if_neg (by omega)]
        show (0 : Int) ≤ ((Spec.payload ctx).length : Int)
        omega

theorem size_bounds_witness :
    (fullCtx.reading_count ≤ MAX_BATCH_SIZE ∧ fullCtx.reading_count = 20)
      ∧ calculateTotalSize fullCtx ≤ 1862
      ∧ 0 ≤ (encode fullCtx (some demoMem) 1862).ret
      ∧ calculateReadingSize allDualCtx
          { zeroReading with presence_mask := 0x07FFFFFF } = 93 :=
  ⟨⟨by decide, rfl⟩,
    ((size_bounds fullCtx demoReading).2 (by decide)).1,
    ((size_bounds fullCtx demoReading).2 (by decide)).2.2.2 demoMem,
    by decide⟩

/-! ## Claims about the presence-mask helpers -/

theorem FLAG_BIT_eq (flag : Nat) (h : flag < 32) : FLAG_BIT flag = 2 ^ flag := by
  have hp : 2 ^ flag < 4294967296 := by
    have h32 : 2 ^ flag < 2 ^ 32 := Nat.pow_lt_pow_right (by norm_num) h
    simpa using h32
  unfold FLAG_BIT
  rw [Nat.one_shiftLeft, Nat.mod_eq_of_lt hp]

theorem testBit_high (mask i : Nat) (hmask : mask < 4294967296) (hi : 32 ≤ i) :
    mask.testBit i = false := by
  apply Nat.testBit_lt_two_pow
  calc mask < 2 ^ 32 := by simpa using hmask
    _ ≤ 2 ^ i := Nat.pow_le_pow_right (by norm_num) hi

theorem setFlag_testBit (reading : SensorReading) (f i : Nat) (hf : f < 32) :
    (setFlag reading f).presence_mask.testBit i
      = (decide (i = f) || reading.presence_mask.testBit i) := by
  simp only [setFlag, FLAG_BIT_eq f hf, Nat.testBit_or, Nat.testBit_two_pow]
  by_cases h : f = i
  · subst h
    simp
  · have h2 : ¬ i = f := fun e => h e.symm
    simp [h, h2]

theorem clearFlag_testBit (reading : SensorReading) (f i : Nat) (hf : f < 32)
    (hmask : reading.presence_mask < 4294967296) :
    (clearFlag reading f).presence_mask.testBit i
      = (!decide (i = f) && reading.presence_mask.testBit i) := by
  have e : (4294967295 : Nat) = 2 ^ 32 - 1 := by norm_num
  simp only [clearFlag, FLAG_BIT_eq f hf, Nat.testBit_and, Nat.testBit_xor, e,
    Nat.testBit_two_pow_sub_one, Nat.testBit_two_pow]
  by_cases h32 : i < 32
  · by_cases h : f = i
    · subst h
      simp [h32]
    · have h2 : ¬ i = f := fun e => h e.symm
      simp [h, h2, h32]
  · rw [testBit_high _ i hmask (by omega)]
    simp

theorem applyFlagCall_lt (reading : SensorReading) (call : FlagCall)
    (hcall : call.flag ≤ 26) (hmask : reading.presence_mask < 2 ^ 27) :
    (applyFlagCall reading call).presence_mask < 2 ^ 27 := by
  cases call with
  | setCall f =>
    have hf : f ≤ 26 := hcall
    have hbit : FLAG_BIT f < 2 ^ 27 := by
      rw [FLAG_BIT_eq f (by omega)]
      exact Nat.pow_lt_pow_right (by norm_num) (by omega)
    exact Nat.or_lt_two_pow hmask hbit
  | clearCall f =>
    exact Nat.lt_of_le_of_lt Nat.and_le_left hmask

theorem applyFlagCalls_lt (calls : List FlagCall) (reading : SensorReading)
    (hcalls : ∀ c ∈ calls, c.flag ≤ 26) (hmask : reading.presence_mask < 2 ^ 27) :
    (applyFlagCalls calls reading).presence_mask < 2 ^ 27 := by
  induction calls generalizing reading with
  | nil => exact hmask
  | cons c rest ih =>
    exact ih (applyFlagCall reading c)
      (fun d hd => hcalls d (List.mem_cons_of_mem c hd))
      (applyFlagCall_lt reading c (hcalls c (List.mem_cons_self c rest)) hmask)

/-- Claim C35: for every reading (with a 32-bit mask) and every tag `f` in
0..26, `setFlag` sets bit `f` of the presence mask and changes no other bit,
`clearFlag` clears bit `f` and changes no other bit, `isFlagSet` is true
exactly when bit `f` is set, and `initSensorReading` yields mask 0; so every
mask built from `initSensorReading` by any sequence of `setFlag` and
`clearFlag` calls with tags 0..26 is below `2 ^ 27`: bits 27-31 are zero. -/
theorem flag_helpers (reading : SensorReading) (f : Nat) (hf : f ≤ 26)
    (hmask : reading.presence_mask < 4294967296) :
    (∀ i, (setFlag reading f).presence_mask.testBit i
        = (decide (i = f) || reading.presence_mask.testBit i))
      ∧ (∀ i, (clearFlag reading f).presence_mask.testBit i
        = (!decide (i = f) && reading.presence_mask.testBit i))
      ∧ isFlagSet reading f = reading.presence_mask.testBit f
      ∧ (initSensorReading reading).presence_mask = 0
      ∧ (∀ calls : List FlagCall, (∀ c ∈ calls, c.flag ≤ 26) →
          (applyFlagCalls calls (initSensorReading reading)).presence_mask < 2 ^ 27
            ∧ ∀ b, 27 ≤ b →
                (applyFlagCalls calls (initSensorReading reading)).presence_mask.testBit b
                  = false) := by
  refine ⟨fun i => setFlag_testBit reading f i (by omega),
    fun i => clearFlag_testBit reading f i (by omega) hmask,
    isFlagSet_eq reading f (by omega), rfl, ?_⟩
  intro calls hcalls
  have hlt := applyFlagCalls_lt calls (initSensorReading reading) hcalls
    (by show (0 : Nat) < 2 ^ 27; norm_num)
  refine ⟨hlt, ?_⟩
  intro b hb
  apply Nat.testBit_lt_two_pow
  exact Nat.lt_of_lt_of_le hlt (Nat.pow_le_pow_right (by norm_num) hb)

theorem flag_helpers_witness :
    (FLAG_CO2 ≤ 26 ∧ demoReading.presence_mask = 5)
      ∧ (setFlag demoReading FLAG_HUM).presence_mask = 7
      ∧ (clearFlag demoReading FLAG_CO2).presence_mask = 1
      ∧ isFlagSet demoReading FLAG_CO2 = demoReading.presence_mask.testBit FLAG_CO2
      ∧ (applyFlagCalls
            [FlagCall.setCall FLAG_SIGNAL, FlagCall.setCall FLAG_TEMP,
              FlagCall.clearCall FLAG_TEMP]
            (initSensorReading demoReading)).presence_mask < 2 ^ 27 :=
  ⟨⟨by decide, by decide⟩, by decide, by decide,
    (flag_helpers demoReading FLAG_CO2 (by decide) (by decide)).2.2.1,
    ((flag_helpers demoReading FLAG_CO2 (by decide) (by decide)).2.2.2.2
      [FlagCall.setCall FLAG_SIGNAL, FlagCall.setCall FLAG_TEMP, FlagCall.clearCall FLAG_TEMP]
      (by decide)).1⟩

/-! ## Claims about appending a reading and about the calls made by `encode` -/

theorem addReading_state (ctx : EncoderContext) (reading : SensorReading)
    (hroom : ctx.reading_count < 20) :
    (addReading ctx reading).2.header = ctx.header
      ∧ (addReading ctx reading).2.reading_count = ctx.reading_count + 1
      ∧ (addReading ctx reading).2.readingAt ctx.reading_count = reading
      ∧ ∀ i, i < ctx.reading_count →
          (addReading ctx reading).2.readingAt i = ctx.readingAt i := by
  have h : ¬ ctx.reading_count ≥ MAX_BATCH_SIZE := by
    show ¬ 20 ≤ ctx.reading_count
    omega
  unfold addReading
  rw [if_neg h]
  refine ⟨rfl, ?_, ?_, ?_⟩
  · show (ctx.reading_count + 1) % 256 = ctx.reading_count + 1
    omega
  · have hlt : ctx.reading_count < MAX_BATCH_SIZE := hroom
    simp [EncoderContext.readingAt, hlt]
  · intro i hi
    have hlt : i < MAX_BATCH_SIZE := by
      show i < 20
      omega
    have hne : i ≠ ctx.reading_count := by omega
    simp [EncoderContext.readingAt, hlt, hne]

theorem payload_addReading (ctx : EncoderContext) (reading : SensorReading)
    (hroom : ctx.reading_count < 20) :
    Spec.payload (addReading ctx reading).2
      = Spec.payload ctx ++ Spec.readingBytes ctx.header reading := by
  obtain ⟨hh, hn, hlast, hprev⟩ := addReading_state ctx reading hroom
  have hrb : Spec.readingsBytes (addReading ctx reading).2 (List.range ctx.reading_count)
      = Spec.readingsBytes ctx (List.range ctx.reading_count) := by
    apply readingsBytes_congr
    intro i hi
    rw [hh, hprev i (List.mem_range.mp hi)]
  unfold Spec.payload
  rw [encodeMetadata_congr _ ctx hh, hn, List.range_succ, readingsBytes_append, hrb,
    readingsBytes_cons, readingsBytes_nil, hh, hlast]
  simp only [List.append_assoc, List.append_nil]

/-- Claim C37: for every encoder state `s` with 1 to 19 readings whose encoding
is the byte sequence `B`, and every reading `r`, after `addReading(r)` the
encoding is `B` followed by the 4 little-endian mask bytes of `r` and the field
bytes of `r`, and `calculateTotalSize()` grows by exactly
`calculateReadingSize(r)`; when `s` has 0 readings the encoding goes from
empty (`encode` returns 0) to the 2 header bytes followed by the bytes of `r`. -/
theorem addReading_extends_encoding (ctx : EncoderContext) (reading : SensorReading)
    (mem1 mem2 : Buffer) (cap1 cap2 : Nat)
    (hroom : ctx.reading_count ≤ 19)
    (hcap1 : cap1 < 4294967296) (hfit1 : calculateTotalSize ctx ≤ cap1)
    (hcap2 : cap2 < 4294967296)
    (hfit2 : calculateTotalSize (addReading ctx reading).2 ≤ cap2) :
    calculateTotalSize (addReading ctx reading).2
        = calculateTotalSize ctx + calculateReadingSize ctx reading
      ∧ (1 ≤ ctx.reading_count →
          firstBytes (encode (addReading ctx reading).2 (some mem2) cap2).buffer
              (calculateTotalSize (addReading ctx reading).2)
            = firstBytes (encode ctx (some mem1) cap1).buffer (calculateTotalSize ctx)
                ++ (Spec.littleEndian 4 (reading.presence_mask : Int)
                    ++ Spec.fieldsBytes ctx.header reading (List.range 27)))
      ∧ (ctx.reading_count = 0 →
          (encode ctx (some mem1) cap1).ret = 0
            ∧ firstBytes (encode (addReading ctx reading).2 (some mem2) cap2).buffer
                (calculateTotalSize (addReading ctx reading).2)
              = [encodeMetadata ctx, ctx.header.interval_minutes]
                  ++ (Spec.littleEndian 4 (reading.presence_mask : Int)
                      ++ Spec.fieldsBytes ctx.header reading (List.range 27))) := by
  obtain ⟨hh, hn, hlast, hprev⟩ := addReading_state ctx reading (by omega)
  have hp := payload_addReading ctx reading (by omega)
  have hcount : ctx.reading_count ≤ MAX_BATCH_SIZE := by
    show ctx.reading_count ≤ 20
    omega
  have hcount2 : (addReading ctx reading).2.reading_count ≤ MAX_BATCH_SIZE := by
    rw [hn]
    show ctx.reading_count + 1 ≤ 20
    omega
  have hlen1 := calculateTotalSize_eq ctx (by omega)
  have hlen2 := calculateTotalSize_eq (addReading ctx reading).2 (by rw [hn]; omega)
  have hnew : firstBytes (encode (addReading ctx reading).2 (some mem2) cap2).buffer
      (calculateTotalSize (addReading ctx reading).2)
      = Spec.payload ctx ++ Spec.readingBytes ctx.header reading := by
    rw [encode_ok _ mem2 cap2 (by rw [hn]; omega) hcount2 hcap2 hfit2, hlen2]
    simp only [firstBytes]
    rw [map_blit_range, hp]
  refine ⟨?_, ?_, ?_⟩
  · rw [hlen1, hlen2, hp, List.length_append, calculateReadingSize_eq]
  · intro hpos
    rw [hnew, encode_ok ctx mem1 cap1 hpos hcount hcap1 hfit1, hlen1]
    simp only [firstBytes]
    rw [map_blit_range]
    rfl
  · intro h0
    refine ⟨?_, ?_⟩
    · rw [encode_spec ctx mem1 cap1 hcount hcap1, if_pos h0]
    · rw [hnew]
      unfold Spec.payload
      rw [h0, List.range_zero, readingsBytes_nil, List.append_nil]
      rfl

theorem addReading_extends_encoding_witness :
    (demoCtx.reading_count ≤ 19 ∧ demoCtx.reading_count = 1)
      ∧ calculateTotalSize (addReading demoCtx mixedReading).2
          = calculateTotalSize demoCtx + calculateReadingSize demoCtx mixedReading
      ∧ firstBytes (encode (addReading demoCtx mixedReading).2 (some demoMem) 64).buffer 22
          = [0x01, 0x05, 0x05, 0x00, 0x00, 0x00, 0xC4, 0x09, 0x9C, 0x01, 0x0F, 0x00, 0x00,
              0x00, 0xC4, 0x09, 0x70, 0x17, 0xC2, 0x01, 0x64, 0x00] :=
  ⟨⟨by decide, rfl⟩,
    (addReading_extends_encoding demoCtx mixedReading demoMem demoMem 64 64 (by decide)
      (by decide) (by decide) (by decide) (by decide)).1,
    by decide⟩

theorem encodeLoopCalls_ok (ctx : EncoderContext) (cap : Nat) (indices : List Nat)
    (offset : Nat) (buffer : Buffer)
    (hfit : offset + (Spec.readingsBytes ctx indices).length ≤ cap)
    (hcap : cap < 4294967296) :
    (encodeLoopCalls ctx cap indices offset buffer).length = indices.length
      ∧ ∀ call ∈ encodeLoopCalls ctx cap indices offset buffer,
          0 ≤ call.2.2 ∧ call.1 + call.2.1 = cap ∧ call.2.2 ≤ (call.2.1 : Int) := by
  induction indices generalizing offset buffer with
  | nil => simp [encodeLoopCalls]
  | cons i rest ih =>
    have hle := fieldsBytes_length_le ctx.header (ctx.readingAt i) (List.range 27) range27_lt
    simp only [List.length_range] at hle
    rw [readingsBytes_cons] at hfit
    simp only [List.length_append, readingBytes_length] at hfit
    simp only [encodeLoopCalls]
    rw [add32_small _ _ (by omega), sub32_small _ _ (by omega) hcap,
      encodeSensorData_ok ctx _ _ _ _ (by omega) (by omega)]
    simp only
    rw [if_neg (by omega), u32_small _ (by omega), add32_small _ _ (by omega)]
    have hrec := ih (offset + 4
        + (Spec.fieldsBytes ctx.header (ctx.readingAt i) (List.range 27)).length)
      (blit (encodePresenceMask buffer offset (ctx.readingAt i).presence_mask) (offset + 4)
        (Spec.fieldsBytes ctx.header (ctx.readingAt i) (List.range 27))) (by omega)
    refine ⟨?_, ?_⟩
    · rw [List.length_cons, hrec.1, List.length_cons]
    · intro call hcall
      rcases List.mem_cons.mp hcall with hhead | htail
      · subst hhead
        refine ⟨?_, ?_, ?_⟩
        · show (0 : Int)
            ≤ ((Spec.fieldsBytes ctx.header (ctx.readingAt i) (List.range 27)).length : Int)
          omega
        · show offset + 4 + (cap - (offset + 4)) = cap
          omega
        · show ((Spec.fieldsBytes ctx.header (ctx.readingAt i) (List.range 27)).length : Int)
            ≤ ((cap - (offset + 4) : Nat) : Int)
          omega
      · exact hrec.2 call htail

/-- Claim C34: for every encoder state with at least one reading (at most 20)
and every non-null buffer whose capacity is at least `calculateTotalSize()`,
no bounds check inside `encodeSensorData` fails during `encode`: `encode` makes
one call of `encodeSensorData` per reading, each returns a non-negative value
that fits the capacity it was handed (which ends at the capacity of the
buffer), so the mid-encode -1 branch is not taken, and no byte at an index at
or above the capacity is changed. -/
theorem encode_checks_never_fail (ctx : EncoderContext) (mem : Buffer) (cap : Nat)
    (hpos : 1 ≤ ctx.reading_count) (hcount : ctx.reading_count ≤ MAX_BATCH_SIZE)
    (hcap : cap < 4294967296) (hfit : calculateTotalSize ctx ≤ cap) :
    (encodeCalls ctx mem cap).length = ctx.reading_count
      ∧ (∀ call ∈ encodeCalls ctx mem cap,
          0 ≤ call.2.2 ∧ call.1 + call.2.1 = cap ∧ call.2.2 ≤ (call.2.1 : Int))
      ∧ (encode ctx (some mem) cap).ret ≠ -1
      ∧ ∃ out, (encode ctx (some mem) cap).buffer = some out
          ∧ ∀ j, cap ≤ j → out j = mem j := by
  have hc : ctx.reading_count ≤ 20 := hcount
  have hlen := calculateTotalSize_eq ctx (by omega)
  have hpl := payload_length ctx
  have hcalls := encodeLoopCalls_ok ctx cap (List.range ctx.reading_count) 2
    (writeByte (writeByte mem 0 (encodeMetadata ctx)) 1 ctx.header.interval_minutes)
    (by omega) hcap
  rw [List.length_range] at hcalls
  refine ⟨hcalls.1, hcalls.2, ?_, ?_⟩
  · rw [encode_ok ctx mem cap hpos hcount hcap hfit]
    show ((Spec.payload ctx).length : Int) ≠ -1
    omega
  · refine ⟨blit mem 0 (Spec.payload ctx), ?_, ?_⟩
    · rw [encode_ok ctx mem cap hpos hcount hcap hfit]
    · intro j hj
      exact blit_above mem 0 (Spec.payload ctx) j (by omega)

theorem encode_checks_never_fail_witness :
    (1 ≤ co2Batch.reading_count ∧ calculateTotalSize co2Batch ≤ 20)
      ∧ (encodeCalls co2Batch demoMem 20).length = co2Batch.reading_count
      ∧ encodeCalls co2Batch demoMem 20 = [(6, 14, 2), (12, 8, 2), (18, 2, 2)]
      ∧ (encode co2Batch (some demoMem) 20).ret ≠ -1 :=
  ⟨⟨by decide, by decide⟩,
    (encode_checks_never_fail co2Batch demoMem 20 (by decide) (by decide) (by decide)
      (by decide)).1,
    by decide,
    (encode_checks_never_fail co2Batch demoMem 20 (by decide) (by decide) (by decide)
      (by decide)).2.2.1⟩

/-! ## Claims about decoding -/

theorem littleEndian_one_inj (v1 v2 : Int)
    (h : Spec.littleEndian 1 v1 = Spec.littleEndian 1 v2) : v1 % 256 = v2 % 256 := by
  simp only [Spec.littleEndian, List.range_succ, List.range_zero, List.nil_append,
    List.map_cons, List.map_nil, List.cons.injEq, and_true, pow_zero] at h
  omega

theorem littleEndian_two_inj (v1 v2 : Int)
    (h : Spec.littleEndian 2 v1 = Spec.littleEndian 2 v2) : v1 % 65536 = v2 % 65536 := by
  rw [littleEndian_two, littleEndian_two] at h
  simp only [List.cons.injEq, and_true] at h
  omega

theorem littleEndian_four (value : Int) :
    Spec.littleEndian 4 value
      = [(value % 256).toNat, (value / 256 % 256).toNat, (value / 65536 % 256).toNat,
          (value / 16777216 % 256).toNat] := by
  simp [Spec.littleEndian, List.range_succ]

theorem littleEndian_four_inj (v1 v2 : Int)
    (h : Spec.littleEndian 4 v1 = Spec.littleEndian 4 v2) :
    v1 % 4294967296 = v2 % 4294967296 := by
  rw [littleEndian_four, littleEndian_four] at h
  simp only [List.cons.injEq, and_true] at h
  omega

theorem slot_decode (t : Nat) (v1 v2 : Int)
    (hr1 : slotInRange t v1 = true) (hr2 : slotInRange t v2 = true)
    (h : Spec.littleEndian (Spec.widthOf t) v1 = Spec.littleEndian (Spec.widthOf t) v2) :
    v1 = v2 := by
  unfold slotInRange at hr1 hr2
  unfold Spec.widthOf at h
  by_cases h0 : t = 0
  · have h26 : ¬ t = 26 := by omega
    have h21 : ¬ (21 ≤ t ∧ t ≤ 24) := by omega
    rw [if_pos h0] at hr1 hr2
    rw [if_neg h26, if_neg h21] at h
    simp only [Bool.and_eq_true, decide_eq_true_eq] at hr1 hr2
    have hm := littleEndian_two_inj v1 v2 h
    omega
  · by_cases h26 : t = 26
    · rw [if_neg h0, if_pos h26] at hr1 hr2
      rw [if_pos h26] at h
      simp only [Bool.and_eq_true, decide_eq_true_eq] at hr1 hr2
      have hm := littleEndian_one_inj v1 v2 h
      omega
    · by_cases h21 : 21 ≤ t ∧ t ≤ 24
      · rw [if_neg h0, if_neg h26, if_pos h21] at hr1 hr2
        rw [if_neg h26, if_pos h21] at h
        simp only [Bool.and_eq_true, decide_eq_true_eq] at hr1 hr2
        have hm := littleEndian_four_inj v1 v2 h
        omega
      · rw [if_neg h0, if_neg h26, if_neg h21] at hr1 hr2
        rw [if_neg h26, if_neg h21] at h
        simp only [Bool.and_eq_true, decide_eq_true_eq] at hr1 hr2
        have hm := littleEndian_two_inj v1 v2 h
        omega

theorem readingInRange_mask (reading : SensorReading) (h : readingInRange reading = true) :
    reading.presence_mask < 4294967296 := by
  unfold readingInRange at h
  simp only [Bool.and_eq_true, decide_eq_true_eq] at h
  exact h.1

theorem readingInRange_slot (reading : SensorReading) (h : readingInRange reading = true)
    (t : Nat) (ht : t < 27) :
    slotInRange t (Spec.slotValue reading t 0) = true
      ∧ slotInRange t (Spec.slotValue reading t 1) = true := by
  unfold readingInRange at h
  simp only [Bool.and_eq_true, decide_eq_true_eq, List.all_eq_true] at h
  exact h.2 t (List.mem_range.mpr ht)

theorem fieldBytes_decode (header : PayloadHeader) (r1 r2 : SensorReading) (t : Nat)
    (ht : t < 27) (h1 : readingInRange r1 = true) (h2 : readingInRange r2 = true)
    (h : Spec.fieldBytes header r1 t = Spec.fieldBytes header r2 t) :
    Spec.slotValue r1 t 0 = Spec.slotValue r2 t 0
      ∧ (Spec.multiplicity header t = 2 →
          Spec.slotValue r1 t 1 = Spec.slotValue r2 t 1) := by
  have hs1 := readingInRange_slot r1 h1 t ht
  have hs2 := readingInRange_slot r2 h2 t ht
  by_cases hm : Spec.multiplicity header t = 2
  · rw [fieldBytes_two header r1 t hm, fieldBytes_two header r2 t hm] at h
    have hinj := List.append_inj h (by rw [littleEndian_length, littleEndian_length])
    exact ⟨slot_decode t _ _ hs1.1 hs2.1 hinj.1, fun _ => slot_decode t _ _ hs1.2 hs2.2 hinj.2⟩
  · have hm1 : Spec.multiplicity header t = 1 := by
      unfold Spec.multiplicity at hm ⊢
      split <;> simp_all
    rw [fieldBytes_one header r1 t hm1, fieldBytes_one header r2 t hm1] at h
    exact ⟨slot_decode t _ _ hs1.1 hs2.1 h, fun h2 => absurd h2 hm⟩

theorem fieldsBytes_length_mask (header : PayloadHeader) (r1 r2 : SensorReading)
    (tags : List Nat) (hmask : r1.presence_mask = r2.presence_mask) :
    (Spec.fieldsBytes header r1 tags).length = (Spec.fieldsBytes header r2 tags).length := by
  induction tags with
  | nil => rw [fieldsBytes_nil, fieldsBytes_nil]
  | cons t rest ih =>
    rw [fieldsBytes_cons, fieldsBytes_cons, ← hmask]
    split
    · rw [List.length_append, List.length_append, fieldBytes_length, fieldBytes_length, ih]
    · exact ih

theorem fieldsBytes_decode (header : PayloadHeader) (r1 r2 : SensorReading)
    (tags : List Nat) (hmask : r1.presence_mask = r2.presence_mask)
    (h : Spec.fieldsBytes header r1 tags = Spec.fieldsBytes header r2 tags) :
    ∀ t ∈ tags, r1.presence_mask.testBit t = true →
      Spec.fieldBytes header r1 t = Spec.fieldBytes header r2 t := by
  induction tags with
  | nil =>
    intro t ht
    exact absurd ht (List.not_mem_nil t)
  | cons u rest ih =>
    rw [fieldsBytes_cons, fieldsBytes_cons, ← hmask] at h
    by_cases hb : r1.presence_mask.testBit u = true
    · rw [if_pos hb, if_pos hb] at h
      have hinj := List.append_inj h (by rw [fieldBytes_length, fieldBytes_length])
      intro t ht hbt
      rcases List.mem_cons.mp ht with hhead | htail
      · rw [hhead]
        exact hinj.1
      · exact ih hinj.2 t htail hbt
    · rw [if_neg hb, if_neg hb] at h
      intro t ht hbt
      rcases List.mem_cons.mp ht with hhead | htail
      · rw [hhead] at hbt
        exact absurd hbt hb
      · exact ih h t htail hbt

theorem littleEndian_mask_inj (m1 m2 : Nat) (h1 : m1 < 4294967296) (h2 : m2 < 4294967296)
    (h : Spec.littleEndian 4 (m1 : Int) = Spec.littleEndian 4 (m2 : Int)) : m1 = m2 := by
  have hm := littleEndian_four_inj _ _ h
  omega

theorem readingBytes_decode (header : PayloadHeader) (r1 r2 : SensorReading)
    (rest1 rest2 : List Nat)
    (h1 : readingInRange r1 = true) (h2 : readingInRange r2 = true)
    (h : Spec.readingBytes header r1 ++ rest1 = Spec.readingBytes header r2 ++ rest2) :
    slotsAgree header r1 r2 ∧ rest1 = rest2 := by
  unfold Spec.readingBytes at h
  rw [List.append_assoc, List.append_assoc] at h
  have hinj := List.append_inj h (by rw [littleEndian_length, littleEndian_length])
  have hmask := littleEndian_mask_inj _ _ (readingInRange_mask r1 h1)
    (readingInRange_mask r2 h2) hinj.1
  have hinj2 := List.append_inj hinj.2
    (fieldsBytes_length_mask header r1 r2 (List.range 27) hmask)
  have hdec := fieldsBytes_decode header r1 r2 (List.range 27) hmask hinj2.1
  refine ⟨⟨hmask, ?_⟩, hinj2.2⟩
  intro t ht hb
  exact fieldBytes_decode header r1 r2 t ht h1 h2 (hdec t (List.mem_range.mpr ht) hb)

theorem readingBytes_length_ge (header : PayloadHeader) (reading : SensorReading) :
    4 ≤ (Spec.readingBytes header reading).length := by
  rw [readingBytes_length]
  omega

theorem readings_decode (header : PayloadHeader) (l1 l2 : List SensorReading)
    (h1 : ∀ r ∈ l1, readingInRange r = true) (h2 : ∀ r ∈ l2, readingInRange r = true)
    (h : l1.flatMap (Spec.readingBytes header) = l2.flatMap (Spec.readingBytes header)) :
    List.Forall₂ (slotsAgree header) l1 l2 := by
  induction l1 generalizing l2 with
  | nil =>
    cases l2 with
    | nil => exact List.Forall₂.nil
    | cons r2 t2 =>
      have hlen := congrArg List.length h
      have hge := readingBytes_length_ge header r2
      simp only [List.flatMap_nil, List.flatMap_cons, List.length_nil, List.length_append]
        at hlen
      omega
  | cons r1 t1 ih =>
    cases l2 with
    | nil =>
      have hlen := congrArg List.length h
      have hge := readingBytes_length_ge header r1
      simp only [List.flatMap_nil, List.flatMap_cons, List.length_nil, List.length_append]
        at hlen
      omega
    | cons r2 t2 =>
      rw [List.flatMap_cons, List.flatMap_cons] at h
      have hd := readingBytes_decode header r1 r2 _ _
        (h1 r1 (List.mem_cons_self r1 t1)) (h2 r2 (List.mem_cons_self r2 t2)) h
      exact List.Forall₂.cons hd.1
        (ih t2 (fun r hr => h1 r (List.mem_cons_of_mem r1 hr))
          (fun r hr => h2 r (List.mem_cons_of_mem r2 hr)) hd.2)

theorem fieldBytes_flags_congr (h1 h2 : PayloadHeader) (reading : SensorReading) (t : Nat)
    (hdual : h1.dual_mode = h2.dual_mode)
    (hded : h1.dedicated_temphum_sensor = h2.dedicated_temphum_sensor) :
    Spec.fieldBytes h1 reading t = Spec.fieldBytes h2 reading t := by
  have hm : Spec.multiplicity h1 t = Spec.multiplicity h2 t := by
    unfold Spec.multiplicity
    rw [hdual, hded]
  unfold Spec.fieldBytes
  rw [hm]

theorem readingBytes_flags_congr (h1 h2 : PayloadHeader) (reading : SensorReading)
    (hdual : h1.dual_mode = h2.dual_mode)
    (hded : h1.dedicated_temphum_sensor = h2.dedicated_temphum_sensor) :
    Spec.readingBytes h1 reading = Spec.readingBytes h2 reading := by
  unfold Spec.readingBytes
  congr 1
  apply fieldsBytes_congr h1 h2 reading reading (List.range 27) (Eq.refl _)
  intro t _ _
  exact fieldBytes_flags_congr h1 h2 reading t hdual hded

theorem readingsBytes_eq_flatMap (ctx : EncoderContext) (header : PayloadHeader)
    (indices : List Nat)
    (hdual : ctx.header.dual_mode = header.dual_mode)
    (hded : ctx.header.dedicated_temphum_sensor = header.dedicated_temphum_sensor) :
    Spec.readingsBytes ctx indices
      = (indices.map ctx.readingAt).flatMap (Spec.readingBytes header) := by
  induction indices with
  | nil => rw [readingsBytes_nil, List.map_nil, List.flatMap_nil]
  | cons i rest ih =>
    rw [readingsBytes_cons, List.map_cons, List.flatMap_cons, ih,
      readingBytes_flags_congr ctx.header header _ hdual hded]

theorem metadata_decode (ctx1 ctx2 : EncoderContext)
    (h : encodeMetadata ctx1 = encodeMetadata ctx2) :
    ctx1.header.version % 8 = ctx2.header.version % 8
      ∧ ctx1.header.dual_mode = ctx2.header.dual_mode
      ∧ ctx1.header.dedicated_temphum_sensor = ctx2.header.dedicated_temphum_sensor := by
  rw [encodeMetadata_eq, encodeMetadata_eq] at h
  have hv1 : ctx1.header.version % 8 < 8 := Nat.mod_lt _ (by norm_num)
  have hv2 : ctx2.header.version % 8 < 8 := Nat.mod_lt _ (by norm_num)
  cases hd1 : ctx1.header.dual_mode <;> cases hd2 : ctx2.header.dual_mode <;>
    cases he1 : ctx1.header.dedicated_temphum_sensor <;>
    cases he2 : ctx2.header.dedicated_temphum_sensor <;>
    simp only [hd1, hd2, he1, he2, if_true, if_false, Bool.false_eq_true] at h <;>
    first
      | exact ⟨by omega, rfl, rfl⟩
      | (exfalso; omega)

/-- Claim C38: the encoding is uniquely decodable: for any two encoder states
that each hold at least one reading (at most 20) with values in the range of
their C types, if their successful encodings are the same byte sequence then
they have the same version mod 8, `dual_mode` flag, dedicated flag and
interval, the same reading count, and corresponding readings have the same
presence mask and the same value in every emitted slot. -/
theorem encoding_uniquely_decodable (ctx1 ctx2 : EncoderContext) (mem1 mem2 : Buffer)
    (cap1 cap2 : Nat)
    (hpos1 : 1 ≤ ctx1.reading_count) (hcount1 : ctx1.reading_count ≤ MAX_BATCH_SIZE)
    (hcap1 : cap1 < 4294967296) (hfit1 : calculateTotalSize ctx1 ≤ cap1)
    (hpos2 : 1 ≤ ctx2.reading_count) (hcount2 : ctx2.reading_count ≤ MAX_BATCH_SIZE)
    (hcap2 : cap2 < 4294967296) (hfit2 : calculateTotalSize ctx2 ≤ cap2)
    (hr1 : ∀ i, i < ctx1.reading_count → readingInRange (ctx1.readingAt i) = true)
    (hr2 : ∀ i, i < ctx2.reading_count → readingInRange (ctx2.readingAt i) = true)
    (hsame : firstBytes (encode ctx1 (some mem1) cap1).buffer (calculateTotalSize ctx1)
      = firstBytes (encode ctx2 (some mem2) cap2).buffer (calculateTotalSize ctx2)) :
    ctx1.header.version % 8 = ctx2.header.version % 8
      ∧ ctx1.header.dual_mode = ctx2.header.dual_mode
      ∧ ctx1.header.dedicated_temphum_sensor = ctx2.header.dedicated_temphum_sensor
      ∧ ctx1.header.interval_minutes = ctx2.header.interval_minutes
      ∧ ctx1.reading_count = ctx2.reading_count
      ∧ ∀ i, i < ctx1.reading_count →
          (ctx1.readingAt i).presence_mask = (ctx2.readingAt i).presence_mask
            ∧ ∀ t, t < 27 → isFlagSet (ctx1.readingAt i) t = true →
                Spec.slotValue (ctx1.readingAt i) t 0 = Spec.slotValue (ctx2.readingAt i) t 0
                  ∧ (multiplicityOf ctx1 t = 2 →
                      Spec.slotValue (ctx1.readingAt i) t 1
                        = Spec.slotValue (ctx2.readingAt i) t 1) := by
  have hc1 : ctx1.reading_count ≤ 20 := hcount1
  have hc2 : ctx2.reading_count ≤ 20 := hcount2
  have hp : Spec.payload ctx1 = Spec.payload ctx2 := by
    rw [encode_ok ctx1 mem1 cap1 hpos1 hcount1 hcap1 hfit1,
      encode_ok ctx2 mem2 cap2 hpos2 hcount2 hcap2 hfit2,
      calculateTotalSize_eq ctx1 (by omega), calculateTotalSize_eq ctx2 (by omega)] at hsame
    simp only [firstBytes] at hsame
    rw [map_blit_range, map_blit_range] at hsame
    exact hsame
  unfold Spec.payload at hp
  simp only [List.cons_append, List.nil_append, List.cons.injEq] at hp
  obtain ⟨hmd, hiv, hrb⟩ := hp
  obtain ⟨hv, hdual, hded⟩ := metadata_decode ctx1 ctx2 hmd
  rw [readingsBytes_eq_flatMap ctx1 ctx1.header _ (Eq.refl _) (Eq.refl _),
    readingsBytes_eq_flatMap ctx2 ctx1.header _ hdual.symm hded.symm] at hrb
  have hall := readings_decode ctx1.header _ _
    (fun r hr => by
      obtain ⟨i, hi, rfl⟩ := List.mem_map.mp hr
      exact hr1 i (List.mem_range.mp hi))
    (fun r hr => by
      obtain ⟨i, hi, rfl⟩ := List.mem_map.mp hr
      exact hr2 i (List.mem_range.mp hi))
    hrb
  obtain ⟨hlen, hget⟩ := List.forall₂_iff_get.mp hall
  simp only [List.length_map, List.length_range] at hlen
  refine ⟨hv, hdual, hded, hiv, hlen, ?_⟩
  intro i hi
  have hg := hget i (by simpa using hi) (by simpa using (hlen ▸ hi))
  simp only [List.get_eq_getElem, List.getElem_map, List.getElem_range] at hg
  refine ⟨hg.1, ?_⟩
  intro t ht hb
  rw [isFlagSet_eq _ _ ht] at hb
  have hs := hg.2 t ht hb
  exact ⟨hs.1, fun hm => hs.2 (by rw [← multiplicityOf_eq ctx1 t ht]; exact hm)⟩

theorem encoding_uniquely_decodable_witness :
    (1 ≤ mixedCtx.reading_count ∧ calculateTotalSize mixedCtx ≤ 18
        ∧ calculateTotalSize mixedCtxReversed ≤ 32)
      ∧ mixedCtx.reading_count = mixedCtxReversed.reading_count
      ∧ (mixedCtx.readingAt 0).presence_mask = (mixedCtxReversed.readingAt 0).presence_mask :=
  ⟨⟨by decide, by decide, by decide⟩,
    (encoding_uniquely_decodable mixedCtx mixedCtxReversed demoMem (fun _ => 0) 18 32
      (by decide) (by decide) (by decide) (by decide) (by decide) (by decide) (by decide)
      (by decide) (by decide) (by decide) (by decide)).2.2.2.2.1,
    ((encoding_uniquely_decodable mixedCtx mixedCtxReversed demoMem (fun _ => 0) 18 32
      (by decide) (by decide) (by decide) (by decide) (by decide) (by decide) (by decide)
      (by decide) (by decide) (by decide) (by decide)).2.2.2.2.2 0 (by decide)).1⟩

end AirgradientPayload
